import Mathlib

set_option linter.unusedVariables false

/-!
SwUDP ("Simple Wrapper over UDP"): a shallow embedding of `network/swudp.go`

The sender (`senderT`), the receiver (`receiverT`), the ring helpers `next` and `after`
and the header framing of `SwUDP.OnReceived` are translated function by function.

Modelling conventions.

* A Go `byte` is `Fin 256`; every conversion `byte(e)` is the explicit `byteOf e = e % 256`.
* A Go `uint` is a natural number kept below `uintSize = 2 ^ 64`; every arithmetic operation
  on it is reduced modulo `uintSize` explicitly.
* A Go `float32` is the rational number it denotes, and every `float32` operation is the
  exact operation followed by the rounding `f32` to the nearest `float32` value, ties to
  even (see the section on `float32` below). An untyped constant (`rc`, `ac`) is an exact
  rational that is converted with `f32` where it meets a `float32` operand; `1 - rc` is a
  constant expression, so it is evaluated exactly and then converted. `uint(f)` truncates,
  which for the non-negative values that occur is the floor.
* A ring `[256]*itemT` is a function `Byte → Option itemT`; `nil` is `none`.
* `*net.UDPAddr` is `Option Nat` (`none` is the nil pointer).
* The socket, the handler and the `IProtocol` back reference are output only: every method
  returns the new state together with the list of calls it made on them, in program order
  (`Event`).  `WriteToUDP` is taken to succeed, so the only errors returned are the ones the
  code creates itself with `NewErr`.
* Locks and the `lastTime` stamps are not modelled.
-/

namespace Swudp

/-- A Go `byte`. -/
abbrev Byte := Fin 256

/-- A Go `*net.UDPAddr`; `none` is the nil pointer. -/
abbrev Addr := Option Nat

/-- The Go conversion `byte(k)` of an unsigned integer. -/
def byteOf (k : Nat) : Byte := ⟨k % 256, Nat.mod_lt _ (by decide)⟩

/-- Number of values of a Go `uint` (64-bit platform). -/
def uintSize : Nat := 2 ^ 64

/-- SwUDP ring size (the range of ids is 0-255). -/
def n : Nat := 256

/-- SwUDP Syn flag. -/
def syn : Byte := 0

/-- SwUDP error ack. -/
def errAck : Byte := 1

/-- SwUDP maximum send attempts count. -/
def maxAttempts : Nat := 9

/-- SwUDP maximum of pending messages to store in the receiver buffer. -/
def maxPending : Nat := 5

/-- SwUDP minimum threshold for the smoothed round trip time, in ticks. -/
def minSRTT : ℚ := 2

/-- SwUDP default smoothed round trip time, in ticks. -/
def defaultSRTT : ℚ := 5

/-- SwUDP maximum threshold for the smoothed round trip time, in ticks. -/
def maxSRTT : ℚ := 25 / 2

/-- SwUDP RTT coefficient `rc = 0.8`. -/
def rc : ℚ := 4 / 5

/-- SwUDP assurance coefficient `ac = 2.2`. -/
def ac : ℚ := 11 / 5

/-- The function `MinF` of `utils.go`. -/
def MinF (a b : ℚ) : ℚ := if a ≤ b then a else b

/-- The function `MaxF` of `utils.go`. -/
def MaxF (a b : ℚ) : ℚ := if a ≥ b then a else b

/-- The Go conversion `uint(f)` of a float. -/
def toUint (f : ℚ) : Nat := ⌊f⌋₊ % uintSize

/-! ## float32

A Go `float32` value is modelled by the rational number it denotes. Every arithmetic
operation of the source on `float32` operands is the exact operation followed by `f32`,
rounding to the nearest `float32` value with ties to the even significand (IEEE 754
binary32, the default rounding; no fused multiply-add, as on amd64). Infinities and NaN are
not modelled: `f32` has no upper exponent limit, and the values that occur (`srtt` within
`[0, 12.5]`, tick counts below `2 ^ 64`) stay far below the largest `float32`. -/

/-- Round to the nearest integer, ties to the even one. -/
def roundEven (x : ℚ) : ℤ :=
  if x - ⌊x⌋ < 1 / 2 then ⌊x⌋
  else if 1 / 2 < x - ⌊x⌋ then ⌊x⌋ + 1
  else if ⌊x⌋ % 2 = 0 then ⌊x⌋ else ⌊x⌋ + 1

/-- The binary exponent of the `float32` binade of `x`: `⌊log2 |x|⌋`, but at least `-126`
(below `2 ^ (-126)` the values are subnormal and share the exponent `-126`). -/
def f32Exp (x : ℚ) : ℤ := max (Int.log 2 |x|) (-126)

/-- The conversion to `float32`: round `x` to the nearest multiple of the spacing
`2 ^ (f32Exp x - 23)` of its binade (24 significant bits), ties to even. -/
def f32 (x : ℚ) : ℚ :=
  if x = 0 then 0 else (roundEven (x / 2 ^ (f32Exp x - 23)) : ℚ) * 2 ^ (f32Exp x - 23)

/-- The `float32` multiplication `a * b`. -/
def mulF32 (a b : ℚ) : ℚ := f32 (a * b)

/-- The `float32` addition `a + b`. -/
def addF32 (a b : ℚ) : ℚ := f32 (a + b)

/-- The `itemT` of the source: one ring slot. -/
structure itemT where
  ack : Bool := false
  startRtt : Nat := 0
  ticks : Nat := 0
  attempt : Nat := 0
  nextRepeat : Nat := 0
  msg : List Byte := []
  addr : Addr := none

/-- A call made on the socket, the handler or the protocol back reference. -/
inductive Event where
  | write (data : List Byte) (addr : Addr)
  | onReceived (crcid : Nat) (msg : List Byte)
  | OnSenderConnected
  | OnReceiverConnected (crcid : Nat) (addr : Addr)
  | ConnectionFailed (crcid : Nat)
  deriving DecidableEq, Repr

/-- Number of occupied slots of a ring. -/
def occupied (b : Byte → Option itemT) : Nat :=
  (Finset.univ.filter (fun j => (b j).isSome = true)).card

/-- The function `next` of the source: the next SwUDP id. -/
def next (n : Byte) : Byte :=
  let result := byteOf (n.val + 1)
  if result ≠ syn ∧ result ≠ errAck then result else next result
termination_by (257 - n.val) % 256
decreasing_by
  rename_i h
  have hn := n.isLt
  have h2 : (byteOf (n.val + 1)).val = 0 ∨ (byteOf (n.val + 1)).val = 1 := by
    by_contra hc
    push_neg at hc
    apply h
    constructor
    · intro h0
      exact hc.1 (congrArg Fin.val h0)
    · intro h1
      exact hc.2 (congrArg Fin.val h1)
  simp only [byteOf] at h2 ⊢
  omega

/-- The function `after` of the source: `(y - x) > n/2` in byte arithmetic. -/
def after (x y : Byte) : Bool :=
  decide ((byteOf (y.val + 256 - x.val)).val > n / 2)

/-- The five header bytes `id, crcid>>24, crcid>>16, crcid>>8, crcid`. -/
def header (id : Byte) (crcid : Nat) : List Byte :=
  [id, byteOf (crcid >>> 24), byteOf (crcid >>> 16), byteOf (crcid >>> 8), byteOf crcid]

/-- The header parse at the top of `SwUDP.OnReceived`: `none` when the datagram is shorter
than 5 bytes, otherwise the id `data[0]`, the connection id read big-endian from
`data[1..4]`, and the rest `data[5:]`. -/
def parseHeader (data : List Byte) : Option (Byte × Nat × List Byte) :=
  match data with
  | d0 :: d1 :: d2 :: d3 :: d4 :: rest =>
    some (d0, (d1.val <<< 24) ||| (d2.val <<< 16) ||| (d3.val <<< 8) ||| d4.val, rest)
  | _ => none

/-! ## Sender -/

/-- The `senderT` of the source. -/
structure senderT where
  id : Byte
  expectedAck : Byte
  connected : Bool
  srtt : ℚ
  totalTicks : Nat
  crcid : Nat
  buffer : Byte → Option itemT

/-- The function `newSender`: every field has its zero value. -/
def newSender : senderT :=
  { id := 0, expectedAck := 0, connected := false, srtt := 0, totalTicks := 0, crcid := 0,
    buffer := fun _ => none }

/-- The method `senderT.connect`. -/
def senderT.connect (s : senderT) (crcID : Nat) (addr : Addr) : senderT × List Event :=
  let msg := header syn crcID ++ [byteOf 0xFD]
  let it : itemT := { msg := msg, addr := addr }
  ({ s with
      crcid := crcID, id := syn, expectedAck := syn, srtt := defaultSRTT, totalTicks := 0,
      connected := false, buffer := Function.update (fun _ => none) syn (some it) },
   [Event.write msg addr])

/-- The method `senderT.send`; the third component is the code of the returned error. -/
def senderT.send (s : senderT) (msg : List Byte) (addr : Addr) :
    senderT × List Event × Option Nat :=
  if s.connected then
    let id := next s.id
    let data := header id s.crcid ++ msg
    let it : itemT := { startRtt := s.totalTicks, msg := data, addr := addr }
    ({ s with id := id, buffer := Function.update s.buffer id (some it) },
     [Event.write data addr], none)
  else (s, [], some 14)

/-- The method `senderT.accept`: drop the acknowledged items at the head of the ring. -/
def senderT.accept (s : senderT) : senderT :=
  match h : s.buffer s.expectedAck with
  | some it =>
    if it.ack then
      senderT.accept
        { s with buffer := Function.update s.buffer s.expectedAck none,
                 expectedAck := next s.expectedAck }
    else s
  | none => s
termination_by occupied s.buffer
decreasing_by
  unfold occupied
  apply Finset.card_lt_card
  rw [Finset.ssubset_iff_of_subset]
  · refine ⟨s.expectedAck, ?_, ?_⟩
    · simp [h]
    · simp
  · intro j hj
    simp only [Finset.mem_filter, Finset.mem_univ, true_and] at hj ⊢
    by_cases hje : j = s.expectedAck
    · subst hje
      simp at hj
    · simpa [Function.update, hje] using hj

/-- The method `senderT.onAck`. -/
def senderT.onAck (s : senderT) (ack : Byte) : senderT × List Event :=
  let s1 : senderT :=
    match s.buffer ack with
    | some it =>
      let s2 := { s with buffer := Function.update s.buffer ack (some { it with ack := true }) }
      if ack = s.expectedAck then
        let rtt := (s.totalTicks + uintSize - it.startRtt % uintSize + 1) % uintSize
        let newSrtt := addF32 (mulF32 (f32 rc) s.srtt) (mulF32 (f32 (1 - rc)) (f32 (rtt : ℚ)))
        senderT.accept { s2 with srtt := MinF (MaxF newSrtt minSRTT) maxSRTT }
      else s2
    | none => s
  if ack = syn then
    ({ s1 with connected := true }, [Event.OnSenderConnected])
  else if ack = errAck then
    ({ s1 with connected := false, buffer := fun _ => none }, [Event.ConnectionFailed s1.crcid])
  else (s1, [])

/-- The method `senderT.trigger`: one timer tick. -/
def senderT.trigger (s : senderT) : senderT × List Event :=
  let s1 := { s with totalTicks := (s.totalTicks + 1) % uintSize }
  let i := s1.expectedAck
  match s1.buffer i with
  | some it =>
    if it.ack = false then
      if it.attempt > maxAttempts then
        ({ s1 with connected := false, buffer := fun _ => none },
         [Event.ConnectionFailed s1.crcid])
      else if it.ticks = it.nextRepeat then
        let attempt := (it.attempt + 1) % uintSize
        let nextRepeat :=
          (it.nextRepeat + toUint (mulF32 (mulF32 (f32 ac) s1.srtt) (f32 (attempt : ℚ))))
            % uintSize
        if attempt > 1 then
          let it1 : itemT :=
            { it with attempt := attempt, nextRepeat := nextRepeat, startRtt := s1.totalTicks,
                      ticks := (it.ticks + 1) % uintSize }
          ({ s1 with buffer := Function.update s1.buffer i (some it1) },
           [Event.write it.msg it.addr])
        else
          let it1 : itemT :=
            { it with attempt := attempt, nextRepeat := nextRepeat,
                      ticks := (it.ticks + 1) % uintSize }
          ({ s1 with buffer := Function.update s1.buffer i (some it1) }, [])
      else
        let it1 : itemT := { it with ticks := (it.ticks + 1) % uintSize }
        ({ s1 with buffer := Function.update s1.buffer i (some it1) }, [])
    else (s1, [])
  | none => (s1, [])

/-! ## Receiver -/

/-- The `receiverT` of the source. -/
structure receiverT where
  expected : Byte
  connected : Bool
  pending : Byte
  buffer : Byte → Option itemT

/-- The function `newReceiver`: every field has its zero value. -/
def newReceiver : receiverT :=
  { expected := 0, connected := false, pending := 0, buffer := fun _ => none }

/-- The method `receiverT.accept`: hand the buffered items that are now in order to the
handler and remove them from the buffer. -/
def receiverT.accept (r : receiverT) (crcid : Nat) : receiverT × List Event :=
  match h : r.buffer r.expected with
  | some it =>
    let res := receiverT.accept
      { r with buffer := Function.update r.buffer r.expected none,
               expected := next r.expected } crcid
    (res.1, Event.onReceived crcid it.msg :: res.2)
  | none => (r, [])
termination_by occupied r.buffer
decreasing_by
  unfold occupied
  apply Finset.card_lt_card
  rw [Finset.ssubset_iff_of_subset]
  · refine ⟨r.expected, ?_, ?_⟩
    · simp [h]
    · simp
  · intro j hj
    simp only [Finset.mem_filter, Finset.mem_univ, true_and] at hj ⊢
    by_cases hje : j = r.expected
    · subst hje
      simp at hj
    · simpa [Function.update, hje] using hj

/-- The method `receiverT.onMsg`. -/
def receiverT.onMsg (r : receiverT) (id : Byte) (crcid : Nat) (msg : List Byte) (addr : Addr) :
    receiverT × List Event :=
  let ack := header id crcid
  if id = syn then
    ({ r with buffer := fun _ => none, expected := next id, connected := true, pending := 0 },
     [Event.write ack addr, Event.OnReceiverConnected crcid addr])
  else if r.connected then
    if id = r.expected then
      let res := receiverT.accept { r with expected := next id, pending := 0 } crcid
      (res.1, Event.write ack addr :: Event.onReceived crcid msg :: res.2)
    else if after id r.expected then
      let pending := byteOf (r.pending.val + 1)
      if pending.val < maxPending then
        ({ r with pending := pending, buffer := Function.update r.buffer id (some { msg := msg }) },
         [Event.write ack addr])
      else
        ({ r with pending := pending, connected := false, buffer := fun _ => none },
         [Event.write ack addr, Event.ConnectionFailed crcid])
    else (r, [Event.write ack addr])
  else (r, [Event.write (header errAck crcid) addr])

/-! ## Runs and scenarios -/

/-- The arguments of one call of `receiverT.onMsg`. -/
structure MsgCall where
  id : Byte
  crcid : Nat
  msg : List Byte
  addr : Addr

/-- A sequence of `receiverT.onMsg` calls: the final state and all calls made, in order. -/
def receiverT.run (r : receiverT) : List MsgCall → receiverT × List Event
  | [] => (r, [])
  | m :: ms =>
    let res := r.onMsg m.id m.crcid m.msg m.addr
    let rest := receiverT.run res.1 ms
    (rest.1, res.2 ++ rest.2)

/-- The payloads handed to the handler (`handler.onReceived`), in order. -/
def delivered (evs : List Event) : List (List Byte) :=
  evs.filterMap (fun e => match e with
    | Event.onReceived _ m => some m
    | _ => none)

/-- The datagrams written to the socket (`socket.WriteToUDP`), in order. -/
def written (evs : List Event) : List (List Byte) :=
  evs.filterMap (fun e => match e with
    | Event.write d _ => some d
    | _ => none)

/-- The connection failures signalled (`protocol.ConnectionFailed`), in order. -/
def failures (evs : List Event) : List Nat :=
  evs.filterMap (fun e => match e with
    | Event.ConnectionFailed c => some c
    | _ => none)

/-- Receiver states reachable from `newReceiver` by `onMsg` calls. -/
inductive receiverT.Reach : receiverT → Prop where
  | init : receiverT.Reach newReceiver
  | onMsg (r : receiverT) (id : Byte) (crcid : Nat) (msg : List Byte) (addr : Addr) :
      receiverT.Reach r → receiverT.Reach (r.onMsg id crcid msg addr).1

/-- Sender states reachable from `s0` by `connect`, `send`, `onAck` and `trigger` calls. -/
inductive senderT.Reach (s0 : senderT) : senderT → Prop where
  | init : senderT.Reach s0 s0
  | connect (s : senderT) (crcID : Nat) (addr : Addr) :
      senderT.Reach s0 s → senderT.Reach s0 (s.connect crcID addr).1
  | send (s : senderT) (msg : List Byte) (addr : Addr) :
      senderT.Reach s0 s → senderT.Reach s0 (s.send msg addr).1
  | onAck (s : senderT) (ack : Byte) :
      senderT.Reach s0 s → senderT.Reach s0 (s.onAck ack).1
  | trigger (s : senderT) :
      senderT.Reach s0 s → senderT.Reach s0 s.trigger.1

/-- The route of `SwUDP.OnReceived` into the receiver of the connection: a datagram of more
than 5 bytes goes to `onMsg` with the parsed header and `data[5:]`. -/
def receiverT.OnReceived (r : receiverT) (data : List Byte) (addr : Addr) :
    receiverT × List Event :=
  match parseHeader data with
  | some (id, crcid, rest) =>
    if data.length = 5 then (r, []) else r.onMsg id crcid rest addr
  | none => (r, [])

/-- The route of `SwUDP.OnReceived` into the sender of the connection: a datagram of exactly
5 bytes is an ack and goes to `onAck` with its first byte. -/
def senderT.OnReceived (s : senderT) (data : List Byte) : senderT × List Event :=
  match parseHeader data with
  | some (id, _, _) =>
    if data.length = 5 then s.onAck id else (s, [])
  | none => (s, [])

/-- One lock-step exchange: `send msg`, every datagram the sender wrote is received on the
receiver side, and every datagram the receiver wrote is received back on the sender side.
The result is the two states and the calls the receiver made. -/
def lockStep (s : senderT) (r : receiverT) (msg : List Byte) (addr back : Addr) :
    senderT × receiverT × List Event :=
  let a := s.send msg addr
  let b := (written a.2.1).foldl
    (fun acc d => ((acc.1.OnReceived d back).1, acc.2 ++ (acc.1.OnReceived d back).2)) (r, [])
  let c := (written b.2).foldl (fun acc d => (acc.OnReceived d).1) a.1
  (c, b.1, b.2)

/-- A sequence of lock-step exchanges, one per payload. -/
def lockStepRun (s : senderT) (r : receiverT) (addr back : Addr) :
    List (List Byte) → senderT × receiverT × List Event
  | [] => (s, r, [])
  | p :: ps =>
    let x := lockStep s r p addr back
    let y := lockStepRun x.1 x.2.1 addr back ps
    (y.1, y.2.1, x.2.2 ++ y.2.2)

/-- The calls made by each of `k` successive `trigger` calls with nothing in between. -/
def senderT.triggerTrace (s : senderT) : Nat → List (List Event)
  | 0 => []
  | k + 1 => s.trigger.2 :: senderT.triggerTrace s.trigger.1 k

/-- The state after `k` successive `trigger` calls with nothing in between. -/
def senderT.triggerN (s : senderT) : Nat → senderT
  | 0 => s
  | k + 1 => senderT.triggerN s.trigger.1 k

/-- The slot at `expectedAck` holds an unacknowledged message `msg` for `addr` with the given
tick count, attempt counter and `nextRepeat`, in a sender with the given `crcid` and `srtt`. -/
def senderT.Retrying (s : senderT) (crcid : Nat) (srtt : ℚ) (msg : List Byte) (addr : Addr)
    (ticks attempt nextRepeat : Nat) : Prop :=
  s.crcid = crcid ∧ s.srtt = srtt ∧
    ∃ it, s.buffer s.expectedAck = some it ∧ it.ack = false ∧ it.msg = msg ∧ it.addr = addr ∧
      it.ticks = ticks ∧ it.attempt = attempt ∧ it.nextRepeat = nextRepeat

/-- The retry spacing `uint(ac * srtt * float32(attempt))` added to `nextRepeat` by
`trigger`: two `float32` multiplications, then the conversion to `uint`. -/
def retryGap (srtt : ℚ) (attempt : Nat) : Nat :=
  toUint (mulF32 (mulF32 (f32 ac) srtt) (f32 (attempt : ℚ)))

/-- The calls expected from a sender that retries `j` times: before the `k`-th
retransmission `w` there are `gap k - 1` silent ticks. -/
def retrySchedule (w : Event) (gap : Nat → Nat) : Nat → List (List Event)
  | 0 => []
  | j + 1 => retrySchedule w gap j ++ (List.replicate (gap (j + 1) - 1) [] ++ [[w]])

/-- The sum `gap 1 + ... + gap j`: the ticks from the first scheduling check to the `j`-th
retransmission. -/
def retryTicks (gap : Nat → Nat) : Nat → Nat
  | 0 => 0
  | j + 1 => retryTicks gap j + gap (j + 1)

/-- A sequence of `send` calls to `addr` with nothing in between: the final state, all calls
made, and the error returned by each `send`, in order. -/
def senderT.sendAll (s : senderT) (addr : Addr) :
    List (List Byte) → senderT × List Event × List (Option Nat)
  | [] => (s, [], [])
  | m :: ms =>
    let a := s.send m addr
    let b := senderT.sendAll a.1 addr ms
    (b.1, a.2.1 ++ b.2.1, a.2.2 :: b.2.2)

/-- Sender states reachable from `newSender` by `connect`, `send`, `onAck` and `trigger`
calls, together with the connection id passed to the latest `connect` call (0 when `connect`
was never called). -/
inductive senderT.ReachId : senderT → Nat → Prop where
  | init : senderT.ReachId newSender 0
  | connect (s : senderT) (k crcID : Nat) (addr : Addr) :
      senderT.ReachId s k → senderT.ReachId (s.connect crcID addr).1 crcID
  | send (s : senderT) (k : Nat) (msg : List Byte) (addr : Addr) :
      senderT.ReachId s k → senderT.ReachId (s.send msg addr).1 k
  | onAck (s : senderT) (k : Nat) (ack : Byte) :
      senderT.ReachId s k → senderT.ReachId (s.onAck ack).1 k
  | trigger (s : senderT) (k : Nat) :
      senderT.ReachId s k → senderT.ReachId s.trigger.1 k

/-- Sender states reachable from `newSender` by `connect`, `send`, `onAck` and `trigger`
calls in which no `trigger` call overflows the tick counter: `trigger` is only called while
`totalTicks + 1` is still a value of `uint`. -/
inductive senderT.ReachNoWrap : senderT → Prop where
  | init : senderT.ReachNoWrap newSender
  | connect (s : senderT) (crcID : Nat) (addr : Addr) :
      senderT.ReachNoWrap s → senderT.ReachNoWrap (s.connect crcID addr).1
  | send (s : senderT) (msg : List Byte) (addr : Addr) :
      senderT.ReachNoWrap s → senderT.ReachNoWrap (s.send msg addr).1
  | onAck (s : senderT) (ack : Byte) :
      senderT.ReachNoWrap s → senderT.ReachNoWrap (s.onAck ack).1
  | trigger (s : senderT) :
      senderT.ReachNoWrap s → s.totalTicks + 1 < uintSize → senderT.ReachNoWrap s.trigger.1

/-! ## Protocol coordinator

The maps of `SwUDP` are association lists with unique keys. A method of a sender or receiver
is run on the object found under its key, the changed object is written back under that key,
and then the calls the method made on the `IProtocol` back reference are carried out on the
coordinator, in order. In the source the object is changed in place through its pointer and
each of these methods makes its protocol call after its last change to the object, so this
order gives the same maps. -/

/-- The `SwUDP` of the source: the three maps (the socket, the handler and the stop channels
are output only). -/
structure SwUDP where
  senders : AList (fun _ : Nat => senderT)
  receivers : AList (fun _ : Nat => receiverT)
  addresses : AList (fun _ : Nat => Addr)

/-- The method `SwUDP.getSender`: the sender registered under `crcid`, created by `newSender`
and registered when there is none. -/
def SwUDP.getSender (p : SwUDP) (crcid : Nat) : SwUDP × senderT :=
  match p.senders.lookup crcid with
  | some sender => (p, sender)
  | none => ({ p with senders := p.senders.insert crcid newSender }, newSender)

/-- The method `SwUDP.getReceiver`: the receiver registered under `crcid`, created by
`newReceiver` and registered when there is none. -/
def SwUDP.getReceiver (p : SwUDP) (crcid : Nat) : SwUDP × receiverT :=
  match p.receivers.lookup crcid with
  | some receiver => (p, receiver)
  | none => ({ p with receivers := p.receivers.insert crcid newReceiver }, newReceiver)

/-- The method `SwUDP.ConnectionFailed`: delete the sender and the receiver of `crcid`. -/
def SwUDP.ConnectionFailed (p : SwUDP) (crcid : Nat) : SwUDP :=
  { p with senders := p.senders.erase crcid, receivers := p.receivers.erase crcid }

/-- The method `SwUDP.OnReceiverConnected`: `connect` on the sender of `crcid`. -/
def SwUDP.OnReceiverConnected (p : SwUDP) (crcid : Nat) (addr : Addr) : SwUDP × List Event :=
  let g := p.getSender crcid
  let res := g.2.connect crcid addr
  ({ g.1 with senders := g.1.senders.insert crcid res.1 }, res.2)

/-- The effect on the coordinator of one call made by a sender or a receiver: the protocol
call-backs `ConnectionFailed` and `OnReceiverConnected` act on the maps, `OnSenderConnected`
only logs, and socket and handler calls do not touch the coordinator. The second component
lists the calls made in turn while the call-back runs. -/
def SwUDP.callback (p : SwUDP) : Event → SwUDP × List Event
  | Event.ConnectionFailed c => (p.ConnectionFailed c, [])
  | Event.OnReceiverConnected c a => p.OnReceiverConnected c a
  | _ => (p, [])

/-- The calls `evs` made by a sender or receiver method, carried out on the coordinator in
order; the second component lists every call made, nested ones included, in program order. -/
def SwUDP.callbacks (p : SwUDP) : List Event → SwUDP × List Event
  | [] => (p, [])
  | e :: es =>
    let a := p.callback e
    let b := SwUDP.callbacks a.1 es
    (b.1, e :: a.2 ++ b.2)

/-- The method `SwUDP.OnReceived`; the third component is the code of the returned error. -/
def SwUDP.OnReceived (p : SwUDP) (data : List Byte) (addr : Addr) :
    SwUDP × List Event × Option Nat :=
  match parseHeader data with
  | some (id, crcid, rest) =>
    let p1 : SwUDP := { p with addresses := p.addresses.insert crcid addr }
    if data.length = 5 then
      let g := p1.getSender crcid
      let res := g.2.onAck id
      let out := SwUDP.callbacks { g.1 with senders := g.1.senders.insert crcid res.1 } res.2
      (out.1, out.2, none)
    else
      let g := p1.getReceiver crcid
      let res := g.2.onMsg id crcid rest addr
      let out := SwUDP.callbacks { g.1 with receivers := g.1.receivers.insert crcid res.1 } res.2
      (out.1, out.2, none)
  | none => (p, [], some 11)

/-- The method `SwUDP.Send`; the third component is the code of the returned error. -/
def SwUDP.Send (p : SwUDP) (data : List Byte) (crcid : Nat) :
    SwUDP × List Event × Option Nat :=
  let g := p.getSender crcid
  match g.1.addresses.lookup crcid with
  | some addr =>
    let res := g.2.send data addr
    ({ g.1 with senders := g.1.senders.insert crcid res.1 }, res.2.1, res.2.2)
  | none => (g.1, [], some 10)

/-- The method `SwUDP.GetSendersCount`. -/
def SwUDP.GetSendersCount (p : SwUDP) : Nat := p.senders.entries.length

/-- The method `SwUDP.GetReceiversCount`. -/
def SwUDP.GetReceiversCount (p : SwUDP) : Nat := p.receivers.entries.length

/-! ## Recursion depth

The three recursive functions of the source with a bound on the number of recursive calls:
`fuel` is the number of recursive calls still allowed, and the result is `none` when the
source function would make one more. -/

/-- The function `next` with at most `fuel` recursive calls. -/
def nextFuel : Nat → Byte → Option Byte
  | 0, n =>
    let result := byteOf (n.val + 1)
    if result ≠ syn ∧ result ≠ errAck then some result else none
  | fuel + 1, n =>
    let result := byteOf (n.val + 1)
    if result ≠ syn ∧ result ≠ errAck then some result else nextFuel fuel result

/-- The method `senderT.accept` with at most `fuel` recursive calls. -/
def senderT.acceptFuel : Nat → senderT → Option senderT
  | 0, s =>
    match s.buffer s.expectedAck with
    | some it => if it.ack then none else some s
    | none => some s
  | fuel + 1, s =>
    match s.buffer s.expectedAck with
    | some it =>
      if it.ack then
        senderT.acceptFuel fuel
          { s with buffer := Function.update s.buffer s.expectedAck none,
                   expectedAck := next s.expectedAck }
      else some s
    | none => some s

/-- The method `receiverT.accept` with at most `fuel` recursive calls. -/
def receiverT.acceptFuel : Nat → receiverT → Nat → Option (receiverT × List Event)
  | 0, r, _ =>
    match r.buffer r.expected with
    | some _ => none
    | none => some (r, [])
  | fuel + 1, r, crcid =>
    match r.buffer r.expected with
    | some it =>
      match receiverT.acceptFuel fuel
          { r with buffer := Function.update r.buffer r.expected none,
                   expected := next r.expected } crcid with
      | some res => some (res.1, Event.onReceived crcid it.msg :: res.2)
      | none => none
    | none => some (r, [])

/-! ## Properties -/

/-! ### float32 rounding -/

theorem roundEven_intCast (z : ℤ) : roundEven (z : ℚ) = z := by
  unfold roundEven
  rw [Int.floor_intCast]
  simp

theorem roundEven_near (x : ℚ) (m : ℤ) (h : |x - m| < 1 / 2) : roundEven x = m := by
  rw [abs_lt] at h
  unfold roundEven
  by_cases hx : (m : ℚ) ≤ x
  · have hf : ⌊x⌋ = m := by
      rw [Int.floor_eq_iff]
      constructor
      · exact hx
      · linarith
    rw [hf, if_pos (by linarith)]
  · push_neg at hx
    have hf : ⌊x⌋ = m - 1 := by
      rw [Int.floor_eq_iff]
      push_cast
      constructor <;> linarith
    rw [hf]
    push_cast
    rw [if_neg (by linarith), if_pos (by linarith)]
    ring

theorem roundEven_bounds (x : ℚ) : (⌊x⌋ : ℤ) ≤ roundEven x ∧ roundEven x ≤ ⌊x⌋ + 1 := by
  unfold roundEven
  split_ifs <;> constructor <;> omega

theorem roundEven_floor_of_lt (x : ℚ) (h : x - ⌊x⌋ < 1 / 2) : roundEven x = ⌊x⌋ := by
  unfold roundEven
  rw [if_pos h]

theorem roundEven_succ_of_gt (x : ℚ) (h : 1 / 2 < x - ⌊x⌋) : roundEven x = ⌊x⌋ + 1 := by
  unfold roundEven
  rw [if_neg (by linarith), if_pos h]

theorem roundEven_mono (x y : ℚ) (h : x ≤ y) : roundEven x ≤ roundEven y := by
  have hfl : ⌊x⌋ ≤ ⌊y⌋ := Int.floor_mono h
  rcases lt_or_eq_of_le hfl with hlt | heq
  · have h1 := (roundEven_bounds x).2
    have h2 := (roundEven_bounds y).1
    omega
  · have hbx := roundEven_bounds x
    have hby := roundEven_bounds y
    by_cases hx : x - ⌊x⌋ < 1 / 2
    · rw [roundEven_floor_of_lt x hx]
      omega
    · by_cases hy : 1 / 2 < y - ⌊y⌋
      · rw [roundEven_succ_of_gt y hy]
        omega
      · have hx2 : x - ⌊x⌋ = 1 / 2 := by
          have : y - (⌊y⌋ : ℚ) ≤ 1 / 2 := not_lt.mp hy
          have hxy : x - (⌊x⌋ : ℚ) ≤ y - (⌊y⌋ : ℚ) := by
            rw [heq]
            linarith
          have : (1 : ℚ) / 2 ≤ x - ⌊x⌋ := not_lt.mp hx
          linarith
        have hy2 : y - ⌊y⌋ = 1 / 2 := by
          have h3 : y - (⌊y⌋ : ℚ) ≤ 1 / 2 := not_lt.mp hy
          have hxy : x - (⌊x⌋ : ℚ) ≤ y - (⌊y⌋ : ℚ) := by
            rw [heq]
            linarith
          linarith
        have hxy : x = y := by
          have : (⌊x⌋ : ℚ) = ⌊y⌋ := by rw [heq]
          linarith
        rw [hxy]

theorem f32_zero : f32 0 = 0 := by
  unfold f32
  rw [if_pos rfl]

theorem f32Exp_eq (x : ℚ) (e : ℤ) (he : -126 ≤ e) (h1 : (2 : ℚ) ^ e ≤ |x|)
    (h2 : |x| < (2 : ℚ) ^ (e + 1)) : f32Exp x = e := by
  have hpos : (0 : ℚ) < |x| := lt_of_lt_of_le (zpow_pos (by norm_num) e) h1
  have hlog : Int.log 2 |x| = e := by
    apply le_antisymm
    · have := (Int.lt_zpow_iff_log_lt (by norm_num : 1 < 2) hpos (x := e + 1)).mp
        (by exact_mod_cast h2)
      omega
    · exact (Int.zpow_le_iff_le_log (by norm_num : 1 < 2) hpos).mp (by exact_mod_cast h1)
  unfold f32Exp
  rw [hlog]
  exact max_eq_left he

theorem f32Exp_sub (x : ℚ) (hx : x ≠ 0) (h : |x| < (2 : ℚ) ^ (-126 : ℤ)) :
    f32Exp x = -126 := by
  unfold f32Exp
  apply max_eq_right
  have hpos : (0 : ℚ) < |x| := abs_pos.mpr hx
  have := (Int.lt_zpow_iff_log_lt (by norm_num : 1 < 2) hpos (x := -126)).mp
    (by exact_mod_cast h)
  omega

theorem f32Exp_ge (x : ℚ) : -126 ≤ f32Exp x := le_max_right _ _

theorem f32Exp_spec (x : ℚ) (hx : x ≠ 0) :
    |x| < (2 : ℚ) ^ (f32Exp x + 1) ∧ (-126 < f32Exp x → (2 : ℚ) ^ f32Exp x ≤ |x|) := by
  constructor
  · have h := Int.lt_zpow_succ_log_self (by norm_num : 1 < 2) |x|
    have hle : Int.log 2 |x| + 1 ≤ f32Exp x + 1 := by
      have := le_max_left (Int.log 2 |x|) (-126)
      unfold f32Exp
      omega
    calc |x| < ((2 : ℕ) : ℚ) ^ (Int.log 2 |x| + 1) := h
      _ = (2 : ℚ) ^ (Int.log 2 |x| + 1) := by norm_num
      _ ≤ (2 : ℚ) ^ (f32Exp x + 1) := zpow_le_zpow_right₀ (by norm_num) hle
  · intro hgt
    have hlog : f32Exp x = Int.log 2 |x| := by
      unfold f32Exp at hgt ⊢
      apply max_eq_left
      by_contra hc
      push_neg at hc
      rw [max_eq_right (le_of_lt hc)] at hgt
      omega
    have hpos : (0 : ℚ) < |x| := abs_pos.mpr hx
    rw [hlog]
    have := Int.zpow_log_le_self (by norm_num : 1 < 2) hpos
    exact_mod_cast this

theorem f32_of (x : ℚ) (e m : ℤ) (he : -126 ≤ e) (h1 : (2 : ℚ) ^ e ≤ |x|)
    (h2 : |x| < (2 : ℚ) ^ (e + 1)) (hm : |x / 2 ^ (e - 23) - m| < 1 / 2) :
    f32 x = (m : ℚ) * 2 ^ (e - 23) := by
  have hx : x ≠ 0 := by
    intro h0
    rw [h0, abs_zero] at h1
    exact absurd h1 (not_le.mpr (zpow_pos (by norm_num) e))
  unfold f32
  rw [if_neg hx, f32Exp_eq x e he h1 h2, roundEven_near _ m hm]

theorem f32_pos_form (x : ℚ) (hx : x ≠ 0) :
    f32 x = (roundEven (x / 2 ^ (f32Exp x - 23)) : ℚ) * 2 ^ (f32Exp x - 23) := by
  unfold f32
  rw [if_neg hx]

theorem f32_exact (m k : ℤ) (hm : |m| < 2 ^ 24) (hk : -149 ≤ k) :
    f32 ((m : ℚ) * 2 ^ k) = (m : ℚ) * 2 ^ k := by
  by_cases hm0 : m = 0
  · subst hm0
    simp only [Int.cast_zero, zero_mul]
    exact f32_zero
  have h2 : (2 : ℚ) ≠ 0 := by norm_num
  have hx : (m : ℚ) * 2 ^ k ≠ 0 :=
    mul_ne_zero (Int.cast_ne_zero.mpr hm0) (zpow_ne_zero k h2)
  have hE : f32Exp ((m : ℚ) * 2 ^ k) ≤ k + 23 := by
    by_contra hc
    push_neg at hc
    have hgt : -126 < f32Exp ((m : ℚ) * 2 ^ k) := by omega
    have h1 := (f32Exp_spec _ hx).2 hgt
    have habs : |(m : ℚ) * 2 ^ k| < 2 ^ (24 + k) := by
      rw [abs_mul, abs_of_pos (zpow_pos (by norm_num : (0 : ℚ) < 2) k), zpow_add₀ h2]
      apply mul_lt_mul_of_pos_right _ (zpow_pos (by norm_num) k)
      have e24 : (2 : ℚ) ^ (24 : ℤ) = ((2 ^ 24 : ℤ) : ℚ) := by norm_num
      rw [e24, ← Int.cast_abs]
      exact Int.cast_lt.mpr hm
    have h3 : (2 : ℚ) ^ f32Exp ((m : ℚ) * 2 ^ k) < 2 ^ (24 + k) := lt_of_le_of_lt h1 habs
    have h4 := (zpow_lt_zpow_iff_right₀ (by norm_num : (1 : ℚ) < 2)).mp h3
    omega
  rw [f32_pos_form _ hx]
  obtain ⟨j, hj⟩ : ∃ j : ℕ, (j : ℤ) = k - (f32Exp ((m : ℚ) * 2 ^ k) - 23) :=
    ⟨(k - (f32Exp ((m : ℚ) * 2 ^ k) - 23)).toNat, Int.toNat_of_nonneg (by omega)⟩
  have hdiv : (m : ℚ) * 2 ^ k / 2 ^ (f32Exp ((m : ℚ) * 2 ^ k) - 23) = ((m * 2 ^ j : ℤ) : ℚ) := by
    rw [mul_div_assoc, ← zpow_sub₀ h2, ← hj]
    push_cast
    rw [zpow_natCast]
  rw [hdiv, roundEven_intCast, ← hdiv]
  exact div_mul_cancel₀ _ (zpow_ne_zero _ h2)

theorem f32_natCast (k : ℕ) (hk : k < 2 ^ 24) : f32 (k : ℚ) = k := by
  have h := f32_exact (k : ℤ) 0 (by
    rw [abs_of_nonneg (Int.natCast_nonneg k)]
    exact_mod_cast hk) (by norm_num)
  simpa using h

theorem f32_nonneg (x : ℚ) (hx : 0 ≤ x) : 0 ≤ f32 x := by
  by_cases h0 : x = 0
  · rw [h0, f32_zero]
  · rw [f32_pos_form x h0]
    have hq : (0 : ℚ) < 2 ^ (f32Exp x - 23) := zpow_pos (by norm_num) _
    apply mul_nonneg _ (le_of_lt hq)
    have h1 : (0 : ℚ) ≤ x / 2 ^ (f32Exp x - 23) := div_nonneg hx (le_of_lt hq)
    have h2 : (0 : ℤ) ≤ ⌊x / 2 ^ (f32Exp x - 23)⌋ := Int.floor_nonneg.mpr h1
    have h3 := (roundEven_bounds (x / 2 ^ (f32Exp x - 23))).1
    exact_mod_cast le_trans h2 h3

theorem f32_le_binade (x : ℚ) (hx : 0 < x) : f32 x ≤ 2 ^ (f32Exp x + 1) := by
  have h2 : (2 : ℚ) ≠ 0 := by norm_num
  rw [f32_pos_form x (ne_of_gt hx)]
  have hq : (0 : ℚ) < 2 ^ (f32Exp x - 23) := zpow_pos (by norm_num) _
  have hlt := (f32Exp_spec x (ne_of_gt hx)).1
  rw [abs_of_pos hx] at hlt
  have hdiv : x / 2 ^ (f32Exp x - 23) ≤ (((2 : ℤ) ^ 24 : ℤ) : ℚ) := by
    rw [div_le_iff₀ hq]
    have e : ((((2 : ℤ) ^ 24 : ℤ) : ℚ)) * 2 ^ (f32Exp x - 23) = 2 ^ (f32Exp x + 1) := by
      have e1 : f32Exp x + 1 = 24 + (f32Exp x - 23) := by ring
      rw [e1, zpow_add₀ h2]
      norm_num
    rw [e]
    exact le_of_lt hlt
  have hr := roundEven_mono _ _ hdiv
  rw [roundEven_intCast] at hr
  have e1 : f32Exp x + 1 = 24 + (f32Exp x - 23) := by ring
  rw [e1, zpow_add₀ h2]
  apply mul_le_mul_of_nonneg_right _ (le_of_lt hq)
  have e24 : (2 : ℚ) ^ (24 : ℤ) = ((2 ^ 24 : ℤ) : ℚ) := by norm_num
  rw [e24]
  exact Int.cast_le.mpr hr

theorem f32_ge_binade (x : ℚ) (hx : 0 < x) (hE : -126 < f32Exp x) : 2 ^ f32Exp x ≤ f32 x := by
  have h2 : (2 : ℚ) ≠ 0 := by norm_num
  rw [f32_pos_form x (ne_of_gt hx)]
  have hq : (0 : ℚ) < 2 ^ (f32Exp x - 23) := zpow_pos (by norm_num) _
  have hge := (f32Exp_spec x (ne_of_gt hx)).2 hE
  rw [abs_of_pos hx] at hge
  have hdiv : (((2 : ℤ) ^ 23 : ℤ) : ℚ) ≤ x / 2 ^ (f32Exp x - 23) := by
    rw [le_div_iff₀ hq]
    have e : ((((2 : ℤ) ^ 23 : ℤ) : ℚ)) * 2 ^ (f32Exp x - 23) = 2 ^ f32Exp x := by
      have e1 : f32Exp x = 23 + (f32Exp x - 23) := by ring
      conv_rhs => rw [e1, zpow_add₀ h2]
      norm_num
    rw [e]
    exact hge
  have hr := roundEven_mono _ _ hdiv
  rw [roundEven_intCast] at hr
  have e1 : f32Exp x = 23 + (f32Exp x - 23) := by ring
  conv_lhs => rw [e1, zpow_add₀ h2]
  apply mul_le_mul_of_nonneg_right _ (le_of_lt hq)
  have e23 : (2 : ℚ) ^ (23 : ℤ) = ((2 ^ 23 : ℤ) : ℚ) := by norm_num
  rw [e23]
  exact Int.cast_le.mpr hr

theorem f32Exp_mono (x y : ℚ) (hx : 0 < x) (h : x ≤ y) : f32Exp x ≤ f32Exp y := by
  unfold f32Exp
  apply max_le_max _ (le_refl _)
  rw [abs_of_pos hx, abs_of_pos (lt_of_lt_of_le hx h)]
  exact Int.log_mono_right hx h

theorem f32_mono (x y : ℚ) (hx : 0 ≤ x) (h : x ≤ y) : f32 x ≤ f32 y := by
  by_cases h0 : x = 0
  · rw [h0, f32_zero]
    exact f32_nonneg y (le_trans hx h)
  have hxp : 0 < x := lt_of_le_of_ne hx (Ne.symm h0)
  have hyp : 0 < y := lt_of_lt_of_le hxp h
  rcases lt_or_eq_of_le (f32Exp_mono x y hxp h) with hlt | heq
  · have h1 := f32_le_binade x hxp
    have h2 := f32_ge_binade y hyp (lt_of_le_of_lt (f32Exp_ge x) hlt)
    have h3 : (2 : ℚ) ^ (f32Exp x + 1) ≤ 2 ^ f32Exp y :=
      zpow_le_zpow_right₀ (by norm_num) (by omega)
    exact le_trans h1 (le_trans h3 h2)
  · rw [f32_pos_form x h0, f32_pos_form y (ne_of_gt hyp), heq]
    have hq : (0 : ℚ) < 2 ^ (f32Exp y - 23) := zpow_pos (by norm_num) _
    apply mul_le_mul_of_nonneg_right _ (le_of_lt hq)
    exact Int.cast_le.mpr (roundEven_mono _ _ (div_le_div_of_nonneg_right h (le_of_lt hq)))

theorem f32_of_pos (x : ℚ) (e m : ℤ) (he : -126 ≤ e) (h1 : (2 : ℚ) ^ e ≤ x)
    (h2 : x < (2 : ℚ) ^ (e + 1)) (hm1 : (m : ℚ) - 1 / 2 < x / 2 ^ (e - 23))
    (hm2 : x / 2 ^ (e - 23) < (m : ℚ) + 1 / 2) : f32 x = (m : ℚ) * 2 ^ (e - 23) := by
  have hx : 0 < x := lt_of_lt_of_le (zpow_pos (by norm_num) e) h1
  apply f32_of x e m he
  · rw [abs_of_pos hx]
    exact h1
  · rw [abs_of_pos hx]
    exact h2
  · rw [abs_lt]
    constructor <;> linarith

theorem f32_rc : f32 rc = 13421773 / 16777216 := by
  have h := f32_of_pos rc (-1) 13421773 (by norm_num) (by unfold rc; norm_num)
    (by unfold rc; norm_num) (by unfold rc; norm_num) (by unfold rc; norm_num)
  rw [h]
  norm_num

theorem f32_one_sub_rc : f32 (1 - rc) = 13421773 / 67108864 := by
  have h := f32_of_pos (1 - rc) (-3) 13421773 (by norm_num) (by unfold rc; norm_num)
    (by unfold rc; norm_num) (by unfold rc; norm_num) (by unfold rc; norm_num)
  rw [h]
  norm_num

theorem f32_ac : f32 ac = 9227469 / 4194304 := by
  have h := f32_of_pos ac 1 9227469 (by norm_num) (by unfold ac; norm_num)
    (by unfold ac; norm_num) (by unfold ac; norm_num) (by unfold ac; norm_num)
  rw [h]
  norm_num

theorem f32_ofNat_small (k : ℕ) (hk : k ≤ 275) : f32 (k : ℚ) = k :=
  f32_natCast k (lt_of_le_of_lt hk (by norm_num))

theorem f32_four : f32 4 = 4 := by
  have h := f32_ofNat_small 4 (by norm_num)
  simpa using h

theorem f32_275 : f32 275 = 275 := by
  have h := f32_ofNat_small 275 (by norm_num)
  simpa using h

theorem mulF32_ac_bounds (q : ℚ) (hlo : 2 ≤ q) (hhi : q ≤ 25 / 2) :
    4 ≤ mulF32 (f32 ac) q ∧ mulF32 (f32 ac) q ≤ 55 / 2 := by
  unfold mulF32
  rw [f32_ac]
  constructor
  · have h := f32_mono 4 (9227469 / 4194304 * q) (by norm_num) (by linarith)
    rw [f32_four] at h
    exact h
  · have h := f32_mono (9227469 / 4194304 * q) (9227469 / 4194304 * (25 / 2))
      (by positivity) (by linarith)
    have e : f32 (9227469 / 4194304 * (25 / 2)) = 55 / 2 := by
      have h := f32_of_pos (9227469 / 4194304 * (25 / 2)) 4 14417920 (by norm_num)
        (by norm_num) (by norm_num) (by norm_num) (by norm_num)
      rw [h]
      norm_num
    rw [e] at h
    exact h


/-! ### Ring helpers -/

theorem byteOf_val (k : Nat) : (byteOf k).val = k % 256 := rfl

theorem next_unfold (n : Byte) :
    next n = if byteOf (n.val + 1) ≠ syn ∧ byteOf (n.val + 1) ≠ errAck then byteOf (n.val + 1)
      else next (byteOf (n.val + 1)) := by
  rw [next]

theorem next_one : next 1 = 2 := by
  rw [next_unfold]; decide

theorem next_zero : next 0 = 2 := by
  rw [next_unfold]
  have h : byteOf ((0 : Byte).val + 1) = 1 := by decide
  rw [h, next_one]; decide

theorem next_val (n : Byte) :
    (next n).val = if 1 ≤ n.val ∧ n.val ≤ 254 then n.val + 1 else 2 := by
  rw [next_unfold]
  have hn := n.isLt
  by_cases h : 1 ≤ n.val ∧ n.val ≤ 254
  · have h1 : byteOf (n.val + 1) ≠ syn ∧ byteOf (n.val + 1) ≠ errAck := by
      constructor <;> intro hc <;> have := congrArg Fin.val hc <;>
        simp [byteOf, syn, errAck] at this <;> omega
    rw [if_pos h1, if_pos h, byteOf_val]
    omega
  · rw [if_neg h]
    have h2 : n.val = 0 ∨ n.val = 255 := by omega
    rcases h2 with h2 | h2
    · have h3 : byteOf (n.val + 1) = 1 := by rw [h2]; decide
      rw [h3, next_one]; decide
    · have h3 : byteOf (n.val + 1) = 0 := by rw [h2]; decide
      rw [h3, next_zero]; decide

theorem next_syn : next syn = 2 := next_zero

theorem next_ge_two (n : Byte) : 2 ≤ (next n).val := by
  rw [next_val]; split <;> omega

theorem next_ne_self (n : Byte) : next n ≠ n := by
  intro h
  have h1 := congrArg Fin.val h
  rw [next_val] at h1
  have hn := n.isLt
  split at h1
  · omega
  · rename_i hc
    omega

theorem next_ne_reserved (k : Byte) : next k ≠ syn ∧ next k ≠ errAck := by
  have h := next_ge_two k
  constructor <;> intro hc <;> rw [hc] at h <;> revert h <;> decide

theorem after_iff (x y : Byte) :
    after x y = true ↔ 128 < (y.val + 256 - x.val) % 256 := by
  simp [after, byteOf, n]

/-- C8: `next n` is `n + 1` for `2 ≤ n ≤ 254` and `2` for `n` in `255, 0, 1`; in particular
`next 254 = 255` and `next 255 = 2`, and `next` never returns the reserved ids `syn = 0` and
`errAck = 1`. -/
theorem next_closed_form :
    (∀ k : Byte, (next k).val = if 2 ≤ k.val ∧ k.val ≤ 254 then k.val + 1 else 2) ∧
      next 254 = 255 ∧ next 255 = 2 ∧ next 0 = 2 ∧ next 1 = 2 ∧
      ∀ k : Byte, next k ≠ syn ∧ next k ≠ errAck := by
  refine ⟨?_, ?_, ?_, next_zero, next_one, ?_⟩
  · intro k
    rw [next_val]
    have hk := k.isLt
    by_cases h1 : k.val = 1
    · simp [h1]
    · by_cases h2 : 2 ≤ k.val ∧ k.val ≤ 254
      · have h3 : 1 ≤ k.val ∧ k.val ≤ 254 := ⟨by omega, h2.2⟩
        rw [if_pos h2, if_pos h3]
      · have h3 : ¬ (1 ≤ k.val ∧ k.val ≤ 254) := by omega
        rw [if_neg h2, if_neg h3]
  · apply Fin.ext
    rw [next_val]; decide
  · apply Fin.ext
    rw [next_val]; decide
  · exact next_ne_reserved

/-- C9, counterexample: the code judges id 3 to be after id 250 (`250 - 3 = 247 > 128` in
byte arithmetic), so `after 3 250` is not `false`. -/
theorem after_3_250_not_false : ¬ (after 3 250 = false) := by decide

/-- C9, amended: `after 3 250 = true` (id 3 is 9 steps ahead of id 250 on the 256-value
ring, so it is judged after it), and conversely `after 250 3 = false`. -/
theorem after_3_250_true : after 3 250 = true ∧ after 250 3 = false := by decide

/-! ### Framing -/

theorem be32_round_trip (c : Nat) (hc : c < 2 ^ 32) :
    (((c >>> 24) % 256) <<< 24) ||| (((c >>> 16) % 256) <<< 16) ||| (((c >>> 8) % 256) <<< 8)
      ||| (c % 256) = c := by
  apply Nat.eq_of_testBit_eq
  intro i
  have h256 : (256 : Nat) = 2 ^ 8 := by norm_num
  simp only [h256, Nat.testBit_or, Nat.testBit_shiftLeft, Nat.testBit_mod_two_pow,
    Nat.testBit_shiftRight]
  by_cases h32 : 32 ≤ i
  · have hlt : c < 2 ^ i := lt_of_lt_of_le hc (Nat.pow_le_pow_right (by norm_num) h32)
    have hc0 : c.testBit i = false := Nat.testBit_lt_two_pow hlt
    have e1 : ¬ (i - 24 < 8) := by omega
    have e2 : ¬ (i - 16 < 8) := by omega
    have e3 : ¬ (i - 8 < 8) := by omega
    have e4 : ¬ (i < 8) := by omega
    simp [e1, e2, e3, e4, hc0]
  · by_cases h24 : 24 ≤ i
    · have a1 : 24 + (i - 24) = i := by omega
      have e1 : (i - 24 < 8) := by omega
      have e2 : ¬ (i - 16 < 8) := by omega
      have e3 : ¬ (i - 8 < 8) := by omega
      have e4 : ¬ (i < 8) := by omega
      simp [e1, e2, e3, e4, a1, h24]
    · by_cases h16 : 16 ≤ i
      · have a1 : 16 + (i - 16) = i := by omega
        have e2 : (i - 16 < 8) := by omega
        have e3 : ¬ (i - 8 < 8) := by omega
        have e4 : ¬ (i < 8) := by omega
        simp [e2, e3, e4, a1, h24, h16]
      · by_cases h8 : 8 ≤ i
        · have a1 : 8 + (i - 8) = i := by omega
          have e3 : (i - 8 < 8) := by omega
          have e4 : ¬ (i < 8) := by omega
          simp [e3, e4, a1, h24, h16, h8]
        · have e4 : (i < 8) := by omega
          simp [e4, h24, h16, h8]

theorem parseHeader_header (id : Byte) (c : Nat) (p : List Byte) :
    parseHeader (header id c ++ p) = some (id, c % 2 ^ 32, p) := by
  simp only [header, parseHeader, List.cons_append, List.nil_append, byteOf_val]
  have h := be32_round_trip (c % 2 ^ 32) (Nat.mod_lt _ (by norm_num))
  have e : ∀ k, k ≤ 24 → ((c % 2 ^ 32) >>> k) % 256 = (c >>> k) % 256 := by
    intro k hk
    apply Nat.eq_of_testBit_eq
    intro i
    have h256 : (256 : Nat) = 2 ^ 8 := by norm_num
    simp only [h256, Nat.testBit_mod_two_pow, Nat.testBit_shiftRight]
    by_cases hi : i < 8
    · have : k + i < 32 := by omega
      simp [hi, this]
    · simp [hi]
  have e0 : (c % 2 ^ 32) % 256 = c % 256 := by
    have := e 0 (by norm_num)
    simpa using this
  rw [e 24 le_rfl, e 16 (by norm_num), e 8 (by norm_num), e0] at h
  rw [h]

theorem header_length (id : Byte) (c : Nat) : (header id c).length = 5 := rfl

/-- C7: the data packet written by `send` on a connected sender with connection id
`c < 2 ^ 32` and a non-empty payload `p` is `[id, c>>24, c>>16, c>>8, c] ++ p` where `id` is the
sequence id assigned to it, it is longer than 5 bytes, and the header parse of `OnReceived`
gives back the same `id`, the same `c` and the payload `p`. -/
theorem send_framing_round_trip (s : senderT) (id : Byte) (p : List Byte) (addr : Addr)
    (hconn : s.connected = true) (hid : next s.id = id) (hc : s.crcid < 2 ^ 32) (hp : p ≠ []) :
    (s.send p addr).2.1 =
        [Event.write ([id, byteOf (s.crcid >>> 24), byteOf (s.crcid >>> 16),
          byteOf (s.crcid >>> 8), byteOf s.crcid] ++ p) addr] ∧
      parseHeader ([id, byteOf (s.crcid >>> 24), byteOf (s.crcid >>> 16),
          byteOf (s.crcid >>> 8), byteOf s.crcid] ++ p) = some (id, s.crcid, p) ∧
      5 < ([id, byteOf (s.crcid >>> 24), byteOf (s.crcid >>> 16),
          byteOf (s.crcid >>> 8), byteOf s.crcid] ++ p).length := by
  refine ⟨?_, ?_, ?_⟩
  · simp [senderT.send, hconn, hid, header]
  · have h := parseHeader_header id s.crcid p
    rw [Nat.mod_eq_of_lt hc] at h
    exact h
  · cases p with
    | nil => exact absurd rfl hp
    | cons a t => simp

/-- C7, witness: a connected sender with id 0 and connection id `0x01020304` sending the
payload `[0x41]`. -/
theorem send_framing_round_trip_witness :
    (({ newSender with connected := true, crcid := 0x01020304 } : senderT).send [0x41] none).2.1
        = [Event.write ([2, byteOf (0x01020304 >>> 24), byteOf (0x01020304 >>> 16),
          byteOf (0x01020304 >>> 8), byteOf 0x01020304] ++ [0x41]) none] ∧
      parseHeader ([2, byteOf (0x01020304 >>> 24), byteOf (0x01020304 >>> 16),
          byteOf (0x01020304 >>> 8), byteOf 0x01020304] ++ [0x41])
        = some (2, 0x01020304, [0x41]) ∧
      5 < ([(2 : Byte), byteOf (0x01020304 >>> 24), byteOf (0x01020304 >>> 16),
          byteOf (0x01020304 >>> 8), byteOf 0x01020304] ++ [0x41]).length :=
  send_framing_round_trip { newSender with connected := true, crcid := 0x01020304 } 2 [0x41] none
    rfl next_zero (by norm_num) (by simp)

/-! ### Receiver: a packet ahead of the expected id -/

theorem after_irrefl (x : Byte) : after x x = false := by
  have hx := x.isLt
  have h : (x.val + 256 - x.val) % 256 = 0 := by
    have : x.val + 256 - x.val = 256 := by omega
    rw [this]
  simp [after, byteOf, n, h]

theorem onMsg_syn (r : receiverT) (crcid : Nat) (msg : List Byte) (addr : Addr) :
    r.onMsg syn crcid msg addr =
      ({ expected := 2, connected := true, pending := 0, buffer := fun _ => none },
       [Event.write (header syn crcid) addr, Event.OnReceiverConnected crcid addr]) := by
  simp [receiverT.onMsg, next_syn]

theorem onMsg_store (r : receiverT) (id : Byte) (crcid : Nat) (msg : List Byte) (addr : Addr)
    (hconn : r.connected = true) (hsyn : id ≠ syn) (haft : after id r.expected = true)
    (hp : (r.pending.val + 1) % 256 < maxPending) :
    r.onMsg id crcid msg addr =
      ({ r with pending := byteOf (r.pending.val + 1),
                buffer := Function.update r.buffer id (some { msg := msg }) },
       [Event.write (header id crcid) addr]) := by
  have hne : id ≠ r.expected := by
    intro h
    rw [h, after_irrefl] at haft
    exact Bool.false_ne_true haft
  simp [receiverT.onMsg, hconn, hsyn, hne, haft, byteOf, hp]

theorem onMsg_overflow (r : receiverT) (id : Byte) (crcid : Nat) (msg : List Byte) (addr : Addr)
    (hconn : r.connected = true) (hsyn : id ≠ syn) (haft : after id r.expected = true)
    (hp : maxPending ≤ (r.pending.val + 1) % 256) :
    r.onMsg id crcid msg addr =
      ({ r with pending := byteOf (r.pending.val + 1), connected := false,
                buffer := fun _ => none },
       [Event.write (header id crcid) addr, Event.ConnectionFailed crcid]) := by
  have hne : id ≠ r.expected := by
    intro h
    rw [h, after_irrefl] at haft
    exact Bool.false_ne_true haft
  have hp2 : ¬ ((r.pending.val + 1) % 256 < maxPending) := by omega
  simp [receiverT.onMsg, hconn, hsyn, hne, haft, byteOf, hp2]

/-- C10, counterexample: after a SYN and the four out-of-order ids 3, 4, 5, 6 the receiver is
connected with counter 4; the next out-of-order id 7 raises the counter to 5, which does not
exceed `maxPending = 5`, and yet the connection is declared failed. -/
theorem onMsg_fails_at_five :
    (newReceiver.run [⟨0, 7, [1], none⟩, ⟨3, 7, [1], none⟩, ⟨4, 7, [1], none⟩,
        ⟨5, 7, [1], none⟩, ⟨6, 7, [1], none⟩]).1.connected = true ∧
      (newReceiver.run [⟨0, 7, [1], none⟩, ⟨3, 7, [1], none⟩, ⟨4, 7, [1], none⟩,
        ⟨5, 7, [1], none⟩, ⟨6, 7, [1], none⟩]).1.pending = 4 ∧
      after 7 (newReceiver.run [⟨0, 7, [1], none⟩, ⟨3, 7, [1], none⟩, ⟨4, 7, [1], none⟩,
        ⟨5, 7, [1], none⟩, ⟨6, 7, [1], none⟩]).1.expected = true ∧
      ¬ (4 + 1 > maxPending) ∧
      (((newReceiver.run [⟨0, 7, [1], none⟩, ⟨3, 7, [1], none⟩, ⟨4, 7, [1], none⟩,
        ⟨5, 7, [1], none⟩, ⟨6, 7, [1], none⟩]).1.onMsg 7 7 [1] none).1.connected = false) ∧
      (((newReceiver.run [⟨0, 7, [1], none⟩, ⟨3, 7, [1], none⟩, ⟨4, 7, [1], none⟩,
        ⟨5, 7, [1], none⟩, ⟨6, 7, [1], none⟩]).1.onMsg 7 7 [1] none).2
          = [Event.write (header 7 7) none, Event.ConnectionFailed 7]) := by
  simp only [receiverT.run]
  have h0 : (0 : Byte) = syn := rfl
  rw [h0, onMsg_syn]
  rw [onMsg_store _ 3 _ _ _ rfl (by decide) (by decide) (by decide)]
  rw [onMsg_store _ 4 _ _ _ rfl (by decide) (by decide) (by decide)]
  rw [onMsg_store _ 5 _ _ _ rfl (by decide) (by decide) (by decide)]
  rw [onMsg_store _ 6 _ _ _ rfl (by decide) (by decide) (by decide)]
  rw [onMsg_overflow _ 7 _ _ _ rfl (by decide) (by decide) (by decide)]
  decide

/-- C10, amended: for a connected receiver and a non-SYN id that is after `expected`, `onMsg`
writes the normal ack `[id, connection id]` and increments the out-of-order counter (a byte).
It declares the connection failed (`connected = false`, buffer cleared, `ConnectionFailed`
signalled, payload not kept) exactly when the incremented counter is at least
`maxPending = 5`; when the incremented counter is 4 or less the connection stays up, the
payload is stored in buffer slot `id`, and nothing else changes. -/
theorem onMsg_ahead (r : receiverT) (id : Byte) (crcid : Nat) (msg : List Byte) (addr : Addr)
    (hconn : r.connected = true) (hsyn : id ≠ syn) (haft : after id r.expected = true) :
    written (r.onMsg id crcid msg addr).2 = [header id crcid] ∧
      delivered (r.onMsg id crcid msg addr).2 = [] ∧
      (r.onMsg id crcid msg addr).1.pending.val = (r.pending.val + 1) % 256 ∧
      (r.onMsg id crcid msg addr).1.expected = r.expected ∧
      ((r.pending.val + 1) % 256 < maxPending →
        (r.onMsg id crcid msg addr).1.connected = true ∧
        (r.onMsg id crcid msg addr).1.buffer = Function.update r.buffer id (some { msg := msg }) ∧
        (r.onMsg id crcid msg addr).2 = [Event.write (header id crcid) addr]) ∧
      (maxPending ≤ (r.pending.val + 1) % 256 →
        (r.onMsg id crcid msg addr).1.connected = false ∧
        (∀ j, (r.onMsg id crcid msg addr).1.buffer j = none) ∧
        (r.onMsg id crcid msg addr).2 =
          [Event.write (header id crcid) addr, Event.ConnectionFailed crcid]) := by
  have hne : id ≠ r.expected := by
    intro h
    rw [h, after_irrefl] at haft
    exact Bool.false_ne_true haft
  by_cases hp : (r.pending.val + 1) % 256 < maxPending
  · have hp2 : ¬ (maxPending ≤ (r.pending.val + 1) % 256) := by omega
    simp [receiverT.onMsg, hconn, hsyn, hne, haft, byteOf, hp, hp2, written, delivered]
  · have hp2 : maxPending ≤ (r.pending.val + 1) % 256 := by omega
    simp [receiverT.onMsg, hconn, hsyn, hne, haft, byteOf, hp, hp2, written, delivered]

/-- C10, witness: a connected receiver expecting id 2 with counter 4 that receives id 3. -/
theorem onMsg_ahead_witness :
    written (({ newReceiver with connected := true, expected := 2, pending := 4 } :
        receiverT).onMsg 3 7 [1] none).2 = [header 3 7] ∧
      maxPending ≤ ((4 : Byte).val + 1) % 256 ∧
      (({ newReceiver with connected := true, expected := 2, pending := 4 } :
        receiverT).onMsg 3 7 [1] none).1.connected = false :=
  ⟨(onMsg_ahead { newReceiver with connected := true, expected := 2, pending := 4 } 3 7 [1] none
      rfl (by decide) (by decide)).1,
   by decide,
   ((onMsg_ahead { newReceiver with connected := true, expected := 2, pending := 4 } 3 7 [1] none
      rfl (by decide) (by decide)).2.2.2.2.2 (by decide)).1⟩

/-! ### Sender: `accept` -/

theorem sender_accept_some_ack (s : senderT) (it : itemT)
    (h : s.buffer s.expectedAck = some it) (hack : it.ack = true) :
    s.accept = senderT.accept
      { s with buffer := Function.update s.buffer s.expectedAck none,
               expectedAck := next s.expectedAck } := by
  rw [senderT.accept]
  split
  · rename_i it2 h2
    rw [h] at h2
    cases h2
    simp [hack]
  · rename_i h2
    rw [h] at h2
    cases h2

theorem sender_accept_some_noack (s : senderT) (it : itemT)
    (h : s.buffer s.expectedAck = some it) (hack : it.ack = false) : s.accept = s := by
  rw [senderT.accept]
  split
  · rename_i it2 h2
    rw [h] at h2
    cases h2
    simp [hack]
  · rfl

theorem sender_accept_none (s : senderT) (h : s.buffer s.expectedAck = none) :
    s.accept = s := by
  rw [senderT.accept]
  split
  · rename_i it2 h2
    rw [h] at h2
    cases h2
  · rfl

theorem accept_srtt (s : senderT) : s.accept.srtt = s.srtt := by
  induction s using senderT.accept.induct with
  | case1 s it h hack ih =>
    rw [sender_accept_some_ack s it h hack]
    exact ih
  | case2 s it h hack =>
    rw [sender_accept_some_noack s it h (by simpa using hack)]
  | case3 s h =>
    rw [sender_accept_none s h]

theorem accept_fields (s : senderT) :
    s.accept.id = s.id ∧ s.accept.connected = s.connected ∧ s.accept.totalTicks = s.totalTicks ∧
      s.accept.crcid = s.crcid := by
  induction s using senderT.accept.induct with
  | case1 s it h hack ih =>
    rw [sender_accept_some_ack s it h hack]
    exact ih
  | case2 s it h hack =>
    rw [sender_accept_some_noack s it h (by simpa using hack)]
    exact ⟨rfl, rfl, rfl, rfl⟩
  | case3 s h =>
    rw [sender_accept_none s h]
    exact ⟨rfl, rfl, rfl, rfl⟩

/-- What `accept` does to the cursor and the ring: it passes `j` slots, each occupied and
acknowledged before and empty after, stops at a slot that is empty or unacknowledged, and
changes no slot except by emptying it. -/
theorem accept_spec (s : senderT) :
    ∃ j : Nat, s.accept.expectedAck = next^[j] s.expectedAck ∧
      (∀ i, i < j → (∃ it, s.buffer (next^[i] s.expectedAck) = some it ∧ it.ack = true) ∧
        s.accept.buffer (next^[i] s.expectedAck) = none) ∧
      (s.accept.buffer s.accept.expectedAck = none ∨
        ∃ it, s.accept.buffer s.accept.expectedAck = some it ∧ it.ack = false) ∧
      (∀ x, s.accept.buffer x = s.buffer x ∨ s.accept.buffer x = none) := by
  induction s using senderT.accept.induct with
  | case1 s it h hack ih =>
    rw [sender_accept_some_ack s it h hack]
    obtain ⟨j, hj, hpass, hstop, hmono⟩ := ih
    refine ⟨j + 1, ?_, ?_, hstop, ?_⟩
    · rw [hj, Function.iterate_succ_apply]
    · intro i hi
      cases i with
      | zero =>
        refine ⟨⟨it, h, hack⟩, ?_⟩
        simp only [Function.iterate_zero, id_eq]
        rcases hmono s.expectedAck with hx | hx
        · rw [hx]
          simp
        · exact hx
      | succ i =>
        obtain ⟨⟨it2, h2, hack2⟩, hnone⟩ := hpass i (by omega)
        rw [Function.iterate_succ_apply]
        refine ⟨⟨it2, ?_, hack2⟩, hnone⟩
        simp only at h2
        by_cases hx : next^[i] (next s.expectedAck) = s.expectedAck
        · rw [hx] at h2
          simp at h2
        · rw [Function.update_noteq hx] at h2
          exact h2
    · intro x
      rcases hmono x with hx | hx
      · by_cases hxe : x = s.expectedAck
        · right
          rw [hx, hxe]
          simp
        · left
          rw [hx]
          simp [Function.update_noteq hxe]
      · right
        exact hx
  | case2 s it h hack =>
    rw [sender_accept_some_noack s it h (by simpa using hack)]
    refine ⟨0, rfl, ?_, Or.inr ⟨it, h, by simpa using hack⟩, fun x => Or.inl rfl⟩
    intro i hi
    omega
  | case3 s h =>
    rw [sender_accept_none s h]
    refine ⟨0, rfl, ?_, Or.inl h, fun x => Or.inl rfl⟩
    intro i hi
    omega

/-! ### Sender: the smoothed round trip time -/

theorem clamp_bounds (x : ℚ) :
    minSRTT ≤ MinF (MaxF x minSRTT) maxSRTT ∧ MinF (MaxF x minSRTT) maxSRTT ≤ maxSRTT := by
  unfold MinF MaxF minSRTT maxSRTT
  split_ifs <;> constructor <;> linarith

theorem onAck_srtt (s : senderT) (ack : Byte) :
    (s.onAck ack).1.srtt = s.srtt ∨
      (minSRTT ≤ (s.onAck ack).1.srtt ∧ (s.onAck ack).1.srtt ≤ maxSRTT) := by
  unfold senderT.onAck
  cases hb : s.buffer ack with
  | none =>
    left
    simp only
    split_ifs <;> rfl
  | some it =>
    by_cases he : ack = s.expectedAck
    · right
      simp only [he, if_true]
      split_ifs <;> simp only [accept_srtt] <;> exact clamp_bounds _
    · left
      simp only [he, if_false]
      split_ifs <;> rfl

theorem send_srtt (s : senderT) (msg : List Byte) (addr : Addr) :
    (s.send msg addr).1.srtt = s.srtt := by
  unfold senderT.send
  split_ifs <;> rfl

theorem trigger_srtt (s : senderT) : s.trigger.1.srtt = s.srtt := by
  unfold senderT.trigger
  simp only
  split
  · split_ifs <;> rfl
  · rfl

theorem reach_srtt (Q : ℚ → Prop) (hd : Q defaultSRTT)
    (hq : ∀ x, minSRTT ≤ x → x ≤ maxSRTT → Q x) (s0 s : senderT)
    (hr : senderT.Reach s0 s) (h0 : Q s0.srtt) : Q s.srtt := by
  induction hr with
  | init => exact h0
  | connect s c a _ ih => exact hd
  | send s m a _ ih => rw [send_srtt]; exact ih
  | onAck s k _ ih =>
    rcases onAck_srtt s k with h | h
    · rw [h]; exact ih
    · exact hq _ h.1 h.2
  | trigger s _ ih => rw [trigger_srtt]; exact ih

/-- C5, counterexample: the sender made by `newSender` has `srtt = 0`, outside `[2, 12.5]`;
it stays 0 when an ack of id 0 marks that sender connected and a message is sent. -/
theorem newSender_srtt_out_of_range :
    senderT.Reach newSender newSender ∧
      ¬ (minSRTT ≤ newSender.srtt ∧ newSender.srtt ≤ maxSRTT) ∧
      senderT.Reach newSender ((newSender.onAck syn).1.send [0x41] none).1 ∧
      ((newSender.onAck syn).1.send [0x41] none).1.connected = true ∧
      ¬ (minSRTT ≤ ((newSender.onAck syn).1.send [0x41] none).1.srtt) := by
  refine ⟨senderT.Reach.init, ?_, ?_, ?_, ?_⟩
  · simp [newSender, minSRTT]
  · exact senderT.Reach.send _ _ _ (senderT.Reach.onAck _ _ senderT.Reach.init)
  · simp [senderT.onAck, senderT.send, newSender]
  · rw [send_srtt]
    simp [senderT.onAck, newSender, minSRTT]

/-- C5, amended: in every sender state reachable from `newSender` by `connect`, `send`,
`onAck` and `trigger` calls, `srtt` is either 0 (the value `newSender` leaves, kept until the
first `connect` or the first round-trip sample) or within `[2, 12.5]`; and in every state
reachable from the result of a `connect` call it is within `[2, 12.5]`. -/
theorem srtt_zero_or_in_range :
    (∀ s, senderT.Reach newSender s →
        s.srtt = 0 ∨ (minSRTT ≤ s.srtt ∧ s.srtt ≤ maxSRTT)) ∧
      (∀ (s0 : senderT) (crcID : Nat) (addr : Addr) (s : senderT),
        senderT.Reach (s0.connect crcID addr).1 s → minSRTT ≤ s.srtt ∧ s.srtt ≤ maxSRTT) := by
  have hd : minSRTT ≤ defaultSRTT ∧ defaultSRTT ≤ maxSRTT := by
    unfold minSRTT defaultSRTT maxSRTT
    constructor <;> norm_num
  constructor
  · intro s hr
    exact reach_srtt (fun x => x = 0 ∨ (minSRTT ≤ x ∧ x ≤ maxSRTT)) (Or.inr hd)
      (fun x h1 h2 => Or.inr ⟨h1, h2⟩) newSender s hr (Or.inl rfl)
  · intro s0 c a s hr
    exact reach_srtt (fun x => minSRTT ≤ x ∧ x ≤ maxSRTT) hd
      (fun x h1 h2 => ⟨h1, h2⟩) _ s hr hd

/-! ### Sender: cumulative acknowledgement -/

theorem onAck_expectedAck_of_ne (s : senderT) (ack : Byte) (hne : ack ≠ s.expectedAck) :
    (s.onAck ack).1.expectedAck = s.expectedAck := by
  unfold senderT.onAck
  cases hb : s.buffer ack with
  | none =>
    simp only
    split_ifs <;> rfl
  | some it =>
    simp only [hne, if_false]
    split_ifs <;> rfl

/-- The state on which `onAck` runs `accept` when the acknowledged slot is the expected one,
and how the result of `onAck` relates to it. -/
theorem onAck_expected (s : senderT) (it0 : itemT) (hb : s.buffer s.expectedAck = some it0) :
    ∃ s2 : senderT, s2.expectedAck = s.expectedAck ∧
      s2.buffer = Function.update s.buffer s.expectedAck (some { it0 with ack := true }) ∧
      s2.id = s.id ∧ s2.connected = s.connected ∧ s2.totalTicks = s.totalTicks ∧
      s2.crcid = s.crcid ∧
      s2.srtt = MinF (MaxF (addF32 (mulF32 (f32 rc) s.srtt) (mulF32 (f32 (1 - rc))
        (f32 (((s.totalTicks + uintSize - it0.startRtt % uintSize + 1) % uintSize : Nat) : ℚ))))
        minSRTT) maxSRTT ∧
      (s.onAck s.expectedAck).1.expectedAck = s2.accept.expectedAck ∧
      (s.onAck s.expectedAck).1.id = s.id ∧
      (s.onAck s.expectedAck).1.srtt = s2.srtt ∧
      ((s.expectedAck ≠ errAck → (s.onAck s.expectedAck).1.buffer = s2.accept.buffer) ∧
        (s.expectedAck = errAck → (s.onAck s.expectedAck).1.buffer = fun _ => none)) := by
  refine ⟨{ s with buffer := Function.update s.buffer s.expectedAck (some { it0 with ack := true }),
                   srtt := MinF (MaxF (addF32 (mulF32 (f32 rc) s.srtt) (mulF32 (f32 (1 - rc))
                     (f32 (((s.totalTicks + uintSize - it0.startRtt % uintSize + 1)
                       % uintSize : Nat) : ℚ))))
                     minSRTT) maxSRTT }, rfl, rfl, rfl, rfl, rfl, rfl, rfl, ?_⟩
  unfold senderT.onAck
  simp only [hb, if_true]
  by_cases h0 : s.expectedAck = syn
  · have h1 : s.expectedAck ≠ errAck := by rw [h0]; decide
    rw [if_pos h0]
    refine ⟨rfl, ?_, ?_, ?_, ?_⟩
    · exact (accept_fields _).1
    · exact accept_srtt _
    · intro _; rfl
    · intro h; exact absurd h h1
  · by_cases h1 : s.expectedAck = errAck
    · rw [if_neg h0, if_pos h1]
      refine ⟨rfl, ?_, ?_, ?_, ?_⟩
      · exact (accept_fields _).1
      · exact accept_srtt _
      · intro h; exact absurd h1 h
      · intro _; rfl
    · rw [if_neg h0, if_neg h1]
      refine ⟨rfl, ?_, ?_, ?_, ?_⟩
      · exact (accept_fields _).1
      · exact accept_srtt _
      · intro _; rfl
      · intro h; exact absurd h h1

/-- C6: (a) `onAck id` with `id` different from `expectedAck` leaves `expectedAck` unchanged;
(b) whenever `onAck id` moves `expectedAck` from `a` to `b`, `b = next^[j] a` for some `j ≥ 1`,
each of the slots `a, next a, ..., next^[j-1] a` was occupied and acknowledged (the slot `id`
being acknowledged by this call) and is empty afterwards, and slot `b` is empty or
unacknowledged afterwards. -/
theorem onAck_cumulative (s : senderT) (ack : Byte) :
    (ack ≠ s.expectedAck → (s.onAck ack).1.expectedAck = s.expectedAck) ∧
      ((s.onAck ack).1.expectedAck ≠ s.expectedAck →
        ∃ j : Nat, 1 ≤ j ∧ (s.onAck ack).1.expectedAck = next^[j] s.expectedAck ∧
          (∀ i, i < j →
            (∃ it, s.buffer (next^[i] s.expectedAck) = some it ∧
              (it.ack = true ∨ next^[i] s.expectedAck = ack)) ∧
            (s.onAck ack).1.buffer (next^[i] s.expectedAck) = none) ∧
          ((s.onAck ack).1.buffer (s.onAck ack).1.expectedAck = none ∨
            ∃ it, (s.onAck ack).1.buffer (s.onAck ack).1.expectedAck = some it ∧
              it.ack = false)) := by
  refine ⟨onAck_expectedAck_of_ne s ack, ?_⟩
  intro hmoved
  have he : ack = s.expectedAck := by
    by_contra hne
    exact hmoved (onAck_expectedAck_of_ne s ack hne)
  cases hb : s.buffer ack with
  | none =>
    exfalso
    apply hmoved
    unfold senderT.onAck
    simp only [hb]
    split_ifs <;> rfl
  | some it0 =>
    subst he
    obtain ⟨s2, hexp2, hbuf2, -, -, -, -, -, hpe, -, -, hpb⟩ := onAck_expected s it0 hb
    have hpost : ∀ x, (s.onAck s.expectedAck).1.buffer x = s2.accept.buffer x ∨
        (s.onAck s.expectedAck).1.buffer x = none := by
      intro x
      by_cases h1 : s.expectedAck = errAck
      · right
        rw [hpb.2 h1]
      · left
        rw [hpb.1 h1]
    obtain ⟨j, hj, hpass, hstop, hmono⟩ := accept_spec s2
    rw [hexp2] at hj hpass
    have hj1 : 1 ≤ j := by
      by_contra h0
      have hj0 : j = 0 := by omega
      apply hmoved
      rw [hpe, hj, hj0]
      rfl
    refine ⟨j, hj1, by rw [hpe, hj], ?_, ?_⟩
    · intro i hi
      obtain ⟨⟨it, hit, hack⟩, hnone⟩ := hpass i hi
      constructor
      · by_cases hx : next^[i] s.expectedAck = s.expectedAck
        · exact ⟨it0, by rw [hx]; exact hb, Or.inr hx⟩
        · rw [hbuf2, Function.update_noteq hx] at hit
          exact ⟨it, hit, Or.inl hack⟩
      · rcases hpost (next^[i] s.expectedAck) with h | h
        · rw [h]; exact hnone
        · exact h
    · rw [hpe]
      rcases hpost s2.accept.expectedAck with h | h
      · rw [h]; exact hstop
      · exact Or.inl h

/-! ### Receiver: `accept` and in-order delivery -/

theorem receiver_accept_some (r : receiverT) (crcid : Nat) (it : itemT)
    (h : r.buffer r.expected = some it) :
    r.accept crcid =
      ((receiverT.accept { r with buffer := Function.update r.buffer r.expected none,
                                  expected := next r.expected } crcid).1,
       Event.onReceived crcid it.msg ::
        (receiverT.accept { r with buffer := Function.update r.buffer r.expected none,
                                   expected := next r.expected } crcid).2) := by
  rw [receiverT.accept]
  split
  · rename_i it2 h2
    rw [h] at h2
    cases h2
    rfl
  · rename_i h2
    rw [h] at h2
    cases h2

theorem receiver_accept_none (r : receiverT) (crcid : Nat) (h : r.buffer r.expected = none) :
    r.accept crcid = (r, []) := by
  rw [receiverT.accept]
  split
  · rename_i it2 h2
    rw [h] at h2
    cases h2
  · rfl

theorem delivered_append (xs ys : List Event) :
    delivered (xs ++ ys) = delivered xs ++ delivered ys := by
  simp [delivered, List.filterMap_append]

theorem delivered_cons_onReceived (c : Nat) (m : List Byte) (xs : List Event) :
    delivered (Event.onReceived c m :: xs) = m :: delivered xs := by
  simp [delivered]

theorem delivered_cons_write (d : List Byte) (a : Addr) (xs : List Event) :
    delivered (Event.write d a :: xs) = delivered xs := by
  simp [delivered]

theorem receiver_accept_fields (r : receiverT) (crcid : Nat) :
    (r.accept crcid).1.connected = r.connected ∧ (r.accept crcid).1.pending = r.pending ∧
      written (r.accept crcid).2 = [] ∧ failures (r.accept crcid).2 = [] := by
  induction r, crcid using receiverT.accept.induct with
  | case1 r crcid it h ih =>
    rw [receiver_accept_some r crcid it h]
    refine ⟨ih.1, ih.2.1, ?_, ?_⟩
    · have := ih.2.2.1
      simpa [written] using this
    · have := ih.2.2.2
      simpa [failures] using this
  | case2 r crcid h =>
    rw [receiver_accept_none r crcid h]
    exact ⟨rfl, rfl, rfl, rfl⟩

/-- The delivery invariant is kept by `accept`: `D` lists the payloads delivered since the
SYN and `hist` the calls received since the SYN. -/
theorem receiver_accept_inv (r : receiverT) (crcid : Nat) (hist : List MsgCall) :
    ∀ D : List (List Byte), r.expected = next^[D.length] 2 →
      (∀ j it, r.buffer j = some it → ∃ m ∈ hist, m.id = j ∧ m.msg = it.msg) →
      (∀ i p, D[i]? = some p → ∃ m ∈ hist, m.id = next^[i] 2 ∧ m.msg = p) →
      (r.accept crcid).1.expected = next^[(D ++ delivered (r.accept crcid).2).length] 2 ∧
        (∀ j it, (r.accept crcid).1.buffer j = some it →
          ∃ m ∈ hist, m.id = j ∧ m.msg = it.msg) ∧
        (∀ i p, (D ++ delivered (r.accept crcid).2)[i]? = some p →
          ∃ m ∈ hist, m.id = next^[i] 2 ∧ m.msg = p) := by
  induction r, crcid using receiverT.accept.induct with
  | case1 r crcid it h ih =>
    intro D hexp hbuf hD
    rw [receiver_accept_some r crcid it h]
    simp only [delivered_cons_onReceived]
    have hD2 : D ++ it.msg :: delivered (receiverT.accept
        { r with buffer := Function.update r.buffer r.expected none,
                 expected := next r.expected } crcid).2 =
        (D ++ [it.msg]) ++ delivered (receiverT.accept
        { r with buffer := Function.update r.buffer r.expected none,
                 expected := next r.expected } crcid).2 := by simp
    rw [hD2]
    apply ih (D ++ [it.msg])
    · simp only [List.length_append, List.length_singleton, Function.iterate_succ_apply']
      rw [hexp]
    · intro j it2 hj
      by_cases hje : j = r.expected
      · rw [hje] at hj
        simp at hj
      · simp only [Function.update_noteq hje] at hj
        exact hbuf j it2 hj
    · intro i p hi
      by_cases hlt : i < D.length
      · rw [List.getElem?_append_left hlt] at hi
        exact hD i p hi
      · by_cases heq : i = D.length
        · subst heq
          simp at hi
          subst hi
          rw [← hexp]
          exact hbuf r.expected it h
        · have : (D ++ [it.msg]).length ≤ i := by
            simp only [List.length_append, List.length_singleton]
            omega
          rw [List.getElem?_eq_none this] at hi
          cases hi
  | case2 r crcid h =>
    intro D hexp hbuf hD
    rw [receiver_accept_none r crcid h]
    have hnil : delivered [] = [] := rfl
    simp only [hnil, List.append_nil]
    exact ⟨hexp, hbuf, hD⟩

theorem getElem?_snoc_cases {α : Type} (D : List α) (x : α) (i : Nat) (p : α)
    (h : (D ++ [x])[i]? = some p) : D[i]? = some p ∨ (i = D.length ∧ p = x) := by
  by_cases hlt : i < D.length
  · rw [List.getElem?_append_left hlt] at h
    exact Or.inl h
  · by_cases heq : i = D.length
    · subst heq
      simp at h
      exact Or.inr ⟨rfl, h.symm⟩
    · have hle : (D ++ [x]).length ≤ i := by
        simp only [List.length_append, List.length_singleton]
        omega
      rw [List.getElem?_eq_none hle] at h
      cases h

theorem delivered_nil : delivered [] = [] := rfl

theorem delivered_cons_failed (c : Nat) (xs : List Event) :
    delivered (Event.ConnectionFailed c :: xs) = delivered xs := by
  simp [delivered]

/-- The delivery invariant is kept by one `onMsg` call that is not a SYN. -/
theorem receiver_onMsg_inv (r : receiverT) (m : MsgCall) (hist : List MsgCall)
    (D : List (List Byte)) (hm : m.id ≠ syn)
    (hexp : r.expected = next^[D.length] 2)
    (hbuf : ∀ j it, r.buffer j = some it → ∃ m0 ∈ hist, m0.id = j ∧ m0.msg = it.msg)
    (hD : ∀ i p, D[i]? = some p → ∃ m0 ∈ hist, m0.id = next^[i] 2 ∧ m0.msg = p) :
    (r.onMsg m.id m.crcid m.msg m.addr).1.expected =
        next^[(D ++ delivered (r.onMsg m.id m.crcid m.msg m.addr).2).length] 2 ∧
      (∀ j it, (r.onMsg m.id m.crcid m.msg m.addr).1.buffer j = some it →
        ∃ m0 ∈ hist ++ [m], m0.id = j ∧ m0.msg = it.msg) ∧
      (∀ i p, (D ++ delivered (r.onMsg m.id m.crcid m.msg m.addr).2)[i]? = some p →
        ∃ m0 ∈ hist ++ [m], m0.id = next^[i] 2 ∧ m0.msg = p) := by
  have hbuf2 : ∀ j it, r.buffer j = some it →
      ∃ m0 ∈ hist ++ [m], m0.id = j ∧ m0.msg = it.msg := by
    intro j it h
    obtain ⟨m0, hm0, h1⟩ := hbuf j it h
    exact ⟨m0, List.mem_append_left _ hm0, h1⟩
  have hD2 : ∀ i p, D[i]? = some p → ∃ m0 ∈ hist ++ [m], m0.id = next^[i] 2 ∧ m0.msg = p := by
    intro i p h
    obtain ⟨m0, hm0, h1⟩ := hD i p h
    exact ⟨m0, List.mem_append_left _ hm0, h1⟩
  have hmem : m ∈ hist ++ [m] := by simp
  unfold receiverT.onMsg
  simp only
  rw [if_neg hm]
  by_cases hc : r.connected = true
  · rw [if_pos hc]
    by_cases he : m.id = r.expected
    · rw [if_pos he]
      simp only [delivered_cons_write, delivered_cons_onReceived]
      have hsplit : ∀ X : List (List Byte), D ++ m.msg :: X = (D ++ [m.msg]) ++ X := by
        intro X; simp
      rw [hsplit]
      apply receiver_accept_inv _ m.crcid (hist ++ [m]) (D ++ [m.msg])
      · simp only [List.length_append, List.length_singleton, Function.iterate_succ_apply']
        rw [← hexp, he]
      · exact hbuf2
      · intro i p hi
        rcases getElem?_snoc_cases D m.msg i p hi with h | ⟨h1, h2⟩
        · exact hD2 i p h
        · refine ⟨m, hmem, ?_, h2.symm⟩
          rw [h1, ← hexp, he]
    · rw [if_neg he]
      by_cases ha : after m.id r.expected = true
      · rw [if_pos ha]
        by_cases hp : (byteOf (r.pending.val + 1)).val < maxPending
        · rw [if_pos hp]
          simp only [delivered_cons_write, delivered_nil, List.append_nil]
          refine ⟨hexp, ?_, hD2⟩
          intro j it hj
          by_cases hje : j = m.id
          · rw [hje] at hj
            simp at hj
            refine ⟨m, hmem, hje.symm, ?_⟩
            rw [← hj]
          · rw [Function.update_noteq hje] at hj
            exact hbuf2 j it hj
        · rw [if_neg hp]
          simp only [delivered_cons_write, delivered_cons_failed, delivered_nil, List.append_nil]
          refine ⟨hexp, ?_, hD2⟩
          intro j it hj
          cases hj
      · rw [if_neg ha]
        simp only [delivered_cons_write, delivered_nil, List.append_nil]
        exact ⟨hexp, hbuf2, hD2⟩
  · rw [if_neg hc]
    simp only [delivered_cons_write, delivered_nil, List.append_nil]
    exact ⟨hexp, hbuf2, hD2⟩

theorem receiver_run_inv (ms : List MsgCall) :
    ∀ (r : receiverT) (hist : List MsgCall) (D : List (List Byte)),
      (∀ m ∈ ms, m.id ≠ syn) →
      r.expected = next^[D.length] 2 →
      (∀ j it, r.buffer j = some it → ∃ m0 ∈ hist, m0.id = j ∧ m0.msg = it.msg) →
      (∀ i p, D[i]? = some p → ∃ m0 ∈ hist, m0.id = next^[i] 2 ∧ m0.msg = p) →
      (r.run ms).1.expected = next^[(D ++ delivered (r.run ms).2).length] 2 ∧
        (∀ i p, (D ++ delivered (r.run ms).2)[i]? = some p →
          ∃ m0 ∈ hist ++ ms, m0.id = next^[i] 2 ∧ m0.msg = p) := by
  induction ms with
  | nil =>
    intro r hist D _ hexp _ hD
    simp only [receiverT.run, delivered_nil, List.append_nil]
    exact ⟨hexp, hD⟩
  | cons m ms ih =>
    intro r hist D hms hexp hbuf hD
    have hm : m.id ≠ syn := hms m (by simp)
    have hrest : ∀ m0 ∈ ms, m0.id ≠ syn := fun m0 h0 => hms m0 (by simp [h0])
    obtain ⟨h1, h2, h3⟩ := receiver_onMsg_inv r m hist D hm hexp hbuf hD
    have := ih (r.onMsg m.id m.crcid m.msg m.addr).1 (hist ++ [m])
      (D ++ delivered (r.onMsg m.id m.crcid m.msg m.addr).2) hrest h1 h2 h3
    simp only [receiverT.run, delivered_append]
    simpa [List.append_assoc] using this

/-- C1: after a SYN, whatever `onMsg` calls follow (none of them a SYN), the `i`-th payload
handed to the handler since that SYN was received under the id `next^[i] 2`, so the payloads
are delivered under the ids 2, next 2, next (next 2), ... in exactly that order, and
`expected` is the id that follows the last delivery. -/
theorem deliveries_in_id_order (r0 : receiverT) (sy : MsgCall) (post : List MsgCall)
    (hsy : sy.id = syn) (hpost : ∀ m ∈ post, m.id ≠ syn) :
    (∀ i p, (delivered ((r0.onMsg sy.id sy.crcid sy.msg sy.addr).1.run post).2)[i]? = some p →
        ∃ m ∈ post, m.id = next^[i] 2 ∧ m.msg = p) ∧
      ((r0.onMsg sy.id sy.crcid sy.msg sy.addr).1.run post).1.expected =
        next^[(delivered ((r0.onMsg sy.id sy.crcid sy.msg sy.addr).1.run post).2).length] 2 ∧
      delivered (r0.onMsg sy.id sy.crcid sy.msg sy.addr).2 = [] := by
  rw [hsy, onMsg_syn]
  have h := receiver_run_inv post
    { expected := 2, connected := true, pending := 0, buffer := fun _ => none } [] [] hpost rfl
    (by intro j it hj; cases hj) (by intro i p hi; simp at hi)
  simp only [List.nil_append] at h
  exact ⟨h.2, h.1, by simp [delivered]⟩

/-- C1, witness: a SYN followed by the ids 3 and 2. -/
theorem deliveries_in_id_order_witness :
    (⟨0, 7, [0xFD], none⟩ : MsgCall).id = syn ∧
      (∀ m ∈ [(⟨3, 7, [0x42], none⟩ : MsgCall), ⟨2, 7, [0x41], none⟩], m.id ≠ syn) ∧
      ((∀ i p, (delivered ((newReceiver.onMsg (⟨0, 7, [0xFD], none⟩ : MsgCall).id 7 [0xFD]
          none).1.run [⟨3, 7, [0x42], none⟩, ⟨2, 7, [0x41], none⟩]).2)[i]? = some p →
        ∃ m ∈ [(⟨3, 7, [0x42], none⟩ : MsgCall), ⟨2, 7, [0x41], none⟩],
          m.id = next^[i] 2 ∧ m.msg = p)) :=
  ⟨rfl, by decide,
   (deliveries_in_id_order newReceiver ⟨0, 7, [0xFD], none⟩
      [⟨3, 7, [0x42], none⟩, ⟨2, 7, [0x41], none⟩] rfl (by decide)).1⟩

/-! ### Receiver: reordering -/

theorem receiver_accept_expected_ge (r : receiverT) (crcid : Nat) :
    2 ≤ r.expected.val → 2 ≤ (r.accept crcid).1.expected.val := by
  induction r, crcid using receiverT.accept.induct with
  | case1 r crcid it h ih =>
    intro _
    rw [receiver_accept_some r crcid it h]
    exact ih (next_ge_two _)
  | case2 r crcid h =>
    intro h2
    rw [receiver_accept_none r crcid h]
    exact h2

/-- In a reachable connected receiver the expected id is at least 2, the out-of-order counter
is below `maxPending`, and it is 0 when the buffer is empty. -/
theorem receiver_reach_inv (r : receiverT) (hr : receiverT.Reach r) :
    r.connected = true →
      2 ≤ r.expected.val ∧ r.pending.val < maxPending ∧
        ((∀ j, r.buffer j = none) → r.pending = 0) := by
  induction hr with
  | init =>
    intro h
    simp [newReceiver] at h
  | onMsg r id crcid msg addr _ ih =>
    by_cases hs : id = syn
    · intro _
      rw [hs, onMsg_syn]
      exact ⟨by simp, by simp [maxPending], fun _ => rfl⟩
    · by_cases hc : r.connected = true
      · obtain ⟨h2, hp, hz⟩ := ih hc
        by_cases he : id = r.expected
        · intro _
          have hres : (r.onMsg id crcid msg addr).1 =
              (receiverT.accept { r with expected := next id, pending := 0 } crcid).1 := by
            unfold receiverT.onMsg
            simp only
            rw [if_neg hs, if_pos hc, if_pos he]
          rw [hres]
          have hf := receiver_accept_fields { r with expected := next id, pending := 0 } crcid
          refine ⟨?_, ?_, ?_⟩
          · exact receiver_accept_expected_ge _ crcid (next_ge_two id)
          · rw [hf.2.1]
            simp [maxPending]
          · intro _
            rw [hf.2.1]
        · by_cases ha : after id r.expected = true
          · by_cases hpp : (r.pending.val + 1) % 256 < maxPending
            · intro _
              rw [onMsg_store r id crcid msg addr hc hs ha hpp]
              refine ⟨h2, hpp, ?_⟩
              intro hempty
              have := hempty id
              simp at this
            · intro hcon
              rw [onMsg_overflow r id crcid msg addr hc hs ha (by omega)] at hcon
              simp at hcon
          · intro _
            have hres : (r.onMsg id crcid msg addr).1 = r := by
              unfold receiverT.onMsg
              simp only
              rw [if_neg hs, if_pos hc, if_neg he, if_neg ha]
            rw [hres]
            exact ih hc
      · intro hcon
        have hres : (r.onMsg id crcid msg addr).1 = r := by
          unfold receiverT.onMsg
          simp only
          rw [if_neg hs, if_neg hc]
        rw [hres] at hcon
        exact absurd hcon hc

theorem onMsg_expected (r : receiverT) (id : Byte) (crcid : Nat) (msg : List Byte) (addr : Addr)
    (hs : id ≠ syn) (hc : r.connected = true) (he : id = r.expected) :
    r.onMsg id crcid msg addr =
      ((receiverT.accept { r with expected := next id, pending := 0 } crcid).1,
       Event.write (header id crcid) addr :: Event.onReceived crcid msg ::
        (receiverT.accept { r with expected := next id, pending := 0 } crcid).2) := by
  unfold receiverT.onMsg
  simp only
  rw [if_neg hs, if_pos hc, if_pos he]

theorem after_next_next (k : Byte) (hk : 2 ≤ k.val) : after (next (next k)) k = true := by
  rw [after_iff]
  have h1 := next_val k
  have h2 := next_val (next k)
  have hk2 := k.isLt
  split_ifs at h1 h2 <;> omega

theorem ne_syn_of_two_le (k : Byte) (hk : 2 ≤ k.val) : k ≠ syn := by
  intro h
  rw [h] at hk
  simp [syn] at hk

/-- C3: a reachable connected receiver with an empty buffer that expects id `k` receives the
ids `next (next k)`, `k`, `next k` in this order, with payloads `c`, `a`, `b`. The handler
gets `a, b, c` in that order, each once; afterwards the buffer is empty again,
`expected = next (next (next k))`, the out-of-order counter is 0 and the connection is up.
(In such a receiver `k` is in 2..255.) -/
theorem reordering_tolerance (r : receiverT) (k : Byte) (a b c : List Byte)
    (c1 c2 c3 : Nat) (a1 a2 a3 : Addr)
    (hr : receiverT.Reach r) (hc : r.connected = true) (hempty : ∀ j, r.buffer j = none)
    (hk : r.expected = k) :
    2 ≤ k.val ∧
      delivered (r.run [⟨next (next k), c3, c, a3⟩, ⟨k, c1, a, a1⟩, ⟨next k, c2, b, a2⟩]).2
        = [a, b, c] ∧
      (∀ j, (r.run [⟨next (next k), c3, c, a3⟩, ⟨k, c1, a, a1⟩,
        ⟨next k, c2, b, a2⟩]).1.buffer j = none) ∧
      (r.run [⟨next (next k), c3, c, a3⟩, ⟨k, c1, a, a1⟩, ⟨next k, c2, b, a2⟩]).1.expected
        = next (next (next k)) ∧
      (r.run [⟨next (next k), c3, c, a3⟩, ⟨k, c1, a, a1⟩, ⟨next k, c2, b, a2⟩]).1.pending = 0 ∧
      (r.run [⟨next (next k), c3, c, a3⟩, ⟨k, c1, a, a1⟩, ⟨next k, c2, b, a2⟩]).1.connected
        = true ∧
      failures (r.run [⟨next (next k), c3, c, a3⟩, ⟨k, c1, a, a1⟩, ⟨next k, c2, b, a2⟩]).2
        = [] := by
  obtain ⟨h2, -, hz⟩ := receiver_reach_inv r hr hc
  have hp0 : r.pending = 0 := hz hempty
  subst hk
  have hbuf : r.buffer = fun _ => none := funext hempty
  have hn12 : next r.expected ≠ next (next r.expected) := fun h => next_ne_self _ h.symm
  have hn23 : next (next (next r.expected)) ≠ next (next r.expected) := next_ne_self _
  have hs2 : next (next r.expected) ≠ syn := ne_syn_of_two_le _ (next_ge_two _)
  have hs1 : next r.expected ≠ syn := ne_syn_of_two_le _ (next_ge_two _)
  have hs0 : r.expected ≠ syn := ne_syn_of_two_le _ h2
  have haft := after_next_next r.expected h2
  have hpp : (r.pending.val + 1) % 256 < maxPending := by
    rw [hp0]
    decide
  refine ⟨h2, ?_⟩
  simp only [receiverT.run]
  rw [onMsg_store r _ c3 c a3 hc hs2 haft hpp]
  simp only
  set r1 : receiverT :=
    { r with pending := byteOf (r.pending.val + 1),
             buffer := Function.update r.buffer (next (next r.expected)) (some { msg := c }) }
    with hr1
  rw [onMsg_expected r1 r.expected c1 a a1 hs0 hc rfl]
  simp only
  have hb1 : r1.buffer (next r.expected) = none := by
    show Function.update r.buffer (next (next r.expected)) _ (next r.expected) = none
    rw [Function.update_noteq hn12]
    exact hempty _
  rw [receiver_accept_none { r1 with expected := next r.expected, pending := 0 } c1 hb1]
  simp only
  set r2 : receiverT := { r1 with expected := next r.expected, pending := 0 } with hr2
  rw [onMsg_expected r2 (next r.expected) c2 b a2 hs1 hc rfl]
  simp only
  set r3 : receiverT := { r2 with expected := next (next r.expected), pending := 0 } with hr3
  have hb3 : r3.buffer r3.expected = some { msg := c } := by
    show Function.update r.buffer (next (next r.expected)) _ (next (next r.expected)) = _
    rw [Function.update_same]
  rw [receiver_accept_some r3 c2 { msg := c } hb3]
  simp only
  set r4 : receiverT :=
    { r3 with buffer := Function.update r3.buffer r3.expected none,
              expected := next r3.expected } with hr4
  have hb4 : r4.buffer r4.expected = none := by
    show Function.update (Function.update r.buffer (next (next r.expected)) _)
      (next (next r.expected)) none (next (next (next r.expected))) = none
    rw [Function.update_noteq hn23, Function.update_noteq hn23]
    exact hempty _
  rw [receiver_accept_none r4 c2 hb4]
  refine ⟨by simp [delivered], ?_, rfl, rfl, hc, by simp [failures]⟩
  intro j
  show Function.update (Function.update r.buffer (next (next r.expected)) _)
      (next (next r.expected)) none j = none
  by_cases hj : j = next (next r.expected)
  · rw [hj, Function.update_same]
  · rw [Function.update_noteq hj, Function.update_noteq hj]
    exact hempty j

/-- C3, witness: the receiver just after a SYN (it expects id 2) receives ids 4, 2, 3. -/
theorem reordering_tolerance_witness :
    receiverT.Reach (newReceiver.onMsg syn 7 [0xFD] none).1 ∧
      (newReceiver.onMsg syn 7 [0xFD] none).1.connected = true ∧
      (∀ j, (newReceiver.onMsg syn 7 [0xFD] none).1.buffer j = none) ∧
      (newReceiver.onMsg syn 7 [0xFD] none).1.expected = 2 ∧
      delivered ((newReceiver.onMsg syn 7 [0xFD] none).1.run
        [⟨next (next 2), 7, [0x43], none⟩, ⟨2, 7, [0x41], none⟩, ⟨next 2, 7, [0x42], none⟩]).2
        = [[0x41], [0x42], [0x43]] :=
  ⟨receiverT.Reach.onMsg _ _ _ _ _ receiverT.Reach.init,
   by rw [onMsg_syn],
   by rw [onMsg_syn]; intro j; rfl,
   by rw [onMsg_syn],
   (reordering_tolerance (newReceiver.onMsg syn 7 [0xFD] none).1 2 [0x41] [0x42] [0x43] 7 7 7
      none none none (receiverT.Reach.onMsg _ _ _ _ _ receiverT.Reach.init)
      (by rw [onMsg_syn]) (by rw [onMsg_syn]; intro j; rfl) (by rw [onMsg_syn])).2.1⟩

/-! ### Lock-step exchange -/

theorem send_connected (s : senderT) (p : List Byte) (addr : Addr) (hc : s.connected = true) :
    s.send p addr =
      ({ s with id := next s.id,
                buffer := Function.update s.buffer (next s.id)
                  (some { startRtt := s.totalTicks, msg := header (next s.id) s.crcid ++ p,
                          addr := addr }) },
       [Event.write (header (next s.id) s.crcid ++ p) addr], none) := by
  unfold senderT.send
  rw [if_pos hc]

theorem onAck_data (s : senderT) (it0 : itemT) (hb : s.buffer s.expectedAck = some it0)
    (h0 : s.expectedAck ≠ syn) (h1 : s.expectedAck ≠ errAck) :
    s.onAck s.expectedAck =
      (senderT.accept
        { s with buffer := Function.update s.buffer s.expectedAck (some { it0 with ack := true }),
                 srtt := MinF (MaxF (addF32 (mulF32 (f32 rc) s.srtt) (mulF32 (f32 (1 - rc))
                   (f32 (((s.totalTicks + uintSize - it0.startRtt % uintSize + 1)
                     % uintSize : Nat) : ℚ))))
                   minSRTT) maxSRTT }, []) := by
  unfold senderT.onAck
  simp only [hb, if_true]
  rw [if_neg h0, if_neg h1]

theorem onAck_syn_expected (s : senderT) (it0 : itemT) (hb : s.buffer syn = some it0)
    (he : s.expectedAck = syn) :
    s.onAck syn =
      ({ senderT.accept
          { s with buffer := Function.update s.buffer syn (some { it0 with ack := true }),
                   srtt := MinF (MaxF (addF32 (mulF32 (f32 rc) s.srtt) (mulF32 (f32 (1 - rc))
                     (f32 (((s.totalTicks + uintSize - it0.startRtt % uintSize + 1)
                       % uintSize : Nat) : ℚ))))
                     minSRTT) maxSRTT } with connected := true }, [Event.OnSenderConnected]) := by
  unfold senderT.onAck
  simp only [hb, he, if_true]

/-- Acknowledging the only occupied slot, which is the expected one: the ring becomes empty
and the cursor moves one step. -/
theorem accept_single (s : senderT) (it : itemT) (hb : s.buffer s.expectedAck = some it)
    (hack : it.ack = true) (hother : ∀ j, j ≠ s.expectedAck → s.buffer j = none) :
    s.accept = { s with buffer := fun _ => none, expectedAck := next s.expectedAck } := by
  rw [sender_accept_some_ack s it hb hack]
  have hbuf : Function.update s.buffer s.expectedAck none = fun _ => none := by
    funext j
    by_cases hj : j = s.expectedAck
    · rw [hj, Function.update_same]
    · rw [Function.update_noteq hj]
      exact hother j hj
  rw [hbuf]
  rw [sender_accept_none _ rfl]

theorem connect_onAck_syn (s0 : senderT) (crcID : Nat) (addr : Addr) :
    ((s0.connect crcID addr).1.onAck syn).1.connected = true ∧
      ((s0.connect crcID addr).1.onAck syn).1.id = syn ∧
      ((s0.connect crcID addr).1.onAck syn).1.expectedAck = 2 ∧
      ((s0.connect crcID addr).1.onAck syn).1.buffer = (fun _ => none) ∧
      ((s0.connect crcID addr).1.onAck syn).1.crcid = crcID := by
  have hb : (s0.connect crcID addr).1.buffer syn =
      some { msg := header syn crcID ++ [byteOf 0xFD], addr := addr } := by
    simp [senderT.connect]
  rw [onAck_syn_expected _ _ hb rfl]
  rw [accept_single _ { msg := header syn crcID ++ [byteOf 0xFD], addr := addr, ack := true }
    (by simp [senderT.connect]) rfl (by
      intro j hj
      have hj2 : j ≠ syn := hj
      simp [senderT.connect, Function.update_noteq hj2])]
  refine ⟨rfl, rfl, ?_, rfl, rfl⟩
  exact next_syn

theorem receiver_OnReceived_data (r : receiverT) (id : Byte) (c : Nat) (p : List Byte)
    (back : Addr) (hp : p ≠ []) :
    r.OnReceived (header id c ++ p) back = r.onMsg id (c % 2 ^ 32) p back := by
  unfold receiverT.OnReceived
  rw [parseHeader_header]
  simp only
  have hlen : (header id c ++ p).length ≠ 5 := by
    cases p with
    | nil => exact absurd rfl hp
    | cons a t => simp [header]
  rw [if_neg hlen]

theorem sender_OnReceived_ack (s : senderT) (id : Byte) (c : Nat) :
    s.OnReceived (header id c) = s.onAck id := by
  unfold senderT.OnReceived
  have h := parseHeader_header id c []
  rw [List.append_nil] at h
  rw [h]
  simp [header]

/-- A message sent on an empty ring and then acknowledged: the ring is empty again and the
cursor has moved past its id. -/
theorem send_then_ack (s : senderT) (s1 : senderT) (it : itemT)
    (hc1 : s1.connected = true) (hid1 : s1.id = next s.id) (he1 : s1.expectedAck = next s.id)
    (hb1 : s1.buffer = Function.update (fun _ => none) (next s.id) (some it)) :
    (s1.onAck (next s.id)).1.connected = true ∧
      (s1.onAck (next s.id)).1.id = next s.id ∧
      (s1.onAck (next s.id)).1.expectedAck = next (next s.id) ∧
      (s1.onAck (next s.id)).1.buffer = (fun _ => none) := by
  have h0 : s1.expectedAck ≠ syn := by
    rw [he1]; exact ne_syn_of_two_le _ (next_ge_two _)
  have h1 : s1.expectedAck ≠ errAck := by
    rw [he1]; exact (next_ne_reserved s.id).2
  have hb : s1.buffer s1.expectedAck = some it := by
    rw [hb1, he1, Function.update_same]
  rw [← he1, onAck_data s1 it hb h0 h1]
  rw [accept_single _ { it with ack := true } (by simp) rfl (by
    intro j hj
    have hj2 : j ≠ s1.expectedAck := hj
    simp only [Function.update_noteq hj2]
    rw [hb1, Function.update_noteq (by rw [← he1]; exact hj2)])]
  exact ⟨hc1, by rw [hid1, he1], rfl, rfl⟩

/-- One lock-step exchange keeps sender and receiver aligned and delivers the payload. -/
theorem lockStep_step (s : senderT) (r : receiverT) (p : List Byte) (addr back : Addr)
    (hp : p ≠ [])
    (hsc : s.connected = true) (hrc : r.connected = true)
    (hsb : ∀ j, s.buffer j = none) (hrb : ∀ j, r.buffer j = none)
    (hse : s.expectedAck = next s.id) (hre : r.expected = next s.id) :
    delivered (lockStep s r p addr back).2.2 = [p] ∧
      (lockStep s r p addr back).1.connected = true ∧
      (lockStep s r p addr back).2.1.connected = true ∧
      (∀ j, (lockStep s r p addr back).1.buffer j = none) ∧
      (∀ j, (lockStep s r p addr back).2.1.buffer j = none) ∧
      (lockStep s r p addr back).1.expectedAck = next (lockStep s r p addr back).1.id ∧
      (lockStep s r p addr back).2.1.expected = next (lockStep s r p addr back).1.id := by
  have hid0 : next s.id ≠ syn := ne_syn_of_two_le _ (next_ge_two _)
  have hid1 : next s.id ≠ errAck := (next_ne_reserved s.id).2
  unfold lockStep
  simp only
  rw [send_connected s p addr hsc]
  simp only [written, List.filterMap_cons, List.filterMap_nil, List.foldl_cons, List.foldl_nil,
    List.nil_append]
  rw [receiver_OnReceived_data r _ _ p back hp]
  rw [onMsg_expected r (next s.id) _ p back hid0 hrc hre.symm]
  simp only
  rw [receiver_accept_none { r with expected := next (next s.id), pending := 0 }
    (s.crcid % 2 ^ 32) (hrb _)]
  simp only [List.filterMap_cons, List.filterMap_nil, List.foldl_cons, List.foldl_nil]
  rw [sender_OnReceived_ack]
  have hbuf : Function.update s.buffer (next s.id)
      (some ({ startRtt := s.totalTicks, msg := header (next s.id) s.crcid ++ p,
               addr := addr } : itemT)) =
      Function.update (fun _ => none) (next s.id)
        (some { startRtt := s.totalTicks, msg := header (next s.id) s.crcid ++ p,
                addr := addr }) := by
    have : s.buffer = fun _ => none := funext hsb
    rw [this]
  obtain ⟨k1, k2, k3, k4⟩ := send_then_ack s
    { s with id := next s.id,
             buffer := Function.update s.buffer (next s.id)
               (some { startRtt := s.totalTicks, msg := header (next s.id) s.crcid ++ p,
                       addr := addr }) }
    { startRtt := s.totalTicks, msg := header (next s.id) s.crcid ++ p, addr := addr }
    hsc rfl hse hbuf
  refine ⟨by simp [delivered], k1, hrc, ?_, hrb, ?_, ?_⟩
  · intro j
    rw [k4]
  · rw [k3, k2]
  · rw [k2]

theorem lockStepRun_aligned (ps : List (List Byte)) (addr back : Addr) :
    ∀ (s : senderT) (r : receiverT), (∀ p ∈ ps, p ≠ []) →
      s.connected = true → r.connected = true →
      (∀ j, s.buffer j = none) → (∀ j, r.buffer j = none) →
      s.expectedAck = next s.id → r.expected = next s.id →
      delivered (lockStepRun s r addr back ps).2.2 = ps ∧
        (∀ j, (lockStepRun s r addr back ps).1.buffer j = none) := by
  induction ps with
  | nil =>
    intro s r _ _ _ hsb _ _ _
    exact ⟨rfl, hsb⟩
  | cons p ps ih =>
    intro s r hps hsc hrc hsb hrb hse hre
    have hp : p ≠ [] := hps p (by simp)
    have hrest : ∀ q ∈ ps, q ≠ [] := fun q hq => hps q (by simp [hq])
    obtain ⟨hd, k1, k2, k3, k4, k5, k6⟩ := lockStep_step s r p addr back hp hsc hrc hsb hrb hse hre
    obtain ⟨ihd, ihb⟩ := ih (lockStep s r p addr back).1 (lockStep s r p addr back).2.1 hrest
      k1 k2 k3 k4 k5 k6
    simp only [lockStepRun]
    refine ⟨?_, ihb⟩
    rw [delivered_append, hd, ihd]
    rfl

/-- C2: lock-step end to end. The sender has done `connect` and received the SYN ack, the
receiver has processed the SYN. For every list `ps` of non-empty payloads (of any length, so
also across the wrap of the ids from 255 back to 2), if for each payload in turn the packet
written by `send` is parsed and given to `onMsg` and the ack written there is parsed and given
to `onAck` before the next `send`, then the handler receives exactly `ps`, each payload once
and in send order, and the sender ring is empty at the end. -/
theorem lock_step_delivery (s0 : senderT) (r0 : receiverT) (crcID crcR : Nat)
    (addr back : Addr) (synMsg : List Byte) (ps : List (List Byte))
    (hps : ∀ p ∈ ps, p ≠ []) :
    delivered (lockStepRun ((s0.connect crcID addr).1.onAck syn).1
        (r0.onMsg syn crcR synMsg back).1 addr back ps).2.2 = ps ∧
      (∀ j, (lockStepRun ((s0.connect crcID addr).1.onAck syn).1
        (r0.onMsg syn crcR synMsg back).1 addr back ps).1.buffer j = none) := by
  obtain ⟨h1, h2, h3, h4, -⟩ := connect_onAck_syn s0 crcID addr
  apply lockStepRun_aligned ps addr back _ _ hps h1
  · rw [onMsg_syn]
  · intro j
    rw [h4]
  · intro j
    rw [onMsg_syn]
  · rw [h3, h2, next_syn]
  · rw [onMsg_syn, h2, next_syn]

/-- C2, witness: two one-byte payloads. -/
theorem lock_step_delivery_witness :
    (∀ p ∈ [[(0x41 : Byte)], [0x42]], p ≠ []) ∧
      delivered (lockStepRun ((newSender.connect 7 none).1.onAck syn).1
        (newReceiver.onMsg syn 7 [0xFD] none).1 none none [[0x41], [0x42]]).2.2
          = [[0x41], [0x42]] ∧
      (∀ j, (lockStepRun ((newSender.connect 7 none).1.onAck syn).1
        (newReceiver.onMsg syn 7 [0xFD] none).1 none none [[0x41], [0x42]]).1.buffer j = none) :=
  ⟨by decide,
   lock_step_delivery newSender newReceiver 7 7 none none [0xFD] [[0x41], [0x42]] (by decide)⟩

/-! ### Sender: retry back-off -/

theorem retryGap_eq (q : ℚ) (k : Nat) (hlo : minSRTT ≤ q) (hhi : q ≤ maxSRTT) (hk : k ≤ 10) :
    retryGap q k = ⌊mulF32 (mulF32 (f32 ac) q) (f32 (k : ℚ))⌋₊ ∧ retryGap q k ≤ 275 := by
  unfold minSRTT at hlo
  unfold maxSRTT at hhi
  obtain ⟨hb1, hb2⟩ := mulF32_ac_bounds q hlo hhi
  have hk' : (k : ℚ) ≤ 10 := by exact_mod_cast hk
  have hk0 : (0 : ℚ) ≤ (k : ℚ) := Nat.cast_nonneg k
  have hfk : f32 (k : ℚ) = k := f32_ofNat_small k (by omega)
  have hx0 : 0 ≤ mulF32 (mulF32 (f32 ac) q) (f32 (k : ℚ)) := by
    unfold mulF32 at hb1 ⊢
    apply f32_nonneg
    rw [hfk]
    exact mul_nonneg (by linarith) hk0
  have hx : mulF32 (mulF32 (f32 ac) q) (f32 (k : ℚ)) ≤ 275 := by
    have h := f32_mono (mulF32 (f32 ac) q * f32 (k : ℚ)) 275
      (by rw [hfk]; exact mul_nonneg (by linarith) hk0) (by rw [hfk]; nlinarith)
    rw [f32_275] at h
    exact h
  have hfl : ⌊mulF32 (mulF32 (f32 ac) q) (f32 (k : ℚ))⌋₊ ≤ 275 := by
    have h1 : ((⌊mulF32 (mulF32 (f32 ac) q) (f32 (k : ℚ))⌋₊ : Nat) : ℚ) ≤ 275 :=
      le_trans (Nat.floor_le hx0) hx
    exact_mod_cast h1
  have hmod : retryGap q k = ⌊mulF32 (mulF32 (f32 ac) q) (f32 (k : ℚ))⌋₊ := by
    unfold retryGap toUint
    apply Nat.mod_eq_of_lt
    unfold uintSize
    omega
  exact ⟨hmod, by rw [hmod]; exact hfl⟩

theorem retryGap_pos (q : ℚ) (k : Nat) (hlo : minSRTT ≤ q) (hhi : q ≤ maxSRTT)
    (hk1 : 1 ≤ k) (hk : k ≤ 10) : 1 ≤ retryGap q k := by
  rw [(retryGap_eq q k hlo hhi hk).1]
  unfold minSRTT at hlo
  unfold maxSRTT at hhi
  obtain ⟨hb1, hb2⟩ := mulF32_ac_bounds q hlo hhi
  have hk' : (1 : ℚ) ≤ (k : ℚ) := by exact_mod_cast hk1
  have hfk : f32 (k : ℚ) = k := f32_ofNat_small k (by omega)
  apply Nat.le_floor
  have h := f32_mono 4 (mulF32 (f32 ac) q * f32 (k : ℚ)) (by norm_num)
    (by rw [hfk]; nlinarith)
  rw [f32_four] at h
  unfold mulF32 at h ⊢
  push_cast
  linarith

theorem retryGap_mono (q : ℚ) (k : Nat) (hlo : minSRTT ≤ q) (hhi : q ≤ maxSRTT)
    (hk : k + 1 ≤ 10) : retryGap q k ≤ retryGap q (k + 1) := by
  rw [(retryGap_eq q k hlo hhi (by omega)).1, (retryGap_eq q (k + 1) hlo hhi hk).1]
  apply Nat.floor_mono
  unfold minSRTT at hlo
  unfold maxSRTT at hhi
  obtain ⟨hb1, hb2⟩ := mulF32_ac_bounds q hlo hhi
  have hfk : f32 (k : ℚ) = k := f32_ofNat_small k (by omega)
  have hfk1 : f32 ((k + 1 : Nat) : ℚ) = (k + 1 : Nat) := f32_ofNat_small (k + 1) (by omega)
  have hk0 : (0 : ℚ) ≤ (k : ℚ) := Nat.cast_nonneg k
  show f32 (mulF32 (f32 ac) q * f32 (k : ℚ)) ≤ f32 (mulF32 (f32 ac) q * f32 ((k + 1 : Nat) : ℚ))
  apply f32_mono
  · rw [hfk]
    exact mul_nonneg (by linarith) hk0
  · rw [hfk, hfk1]
    push_cast
    nlinarith

/-- The model agrees with the `float32` arithmetic of the source where the exact product
does not: at `srtt = 14894545 / 2097152` the eighth retry gap is 125 ticks, while
`⌊2.2 * srtt * 8⌋ = 124`. -/
theorem retryGap_rounding :
    retryGap (14894545 / 2097152) 8 = 125 ∧
      ⌊(11 / 5 : ℚ) * (14894545 / 2097152) * 8⌋₊ = 124 := by
  constructor
  · have h1 : mulF32 (f32 ac) (14894545 / 2097152) = 125 / 8 := by
      unfold mulF32
      rw [f32_ac]
      have h := f32_of_pos (9227469 / 4194304 * (14894545 / 2097152)) 3 16384000
        (by norm_num) (by norm_num) (by norm_num) (by norm_num) (by norm_num)
      rw [h]
      norm_num
    have h8 : f32 ((8 : Nat) : ℚ) = (8 : Nat) := f32_ofNat_small 8 (by norm_num)
    unfold retryGap toUint
    rw [h1, h8]
    unfold mulF32
    have h2 : f32 (125 / 8 * ((8 : Nat) : ℚ)) = 125 := by
      have h := f32_exact 125 0 (by norm_num) (by norm_num)
      norm_num at h ⊢
      exact h
    rw [h2]
    norm_num [uintSize]
  · rw [Nat.floor_eq_iff (by norm_num)]
    norm_num

theorem trigger_idle (s : senderT) (c : Nat) (q : ℚ) (m : List Byte) (a : Addr)
    (t att nr : Nat) (h : s.Retrying c q m a t att nr) (hat : att ≤ maxAttempts) (hne : t ≠ nr)
    (ht : t + 1 < uintSize) :
    s.trigger.2 = [] ∧ s.trigger.1.Retrying c q m a (t + 1) att nr := by
  obtain ⟨hc, hq, it, hb, hack, hm, ha, hticks, hatt, hnr⟩ := h
  unfold senderT.trigger
  simp only [hb]
  rw [if_pos hack, if_neg (by rw [hatt]; omega), if_neg (by rw [hticks, hnr]; exact hne)]
  refine ⟨rfl, hc, hq, _, Function.update_same _ _ _, hack, hm, ha, ?_, hatt, hnr⟩
  simp only [hticks]
  exact Nat.mod_eq_of_lt ht

theorem trigger_fire (s : senderT) (c : Nat) (q : ℚ) (m : List Byte) (a : Addr)
    (t att : Nat) (h : s.Retrying c q m a t att t) (hat : att ≤ maxAttempts)
    (ht : t + 1 < uintSize) (hg : t + retryGap q (att + 1) < uintSize) :
    s.trigger.2 = (if 1 ≤ att then [Event.write m a] else []) ∧
      s.trigger.1.Retrying c q m a (t + 1) (att + 1) (t + retryGap q (att + 1)) := by
  obtain ⟨hc, hq, it, hb, hack, hm, ha, hticks, hatt, hnr⟩ := h
  have hat1 : (it.attempt + 1) % uintSize = att + 1 := by
    rw [hatt]
    apply Nat.mod_eq_of_lt
    unfold maxAttempts at hat
    unfold uintSize
    omega
  unfold senderT.trigger
  simp only [hb]
  rw [if_pos hack, if_neg (by rw [hatt]; omega), if_pos (by rw [hticks, hnr])]
  simp only [hat1]
  by_cases h1 : 1 ≤ att
  · rw [if_pos (by omega), if_pos h1]
    refine ⟨by simp [hm, ha], hc, hq, _, Function.update_same _ _ _, hack, hm, ha, ?_, rfl, ?_⟩
    · simp only [hticks]
      exact Nat.mod_eq_of_lt ht
    · simp only [hnr, hq]
      exact Nat.mod_eq_of_lt hg
  · rw [if_neg (by omega), if_neg h1]
    refine ⟨by simp, hc, hq, _, Function.update_same _ _ _, hack, hm, ha, ?_, rfl, ?_⟩
    · simp only [hticks]
      exact Nat.mod_eq_of_lt ht
    · simp only [hnr, hq]
      exact Nat.mod_eq_of_lt hg

theorem trigger_fail (s : senderT) (c : Nat) (q : ℚ) (m : List Byte) (a : Addr)
    (t att nr : Nat) (h : s.Retrying c q m a t att nr) (hat : maxAttempts < att) :
    s.trigger.2 = [Event.ConnectionFailed c] ∧ (∀ j, s.trigger.1.buffer j = none) ∧
      s.trigger.1.connected = false := by
  obtain ⟨hc, hq, it, hb, hack, hm, ha, hticks, hatt, hnr⟩ := h
  unfold senderT.trigger
  simp only [hb]
  rw [if_pos hack, if_pos (by rw [hatt]; exact hat)]
  exact ⟨by simp [hc], fun j => rfl, rfl⟩

theorem trigger_empty (s : senderT) (hb : ∀ j, s.buffer j = none) :
    s.trigger.2 = [] ∧ (∀ j, s.trigger.1.buffer j = none) := by
  have h0 := hb s.expectedAck
  unfold senderT.trigger
  simp only [h0]
  exact ⟨trivial, hb⟩

theorem triggerTrace_add (k : Nat) : ∀ (s : senderT) (l : Nat),
    s.triggerTrace (k + l) = s.triggerTrace k ++ (s.triggerN k).triggerTrace l := by
  induction k with
  | zero =>
    intro s l
    simp [senderT.triggerTrace, senderT.triggerN]
  | succ k ih =>
    intro s l
    have e : k + 1 + l = (k + l) + 1 := by omega
    rw [e]
    simp only [senderT.triggerTrace, senderT.triggerN]
    rw [ih]
    rfl

theorem triggerN_add (k : Nat) : ∀ (s : senderT) (l : Nat),
    s.triggerN (k + l) = (s.triggerN k).triggerN l := by
  induction k with
  | zero =>
    intro s l
    simp [senderT.triggerN]
  | succ k ih =>
    intro s l
    have e : k + 1 + l = (k + l) + 1 := by omega
    rw [e]
    simp only [senderT.triggerN]
    rw [ih]

theorem triggerTrace_empty (k : Nat) : ∀ (s : senderT), (∀ j, s.buffer j = none) →
    s.triggerTrace k = List.replicate k [] := by
  induction k with
  | zero =>
    intro s _
    rfl
  | succ k ih =>
    intro s hb
    obtain ⟨h1, h2⟩ := trigger_empty s hb
    simp only [senderT.triggerTrace, List.replicate_succ]
    rw [h1, ih _ h2]

/-- The ticks that pass while the slot waits for its `nextRepeat`. -/
theorem trigger_wait (d : Nat) : ∀ (s : senderT) (c : Nat) (q : ℚ) (m : List Byte) (a : Addr)
    (t att nr : Nat), s.Retrying c q m a t att nr → att ≤ maxAttempts → t + d = nr →
    nr + 1 < uintSize →
    s.triggerTrace d = List.replicate d [] ∧ (s.triggerN d).Retrying c q m a nr att nr := by
  induction d with
  | zero =>
    intro s c q m a t att nr h _ htd _
    have : t = nr := by omega
    subst this
    exact ⟨rfl, h⟩
  | succ d ih =>
    intro s c q m a t att nr h hat htd hnr
    obtain ⟨h1, h2⟩ := trigger_idle s c q m a t att nr h hat (by omega) (by omega)
    obtain ⟨h3, h4⟩ := ih s.trigger.1 c q m a (t + 1) att nr h2 hat (by omega) hnr
    simp only [senderT.triggerTrace, senderT.triggerN, List.replicate_succ]
    rw [h1, h3]
    exact ⟨rfl, h4⟩

theorem retryTicks_le (q : ℚ) (hlo : minSRTT ≤ q) (hhi : q ≤ maxSRTT) (j : Nat) (hj : j ≤ 10) :
    retryTicks (retryGap q) j ≤ 275 * j := by
  induction j with
  | zero => simp [retryTicks]
  | succ j ih =>
    have h1 := ih (by omega)
    have h2 := (retryGap_eq q (j + 1) hlo hhi hj).2
    simp only [retryTicks]
    omega

/-- The first `1 + gap 1 + ... + gap j` ticks of a sender that gets no ack, for `j ≤ 9`. -/
theorem trigger_rounds (s : senderT) (c : Nat) (q : ℚ) (m : List Byte) (a : Addr)
    (h : s.Retrying c q m a 0 0 0) (hlo : minSRTT ≤ q) (hhi : q ≤ maxSRTT) (j : Nat)
    (hj : j ≤ 9) :
    s.triggerTrace (1 + retryTicks (retryGap q) j) =
        [] :: retrySchedule (Event.write m a) (retryGap q) j ∧
      (s.triggerN (1 + retryTicks (retryGap q) j)).Retrying c q m a
        (retryTicks (retryGap q) j + 1) (j + 1) (retryTicks (retryGap q) (j + 1)) := by
  induction j with
  | zero =>
    have hg : retryGap q (0 + 1) ≤ 275 := (retryGap_eq q 1 hlo hhi (by omega)).2
    obtain ⟨h1, h2⟩ := trigger_fire s c q m a 0 0 h (by unfold maxAttempts; omega)
      (by unfold uintSize; omega) (by unfold uintSize; omega)
    simp only [retryTicks, senderT.triggerTrace, senderT.triggerN, retrySchedule]
    rw [h1]
    refine ⟨by simp, ?_⟩
    simpa using h2
  | succ j ih =>
    obtain ⟨ht, hs⟩ := ih (by omega)
    have hG := retryTicks_le q hlo hhi (j + 1) (by omega)
    have hG0 := retryTicks_le q hlo hhi j (by omega)
    have hg1 := retryGap_pos q (j + 1) hlo hhi (by omega) (by omega)
    have hg2 : retryGap q (j + 1 + 1) ≤ 275 := (retryGap_eq q (j + 2) hlo hhi (by omega)).2
    have hsplit : 1 + retryTicks (retryGap q) (j + 1) =
        (1 + retryTicks (retryGap q) j) + ((retryGap q (j + 1) - 1) + 1) := by
      simp only [retryTicks]
      omega
    have hGs : retryTicks (retryGap q) (j + 1) = retryTicks (retryGap q) j + retryGap q (j + 1) :=
      rfl
    obtain ⟨hw1, hw2⟩ := trigger_wait (retryGap q (j + 1) - 1)
      (s.triggerN (1 + retryTicks (retryGap q) j)) c q m a
      (retryTicks (retryGap q) j + 1) (j + 1) (retryTicks (retryGap q) (j + 1)) hs
      (by unfold maxAttempts; omega) (by rw [hGs]; omega) (by unfold uintSize; omega)
    obtain ⟨hf1, hf2⟩ := trigger_fire _ c q m a (retryTicks (retryGap q) (j + 1)) (j + 1) hw2
      (by unfold maxAttempts; omega) (by unfold uintSize; omega)
      (by unfold uintSize; omega)
    rw [if_pos (by omega)] at hf1
    have e1 : s.triggerTrace (1 + retryTicks (retryGap q) j + ((retryGap q (j + 1) - 1) + 1)) =
        s.triggerTrace (1 + retryTicks (retryGap q) j) ++
          ((s.triggerN (1 + retryTicks (retryGap q) j)).triggerTrace (retryGap q (j + 1) - 1) ++
            [((s.triggerN (1 + retryTicks (retryGap q) j)).triggerN
              (retryGap q (j + 1) - 1)).trigger.2]) := by
      rw [triggerTrace_add (1 + retryTicks (retryGap q) j) s,
        triggerTrace_add (retryGap q (j + 1) - 1) _ 1]
      rfl
    have e2 : s.triggerN (1 + retryTicks (retryGap q) j + ((retryGap q (j + 1) - 1) + 1)) =
        ((s.triggerN (1 + retryTicks (retryGap q) j)).triggerN
          (retryGap q (j + 1) - 1)).trigger.1 := by
      rw [triggerN_add (1 + retryTicks (retryGap q) j) s,
        triggerN_add (retryGap q (j + 1) - 1) _ 1]
      rfl
    rw [hsplit, e1, e2, ht, hw1, hf1]
    exact ⟨rfl, hf2⟩

theorem written_join_replicate_nil (d : Nat) :
    written (List.replicate d ([] : List Event)).flatten = [] := by
  induction d with
  | zero => rfl
  | succ d ih => simpa [List.replicate_succ] using ih

theorem failures_join_replicate_nil (d : Nat) :
    failures (List.replicate d ([] : List Event)).flatten = [] := by
  induction d with
  | zero => rfl
  | succ d ih => simpa [List.replicate_succ] using ih

theorem written_retrySchedule (m : List Byte) (a : Addr) (gap : Nat → Nat) (j : Nat) :
    written (retrySchedule (Event.write m a) gap j).flatten = List.replicate j m ∧
      failures (retrySchedule (Event.write m a) gap j).flatten = [] := by
  induction j with
  | zero => exact ⟨rfl, rfl⟩
  | succ j ih =>
    have hw := written_join_replicate_nil (gap (j + 1) - 1)
    have hf := failures_join_replicate_nil (gap (j + 1) - 1)
    simp only [written] at hw ih
    simp only [failures] at hf ih
    constructor
    · simp only [retrySchedule, written, List.flatten_append, List.filterMap_append, ih.1, hw]
      simp [List.replicate_succ']
    · simp only [retrySchedule, failures, List.flatten_append, List.filterMap_append, ih.2, hf]
      simp

/-- C4: retry back-off. The slot at `expectedAck` holds a freshly stored, unacknowledged
message `it` (tick count, attempt counter and `nextRepeat` all 0) and `srtt` is within
`[2, 12.5]`; `trigger` is called again and again and no ack arrives. Write `gap k` for
`retryGap srtt k = uint(ac * srtt * k)`, computed in `float32` as in the source. Then the
calls made by the successive `trigger` calls are: nothing on the first call; then, for
`k = 1, ..., 9`, nothing for `gap k - 1` calls followed by one retransmission of the stored
bytes to the stored address; then `ConnectionFailed` on the very next call; and nothing on
any later call. So the stored bytes are retransmitted exactly 9 times, `ConnectionFailed` is
signalled exactly once, the number of ticks between two successive retransmissions is
`gap 2, gap 3, ..., gap 9`, which never decreases (and `1 ≤ gap 1 ≤ gap 2`), and nothing is
written or signalled after the failure. -/
theorem retry_backoff (s : senderT) (it : itemT) (hb : s.buffer s.expectedAck = some it)
    (hack : it.ack = false) (hticks : it.ticks = 0) (hatt : it.attempt = 0)
    (hnr : it.nextRepeat = 0) (hlo : minSRTT ≤ s.srtt) (hhi : s.srtt ≤ maxSRTT) :
    (1 ≤ retryGap s.srtt 1 ∧
        ∀ k, 1 ≤ k → k ≤ 8 → retryGap s.srtt k ≤ retryGap s.srtt (k + 1)) ∧
      ∀ extra : Nat,
        s.triggerTrace (1 + retryTicks (retryGap s.srtt) 9 + 1 + extra) =
            ([] :: retrySchedule (Event.write it.msg it.addr) (retryGap s.srtt) 9) ++
              [[Event.ConnectionFailed s.crcid]] ++ List.replicate extra [] ∧
          written (s.triggerTrace (1 + retryTicks (retryGap s.srtt) 9 + 1 + extra)).flatten =
            List.replicate 9 it.msg ∧
          failures (s.triggerTrace (1 + retryTicks (retryGap s.srtt) 9 + 1 + extra)).flatten =
            [s.crcid] := by
  constructor
  · refine ⟨retryGap_pos s.srtt 1 hlo hhi (by omega) (by omega), ?_⟩
    intro k _ hk8
    exact retryGap_mono s.srtt k hlo hhi (by omega)
  · intro extra
    have hret : s.Retrying s.crcid s.srtt it.msg it.addr 0 0 0 :=
      ⟨rfl, rfl, it, hb, hack, rfl, rfl, hticks, hatt, hnr⟩
    obtain ⟨ht, hs⟩ := trigger_rounds s s.crcid s.srtt it.msg it.addr hret hlo hhi 9 (by omega)
    obtain ⟨hf1, hf2, -⟩ := trigger_fail _ _ _ _ _ _ _ _ hs (by unfold maxAttempts; omega)
    have hrest := triggerTrace_empty extra _ hf2
    have htrace : s.triggerTrace (1 + retryTicks (retryGap s.srtt) 9 + 1 + extra) =
        ([] :: retrySchedule (Event.write it.msg it.addr) (retryGap s.srtt) 9) ++
          [[Event.ConnectionFailed s.crcid]] ++ List.replicate extra [] := by
      have e : 1 + retryTicks (retryGap s.srtt) 9 + 1 + extra =
          (1 + retryTicks (retryGap s.srtt) 9) + (extra + 1) := by omega
      rw [e, triggerTrace_add (1 + retryTicks (retryGap s.srtt) 9) s, ht]
      simp only [senderT.triggerTrace]
      rw [hf1, hrest]
      simp
    refine ⟨htrace, ?_, ?_⟩
    · rw [htrace]
      have hw := (written_retrySchedule it.msg it.addr (retryGap s.srtt) 9).1
      have hn := written_join_replicate_nil extra
      simp only [written] at hw hn
      simp only [written, List.flatten_append, List.flatten_cons, List.filterMap_append,
        List.nil_append, hw, hn]
      simp
    · rw [htrace]
      have hw := (written_retrySchedule it.msg it.addr (retryGap s.srtt) 9).2
      have hn := failures_join_replicate_nil extra
      simp only [failures] at hw hn
      simp only [failures, List.flatten_append, List.flatten_cons, List.filterMap_append,
        List.nil_append, hw, hn]
      simp

/-- C4, witness: the sender just after `connect` (its slot 0 holds the fresh SYN packet and
`srtt` is the default 5). -/
theorem retry_backoff_witness :
    (newSender.connect 7 none).1.buffer (newSender.connect 7 none).1.expectedAck =
        some { msg := header syn 7 ++ [byteOf 0xFD], addr := none } ∧
      minSRTT ≤ (newSender.connect 7 none).1.srtt ∧
      (newSender.connect 7 none).1.srtt ≤ maxSRTT ∧
      failures ((newSender.connect 7 none).1.triggerTrace
        (1 + retryTicks (retryGap (newSender.connect 7 none).1.srtt) 9 + 1 + 5)).flatten = [7] :=
  ⟨by simp [senderT.connect], by simp only [senderT.connect, minSRTT, defaultSRTT]; norm_num,
   by simp only [senderT.connect, maxSRTT, defaultSRTT]; norm_num,
   ((retry_backoff (newSender.connect 7 none).1
      { msg := header syn 7 ++ [byteOf 0xFD], addr := none } (by simp [senderT.connect])
      rfl rfl rfl rfl (by simp only [senderT.connect, minSRTT, defaultSRTT]; norm_num)
      (by simp only [senderT.connect, maxSRTT, defaultSRTT]; norm_num)).2 5).2.2⟩

/-! ### Sender: `send` when not connected, `connect`, error ack, attempts exhausted -/

/-- C14: on a sender with `connected = false`, `send` returns the error with code 14 (not
connected), writes nothing to the socket and makes no other call, and leaves the whole
sender state (so `id`, `expectedAck`, `srtt` and every ring slot) unchanged. -/
theorem send_not_connected (s : senderT) (msg : List Byte) (addr : Addr)
    (hc : s.connected = false) :
    (s.send msg addr).2.2 = some 14 ∧ (s.send msg addr).2.1 = [] ∧
      written (s.send msg addr).2.1 = [] ∧ (s.send msg addr).1 = s ∧
      (s.send msg addr).1.id = s.id ∧ (s.send msg addr).1.expectedAck = s.expectedAck ∧
      (s.send msg addr).1.srtt = s.srtt ∧
      ∀ j, (s.send msg addr).1.buffer j = s.buffer j := by
  have h : s.send msg addr = (s, [], some 14) := by
    unfold senderT.send
    rw [if_neg (by rw [hc]; exact Bool.false_ne_true)]
  rw [h]
  exact ⟨rfl, rfl, rfl, rfl, rfl, rfl, rfl, fun _ => rfl⟩

/-- C14, witness: the sender made by `newSender` is not connected. -/
theorem send_not_connected_witness :
    newSender.connected = false ∧ (newSender.send [0x41] none).2.2 = some 14 ∧
      (newSender.send [0x41] none).2.1 = [] :=
  ⟨rfl, (send_not_connected newSender [0x41] none rfl).1,
    (send_not_connected newSender [0x41] none rfl).2.1⟩

/-- C17: from every prior sender state, `connect c addr` leaves `id = 0`, `expectedAck = 0`,
`srtt = 5`, `totalTicks = 0`, `connected = false`, slot 0 holding an unacknowledged item with
attempt 0 (and tick count 0) that stores the SYN packet and `addr`, and every other slot
empty; it makes exactly one call, the write to `addr` of the 6 bytes
`[0, c>>24, c>>16, c>>8, c, 0xFD]`; and a `send` issued right after it fails with code 14 (not
connected) and writes nothing. -/
theorem connect_resets (s : senderT) (c : Nat) (addr : Addr) :
    (s.connect c addr).1.id = 0 ∧ (s.connect c addr).1.expectedAck = 0 ∧
      (s.connect c addr).1.srtt = 5 ∧ (s.connect c addr).1.totalTicks = 0 ∧
      (s.connect c addr).1.connected = false ∧ (s.connect c addr).1.crcid = c ∧
      (∃ it, (s.connect c addr).1.buffer 0 = some it ∧ it.ack = false ∧ it.attempt = 0 ∧
        it.ticks = 0 ∧ it.nextRepeat = 0 ∧ it.addr = addr ∧
        it.msg = [0, byteOf (c >>> 24), byteOf (c >>> 16), byteOf (c >>> 8), byteOf c, 0xFD]) ∧
      (∀ j, j ≠ 0 → (s.connect c addr).1.buffer j = none) ∧
      (s.connect c addr).2 =
        [Event.write [0, byteOf (c >>> 24), byteOf (c >>> 16), byteOf (c >>> 8), byteOf c, 0xFD]
          addr] ∧
      ∀ (msg : List Byte) (a : Addr),
        ((s.connect c addr).1.send msg a).2.2 = some 14 ∧
          ((s.connect c addr).1.send msg a).2.1 = [] := by
  refine ⟨rfl, rfl, rfl, rfl, rfl, rfl,
    ⟨{ msg := header syn c ++ [byteOf 0xFD], addr := addr }, by simp [senderT.connect, syn],
      rfl, rfl, rfl, rfl, rfl, rfl⟩, ?_, rfl, ?_⟩
  · intro j hj
    simp [senderT.connect, syn, Function.update_noteq hj]
  · intro msg a
    have h : (s.connect c addr).1.send msg a = ((s.connect c addr).1, [], some 14) := by
      unfold senderT.send
      rw [if_neg (by
        show ¬ ((s.connect c addr).1.connected = true)
        exact Bool.false_ne_true)]
    rw [h]
    exact ⟨rfl, rfl⟩

/-- C18: for every sender state, `onAck 1` leaves `connected = false` and all 256 ring slots
empty, and makes exactly one call: `ConnectionFailed` with the connection id stored in the
sender. -/
theorem onAck_errAck (s : senderT) :
    (s.onAck errAck).1.connected = false ∧ (∀ j, (s.onAck errAck).1.buffer j = none) ∧
      (s.onAck errAck).2 = [Event.ConnectionFailed s.crcid] ∧
      failures (s.onAck errAck).2 = [s.crcid] := by
  have hne : errAck ≠ syn := by decide
  have hcr : ∀ s1 : senderT, s1.accept.crcid = s1.crcid := fun s1 => (accept_fields s1).2.2.2
  unfold senderT.onAck
  cases hb : s.buffer errAck with
  | none =>
    simp only [if_neg hne, if_pos rfl]
    exact ⟨rfl, fun _ => rfl, rfl, rfl⟩
  | some it =>
    by_cases he : errAck = s.expectedAck
    · simp only [if_neg hne, if_pos rfl, if_pos he, hcr]
      exact ⟨rfl, fun _ => rfl, rfl, rfl⟩
    · simp only [if_neg hne, if_pos rfl, if_neg he]
      exact ⟨rfl, fun _ => rfl, rfl, rfl⟩

/-- C19: when the slot at `expectedAck` is occupied and unacknowledged, `trigger` with an
attempt counter greater than `maxAttempts = 9` sets `connected = false`, empties all 256 ring
slots and makes exactly one call, `ConnectionFailed` with the stored connection id (so no
socket write); with an attempt counter of 9 or less it signals no failure and the sender
stays as connected as it was. -/
theorem trigger_attempts_exhausted (s : senderT) (it : itemT)
    (hb : s.buffer s.expectedAck = some it) (hack : it.ack = false) :
    (maxAttempts < it.attempt →
        s.trigger.1.connected = false ∧ (∀ j, s.trigger.1.buffer j = none) ∧
          s.trigger.2 = [Event.ConnectionFailed s.crcid] ∧ written s.trigger.2 = [] ∧
          failures s.trigger.2 = [s.crcid]) ∧
      (it.attempt ≤ maxAttempts →
        failures s.trigger.2 = [] ∧ s.trigger.1.connected = s.connected) := by
  constructor
  · intro hgt
    unfold senderT.trigger
    simp only [hb]
    rw [if_pos hack, if_pos hgt]
    exact ⟨rfl, fun _ => rfl, rfl, rfl, rfl⟩
  · intro hle
    have hng : ¬ (it.attempt > maxAttempts) := by omega
    unfold senderT.trigger
    simp only [hb]
    rw [if_pos hack, if_neg hng]
    by_cases ht : it.ticks = it.nextRepeat
    · rw [if_pos ht]
      by_cases h1 : (it.attempt + 1) % uintSize > 1
      · rw [if_pos h1]
        exact ⟨rfl, rfl⟩
      · rw [if_neg h1]
        exact ⟨rfl, rfl⟩
    · rw [if_neg ht]
      exact ⟨rfl, rfl⟩

/-- C19, witness: a sender whose slots hold an unacknowledged item with attempt 10. -/
theorem trigger_attempts_exhausted_witness :
    (senderT.mk 0 0 true 5 0 7 (fun _ => some { attempt := 10 })).trigger.1.connected = false ∧
      (senderT.mk 0 0 true 5 0 7 (fun _ => some { attempt := 10 })).trigger.2
        = [Event.ConnectionFailed 7] :=
  ⟨((trigger_attempts_exhausted (senderT.mk 0 0 true 5 0 7 (fun _ => some { attempt := 10 }))
      { attempt := 10 } rfl rfl).1 (by decide)).1,
   ((trigger_attempts_exhausted (senderT.mk 0 0 true 5 0 7 (fun _ => some { attempt := 10 }))
      { attempt := 10 } rfl rfl).1 (by decide)).2.2.1⟩

/-! ### Receiver: SYN -/

/-- C20: for every receiver state and every connection id `c`, `onMsg` with id 0 makes
exactly two calls, first the write of the 5-byte ack `[0, c>>24, c>>16, c>>8, c]` to the
source address and then `OnReceiverConnected c addr`; it empties the buffer, sets
`expected = 2`, `connected = true` and the out-of-order counter to 0, and hands nothing to
the handler. -/
theorem onMsg_syn_resets (r : receiverT) (c : Nat) (msg : List Byte) (addr : Addr) :
    (r.onMsg 0 c msg addr).2 =
        [Event.write [0, byteOf (c >>> 24), byteOf (c >>> 16), byteOf (c >>> 8), byteOf c] addr,
          Event.OnReceiverConnected c addr] ∧
      (∀ j, (r.onMsg 0 c msg addr).1.buffer j = none) ∧
      (r.onMsg 0 c msg addr).1.expected = 2 ∧
      (r.onMsg 0 c msg addr).1.connected = true ∧
      (r.onMsg 0 c msg addr).1.pending = 0 ∧
      delivered (r.onMsg 0 c msg addr).2 = [] ∧
      written (r.onMsg 0 c msg addr).2
        = [[0, byteOf (c >>> 24), byteOf (c >>> 16), byteOf (c >>> 8), byteOf c]] := by
  have h0 : (0 : Byte) = syn := rfl
  rw [h0, onMsg_syn]
  exact ⟨rfl, fun _ => rfl, rfl, rfl, rfl, rfl, rfl⟩

/-! ### Coordinator: malformed datagrams -/

theorem parseHeader_short (data : List Byte) (h : data.length < 5) : parseHeader data = none := by
  match data, h with
  | [], _ => rfl
  | [_], _ => rfl
  | [_, _], _ => rfl
  | [_, _, _], _ => rfl
  | [_, _, _, _], _ => rfl
  | _ :: _ :: _ :: _ :: _ :: _, h => simp at h; omega

/-- C15: for every datagram shorter than 5 bytes, the empty one included, `OnReceived`
returns the error with code 11, makes no call at all (so it writes nothing to the socket),
and leaves the coordinator, that is the sender map, the receiver map and the address map,
exactly as it was (so no sender or receiver is created). -/
theorem OnReceived_short (p : SwUDP) (data : List Byte) (addr : Addr) (h : data.length < 5) :
    (p.OnReceived data addr).2.2 = some 11 ∧ (p.OnReceived data addr).2.1 = [] ∧
      written (p.OnReceived data addr).2.1 = [] ∧
      (p.OnReceived data addr).1 = p ∧
      (p.OnReceived data addr).1.senders = p.senders ∧
      (p.OnReceived data addr).1.receivers = p.receivers ∧
      (p.OnReceived data addr).1.addresses = p.addresses ∧
      (p.OnReceived data addr).1.GetSendersCount = p.GetSendersCount ∧
      (p.OnReceived data addr).1.GetReceiversCount = p.GetReceiversCount := by
  have hres : p.OnReceived data addr = (p, [], some 11) := by
    unfold SwUDP.OnReceived
    rw [parseHeader_short data h]
  rw [hres]
  exact ⟨rfl, rfl, rfl, rfl, rfl, rfl, rfl, rfl, rfl⟩

/-- C15, witness: the empty datagram and a datagram of 4 bytes on the empty coordinator. -/
theorem OnReceived_short_witness :
    ([] : List Byte).length < 5 ∧
      ((⟨∅, ∅, ∅⟩ : SwUDP).OnReceived [] none).2.2 = some 11 ∧
      ([1, 2, 3, 4] : List Byte).length < 5 ∧
      ((⟨∅, ∅, ∅⟩ : SwUDP).OnReceived [1, 2, 3, 4] none).2.1 = [] :=
  ⟨by decide, (OnReceived_short ⟨∅, ∅, ∅⟩ [] none (by decide)).1,
   by decide, (OnReceived_short ⟨∅, ∅, ∅⟩ [1, 2, 3, 4] none (by decide)).2.1⟩

/-! ### Receiver: pending overflow -/

theorem failures_append (xs ys : List Event) :
    failures (xs ++ ys) = failures xs ++ failures ys := by
  simp [failures, List.filterMap_append]

theorem onMsg_not_connected (r : receiverT) (id : Byte) (crcid : Nat) (msg : List Byte)
    (addr : Addr) (hs : id ≠ syn) (hc : r.connected = false) :
    r.onMsg id crcid msg addr = (r, [Event.write (header errAck crcid) addr]) := by
  unfold receiverT.onMsg
  simp only
  rw [if_neg hs, if_neg (by rw [hc]; exact Bool.false_ne_true)]

theorem run_not_connected (ms : List MsgCall) : ∀ (r : receiverT),
    r.connected = false → (∀ m ∈ ms, m.id ≠ syn) →
    (r.run ms).1 = r ∧ failures (r.run ms).2 = [] ∧ delivered (r.run ms).2 = [] := by
  induction ms with
  | nil =>
    intro r _ _
    exact ⟨rfl, rfl, rfl⟩
  | cons m ms ih =>
    intro r hc hms
    have hm : m.id ≠ syn := hms m (by simp)
    have hrest : ∀ m0 ∈ ms, m0.id ≠ syn := fun m0 h0 => hms m0 (by simp [h0])
    obtain ⟨h1, h2, h3⟩ := ih r hc hrest
    simp only [receiverT.run]
    rw [onMsg_not_connected r m.id m.crcid m.msg m.addr hm hc]
    simp only
    rw [failures_append, delivered_append, h1, h2, h3]
    exact ⟨rfl, rfl, rfl⟩

/-- A run of packets that are all ahead of the expected id delivers nothing, and either it
signals the failure once or the counter stayed below `maxPending` at every step. -/
theorem run_ahead (c : Nat) (ms : List MsgCall) : ∀ (r : receiverT),
    r.connected = true →
    (∀ m ∈ ms, m.id ≠ syn ∧ after m.id r.expected = true ∧ m.crcid = c) →
    delivered (r.run ms).2 = [] ∧
      ((failures (r.run ms).2 = [c] ∧ (r.run ms).1.connected = false) ∨
        (failures (r.run ms).2 = [] ∧ (r.run ms).1.connected = true ∧
          ∀ i, 1 ≤ i → i ≤ ms.length → (r.pending.val + i) % 256 < maxPending)) := by
  induction ms with
  | nil =>
    intro r hc _
    refine ⟨rfl, Or.inr ⟨rfl, hc, ?_⟩⟩
    intro i h1 h2
    simp at h2
    omega
  | cons m ms ih =>
    intro r hc hms
    obtain ⟨hm1, hm2, hm3⟩ := hms m (by simp)
    have hrest : ∀ m0 ∈ ms, m0.id ≠ syn ∧ after m0.id r.expected = true ∧ m0.crcid = c :=
      fun m0 h0 => hms m0 (by simp [h0])
    simp only [receiverT.run]
    by_cases hp : (r.pending.val + 1) % 256 < maxPending
    · rw [onMsg_store r m.id m.crcid m.msg m.addr hc hm1 hm2 hp]
      simp only
      obtain ⟨hd, hor⟩ := ih
        { r with pending := byteOf (r.pending.val + 1),
                 buffer := Function.update r.buffer m.id (some { msg := m.msg }) } hc hrest
      rw [delivered_append, failures_append, hd]
      refine ⟨rfl, ?_⟩
      rcases hor with ⟨hf, hcf⟩ | ⟨hf, hcc, hall⟩
      · left
        rw [hf]
        exact ⟨rfl, hcf⟩
      · right
        rw [hf]
        refine ⟨rfl, hcc, ?_⟩
        intro i h1 h2
        by_cases hi : i = 1
        · rw [hi]; exact hp
        · have h3 := hall (i - 1) (by omega) (by simp at h2; omega)
          simp only [byteOf_val] at h3
          unfold maxPending at h3 ⊢
          omega
    · rw [onMsg_overflow r m.id m.crcid m.msg m.addr hc hm1 hm2 (by omega)]
      simp only
      obtain ⟨h1, h2, h3⟩ := run_not_connected ms
        { r with pending := byteOf (r.pending.val + 1), connected := false,
                 buffer := fun _ => none } rfl (fun m0 h0 => (hrest m0 h0).1)
      rw [delivered_append, failures_append, h1, h2, h3, hm3]
      exact ⟨rfl, Or.inl ⟨rfl, rfl⟩⟩

/-- C11: pending overflow. A connected receiver expects id `k`; six data packets of the
connection `c` arrive whose ids are not SYN and are all after `k` (so none of them is `k`).
Then `ConnectionFailed c` is signalled, exactly once, no payload is handed to the handler,
and the receiver ends disconnected. (The ids need not even be distinct.) -/
theorem pending_overflow (r : receiverT) (k : Byte) (c : Nat) (ms : List MsgCall)
    (hc : r.connected = true) (hk : r.expected = k) (hlen : ms.length = 6)
    (hms : ∀ m ∈ ms, m.id ≠ syn ∧ after m.id k = true ∧ m.crcid = c) :
    failures (r.run ms).2 = [c] ∧ delivered (r.run ms).2 = [] ∧
      (r.run ms).1.connected = false := by
  subst hk
  obtain ⟨hd, hor⟩ := run_ahead c ms r hc hms
  rcases hor with ⟨hf, hcf⟩ | ⟨_, _, hall⟩
  · exact ⟨hf, hd, hcf⟩
  · exfalso
    have h1 := hall 1 (by omega) (by omega)
    have h2 := hall 2 (by omega) (by omega)
    have h3 := hall 3 (by omega) (by omega)
    have h4 := hall 4 (by omega) (by omega)
    have h5 := hall 5 (by omega) (by omega)
    have h6 := hall 6 (by omega) (by omega)
    unfold maxPending at h1 h2 h3 h4 h5 h6
    omega

/-- C11, witness: the receiver just after a SYN (it expects id 2) and the ids 3 to 8. -/
theorem pending_overflow_witness :
    (newReceiver.onMsg syn 7 [0xFD] none).1.connected = true ∧
      (newReceiver.onMsg syn 7 [0xFD] none).1.expected = 2 ∧
      failures ((newReceiver.onMsg syn 7 [0xFD] none).1.run
        [⟨3, 7, [1], none⟩, ⟨4, 7, [1], none⟩, ⟨5, 7, [1], none⟩, ⟨6, 7, [1], none⟩,
          ⟨7, 7, [1], none⟩, ⟨8, 7, [1], none⟩]).2 = [7] ∧
      delivered ((newReceiver.onMsg syn 7 [0xFD] none).1.run
        [⟨3, 7, [1], none⟩, ⟨4, 7, [1], none⟩, ⟨5, 7, [1], none⟩, ⟨6, 7, [1], none⟩,
          ⟨7, 7, [1], none⟩, ⟨8, 7, [1], none⟩]).2 = [] :=
  ⟨by rw [onMsg_syn], by rw [onMsg_syn],
   (pending_overflow (newReceiver.onMsg syn 7 [0xFD] none).1 2 7
      [⟨3, 7, [1], none⟩, ⟨4, 7, [1], none⟩, ⟨5, 7, [1], none⟩, ⟨6, 7, [1], none⟩,
        ⟨7, 7, [1], none⟩, ⟨8, 7, [1], none⟩]
      (by rw [onMsg_syn]) (by rw [onMsg_syn]) rfl (by decide)).1,
   (pending_overflow (newReceiver.onMsg syn 7 [0xFD] none).1 2 7
      [⟨3, 7, [1], none⟩, ⟨4, 7, [1], none⟩, ⟨5, 7, [1], none⟩, ⟨6, 7, [1], none⟩,
        ⟨7, 7, [1], none⟩, ⟨8, 7, [1], none⟩]
      (by rw [onMsg_syn]) (by rw [onMsg_syn]) rfl (by decide)).2.1⟩

/-! ### Receiver: occupancy of the out-of-order buffer -/

theorem reach_run (ms : List MsgCall) : ∀ (r : receiverT), receiverT.Reach r →
    receiverT.Reach (r.run ms).1 := by
  induction ms with
  | nil =>
    intro r hr
    exact hr
  | cons m ms ih =>
    intro r hr
    simp only [receiverT.run]
    exact ih _ (receiverT.Reach.onMsg r m.id m.crcid m.msg m.addr hr)

/-- C12, failing input: after a SYN and the ids 4, 5, 2, 6, 7, 8, 9 the receiver is still
connected and its out-of-order buffer holds the six payloads of the ids 4 to 9: the in-order
id 2 resets the counter but, slot 3 being empty, frees no slot. So a reachable state has
more than `maxPending = 5` occupied slots. -/
theorem buffer_exceeds_maxPending :
    receiverT.Reach (newReceiver.run [⟨0, 7, [0xFD], none⟩, ⟨4, 7, [4], none⟩,
        ⟨5, 7, [5], none⟩, ⟨2, 7, [2], none⟩, ⟨6, 7, [6], none⟩, ⟨7, 7, [7], none⟩,
        ⟨8, 7, [8], none⟩, ⟨9, 7, [9], none⟩]).1 ∧
      (newReceiver.run [⟨0, 7, [0xFD], none⟩, ⟨4, 7, [4], none⟩,
        ⟨5, 7, [5], none⟩, ⟨2, 7, [2], none⟩, ⟨6, 7, [6], none⟩, ⟨7, 7, [7], none⟩,
        ⟨8, 7, [8], none⟩, ⟨9, 7, [9], none⟩]).1.connected = true ∧
      (∀ j : Byte, 4 ≤ j.val → j.val ≤ 9 →
        ((newReceiver.run [⟨0, 7, [0xFD], none⟩, ⟨4, 7, [4], none⟩,
          ⟨5, 7, [5], none⟩, ⟨2, 7, [2], none⟩, ⟨6, 7, [6], none⟩, ⟨7, 7, [7], none⟩,
          ⟨8, 7, [8], none⟩, ⟨9, 7, [9], none⟩]).1.buffer j).isSome = true) ∧
      maxPending < occupied (newReceiver.run [⟨0, 7, [0xFD], none⟩, ⟨4, 7, [4], none⟩,
        ⟨5, 7, [5], none⟩, ⟨2, 7, [2], none⟩, ⟨6, 7, [6], none⟩, ⟨7, 7, [7], none⟩,
        ⟨8, 7, [8], none⟩, ⟨9, 7, [9], none⟩]).1.buffer := by
  refine ⟨reach_run _ _ receiverT.Reach.init, ?_⟩
  simp only [receiverT.run]
  have h0 : (0 : Byte) = syn := rfl
  rw [h0, onMsg_syn]
  rw [onMsg_store _ 4 _ _ _ rfl (by decide) (by decide) (by decide)]
  rw [onMsg_store _ 5 _ _ _ rfl (by decide) (by decide) (by decide)]
  simp only
  set r1 : receiverT :=
    { expected := 2, connected := true, pending := byteOf ((byteOf ((0 : Byte).val + 1)).val + 1),
      buffer := Function.update (Function.update (fun _ => none) 4 (some { msg := [4] })) 5
        (some { msg := [5] }) } with hr1
  rw [onMsg_expected r1 2 7 [2] none (by decide) rfl rfl]
  have hb1 : ({ r1 with expected := next 2, pending := 0 } : receiverT).buffer
      ({ r1 with expected := next 2, pending := 0 } : receiverT).expected = none := by
    have hn : next 2 = 3 := by
      apply Fin.ext
      rw [next_val]
      decide
    show Function.update (Function.update (fun _ => none) 4 _) 5 _ (next 2) = none
    rw [hn, Function.update_noteq (by decide), Function.update_noteq (by decide)]
  rw [receiver_accept_none { r1 with expected := next 2, pending := 0 } 7 hb1]
  simp only
  have hn : next 2 = 3 := by
    apply Fin.ext
    rw [next_val]
    decide
  rw [hn]
  rw [onMsg_store _ 6 _ _ _ rfl (by decide) (by decide) (by decide)]
  rw [onMsg_store _ 7 _ _ _ rfl (by decide) (by decide) (by decide)]
  rw [onMsg_store _ 8 _ _ _ rfl (by decide) (by decide) (by decide)]
  rw [onMsg_store _ 9 _ _ _ rfl (by decide) (by decide) (by decide)]
  simp only
  have hocc : ∀ j : Byte, 4 ≤ j.val → j.val ≤ 9 →
      ((Function.update (Function.update (Function.update (Function.update
        (Function.update (Function.update (fun _ => none) 4 (some ({ msg := [4] } : itemT))) 5
          (some { msg := [5] })) 6 (some { msg := [6] })) 7 (some { msg := [7] })) 8
            (some { msg := [8] })) 9 (some { msg := [9] })) j).isSome = true := by
    intro j h4 h9
    have hv : j.val = 4 ∨ j.val = 5 ∨ j.val = 6 ∨ j.val = 7 ∨ j.val = 8 ∨ j.val = 9 := by
      omega
    have hj : j = 4 ∨ j = 5 ∨ j = 6 ∨ j = 7 ∨ j = 8 ∨ j = 9 := by
      rcases hv with h | h | h | h | h | h
      · exact Or.inl (Fin.ext h)
      · exact Or.inr (Or.inl (Fin.ext h))
      · exact Or.inr (Or.inr (Or.inl (Fin.ext h)))
      · exact Or.inr (Or.inr (Or.inr (Or.inl (Fin.ext h))))
      · exact Or.inr (Or.inr (Or.inr (Or.inr (Or.inl (Fin.ext h)))))
      · exact Or.inr (Or.inr (Or.inr (Or.inr (Or.inr (Fin.ext h)))))
    rcases hj with rfl | rfl | rfl | rfl | rfl | rfl <;> simp [Function.update]
  refine ⟨trivial, hocc, ?_⟩
  have hsub : ({4, 5, 6, 7, 8, 9} : Finset Byte) ⊆
      Finset.univ.filter (fun j => ((Function.update (Function.update (Function.update
        (Function.update (Function.update (Function.update (fun _ => none) 4
          (some ({ msg := [4] } : itemT))) 5 (some { msg := [5] })) 6 (some { msg := [6] })) 7
            (some { msg := [7] })) 8 (some { msg := [8] })) 9 (some { msg := [9] })) j).isSome
              = true) := by
    intro j hj
    simp only [Finset.mem_filter, Finset.mem_univ, true_and]
    simp only [Finset.mem_insert, Finset.mem_singleton] at hj
    rcases hj with rfl | rfl | rfl | rfl | rfl | rfl <;> exact hocc _ (by decide) (by decide)
  have hcard : ({4, 5, 6, 7, 8, 9} : Finset Byte).card = 6 := by decide
  have hle := Finset.card_le_card hsub
  rw [hcard] at hle
  unfold occupied maxPending
  omega

/-! ### Coordinator: an error ack -/

theorem parseHeader_five (d0 d1 d2 d3 d4 : Byte) (rest : List Byte) :
    parseHeader (d0 :: d1 :: d2 :: d3 :: d4 :: rest) =
      some (d0, (d1.val <<< 24) ||| (d2.val <<< 16) ||| (d3.val <<< 8) ||| d4.val, rest) := rfl

theorem onAck_errAck_newSender :
    newSender.onAck errAck = (newSender, [Event.ConnectionFailed 0]) := by
  unfold senderT.onAck
  have hb : newSender.buffer errAck = none := rfl
  simp only [hb]
  rw [if_neg (by decide)]
  rfl

/-- C13, failing input: on a coordinator that holds no sender but a receiver for connection
0, `OnReceived` of the error-ack datagram `[1, 0, 0, 0, 7]` (connection id 7) registers a new
sender under 7, which signals `ConnectionFailed` with its own stored id 0: afterwards the
coordinator still holds a sender for 7, and the receiver of connection 0 is gone. -/
theorem error_ack_keeps_sender :
    ((⟨∅, AList.singleton 0 newReceiver, ∅⟩ : SwUDP).OnReceived [1, 0, 0, 0, 7] none).2.1
        = [Event.ConnectionFailed 0] ∧
      (((⟨∅, AList.singleton 0 newReceiver, ∅⟩ : SwUDP).OnReceived [1, 0, 0, 0, 7]
        none).1.senders.lookup 7).isSome = true ∧
      (((⟨∅, AList.singleton 0 newReceiver, ∅⟩ : SwUDP).OnReceived [1, 0, 0, 0, 7]
        none).1.receivers.lookup 0).isNone = true ∧
      ((⟨∅, AList.singleton 0 newReceiver, ∅⟩ : SwUDP).receivers.lookup 0).isSome = true := by
  have hp : parseHeader ([1, 0, 0, 0, 7] : List Byte) = some (1, 7, []) := by
    rw [parseHeader_five]
    rfl
  have hg : ∀ p : SwUDP, p.senders = ∅ →
      p.getSender 7 = ({ p with senders := p.senders.insert 7 newSender }, newSender) := by
    intro p hs
    unfold SwUDP.getSender
    rw [hs]
    rfl
  unfold SwUDP.OnReceived
  rw [hp]
  simp only [List.length_cons, List.length_nil, if_true]
  rw [hg _ rfl]
  simp only
  have h1 : (1 : Byte) = errAck := rfl
  rw [h1, onAck_errAck_newSender]
  simp only [SwUDP.callbacks, SwUDP.callback, SwUDP.ConnectionFailed, List.append_nil]
  refine ⟨trivial, ?_, ?_, ?_⟩
  · rw [AList.lookup_erase_ne (by decide), AList.lookup_insert]
    rfl
  · rw [AList.lookup_erase]
    rfl
  · rfl

/-! ### Coordinator: routing by length -/

theorem getSender_eq (p : SwUDP) (c : Nat) :
    (p.getSender c).2 = (p.senders.lookup c).getD newSender ∧
      (p.getSender c).1.receivers = p.receivers ∧
      (p.getSender c).1.addresses = p.addresses ∧
      ∀ x : senderT, (p.getSender c).1.senders.insert c x = p.senders.insert c x := by
  unfold SwUDP.getSender
  cases h : p.senders.lookup c with
  | none =>
    refine ⟨rfl, rfl, rfl, ?_⟩
    intro x
    exact AList.insert_insert _
  | some s0 => exact ⟨rfl, rfl, rfl, fun _ => rfl⟩

theorem getReceiver_eq (p : SwUDP) (c : Nat) :
    (p.getReceiver c).2 = (p.receivers.lookup c).getD newReceiver ∧
      (p.getReceiver c).1.senders = p.senders ∧
      (p.getReceiver c).1.addresses = p.addresses ∧
      ∀ x : receiverT, (p.getReceiver c).1.receivers.insert c x = p.receivers.insert c x := by
  unfold SwUDP.getReceiver
  cases h : p.receivers.lookup c with
  | none =>
    refine ⟨rfl, rfl, rfl, ?_⟩
    intro x
    exact AList.insert_insert _
  | some r0 => exact ⟨rfl, rfl, rfl, fun _ => rfl⟩

theorem onAck_events (s : senderT) (a : Byte) :
    (s.onAck a).2 = if a = syn then [Event.OnSenderConnected]
      else if a = errAck then [Event.ConnectionFailed s.crcid] else [] := by
  have hcr : ∀ s1 : senderT, s1.accept.crcid = s1.crcid := fun s1 => (accept_fields s1).2.2.2
  unfold senderT.onAck
  by_cases h0 : a = syn
  · simp only [if_pos h0]
  · by_cases h1 : a = errAck
    · simp only [if_neg h0, if_pos h1]
      cases hb : s.buffer a with
      | none => rfl
      | some it =>
        by_cases he : a = s.expectedAck
        · simp only [if_pos he, hcr]
        · simp only [if_neg he]
    · simp only [if_neg h0, if_neg h1]

theorem callbacks_nil (p : SwUDP) : p.callbacks [] = (p, []) := rfl

theorem callbacks_failed (p : SwUDP) (c : Nat) :
    p.callbacks [Event.ConnectionFailed c] = (p.ConnectionFailed c, [Event.ConnectionFailed c]) :=
  rfl

theorem callbacks_senderConnected (p : SwUDP) :
    p.callbacks [Event.OnSenderConnected] = (p, [Event.OnSenderConnected]) := rfl

theorem callbacks_write (p : SwUDP) (d : List Byte) (a : Addr) (es : List Event) :
    p.callbacks (Event.write d a :: es) =
      ((p.callbacks es).1, Event.write d a :: (p.callbacks es).2) := rfl

theorem callbacks_onReceived (p : SwUDP) (c : Nat) (m : List Byte) (es : List Event) :
    p.callbacks (Event.onReceived c m :: es) =
      ((p.callbacks es).1, Event.onReceived c m :: (p.callbacks es).2) := rfl

theorem receiver_accept_events (r : receiverT) (crcid : Nat) (p : SwUDP) :
    p.callbacks (r.accept crcid).2 = (p, (r.accept crcid).2) := by
  induction r, crcid using receiverT.accept.induct with
  | case1 r crcid it h ih =>
    rw [receiver_accept_some r crcid it h]
    simp only
    rw [callbacks_onReceived, ih]
  | case2 r crcid h =>
    rw [receiver_accept_none r crcid h]
    rfl

theorem mem_failures (c : Nat) (evs : List Event) :
    Event.ConnectionFailed c ∈ evs ↔ c ∈ failures evs := by
  unfold failures
  rw [List.mem_filterMap]
  constructor
  · intro h
    exact ⟨_, h, rfl⟩
  · rintro ⟨e, he, hc⟩
    cases e with
    | ConnectionFailed c2 =>
      simp only [Option.some.injEq] at hc
      rw [← hc]
      exact he
    | write d a => simp at hc
    | onReceived c2 m => simp at hc
    | OnSenderConnected => simp at hc
    | OnReceiverConnected c2 a => simp at hc

/-- The calls of `onMsg` for an id that is not SYN, carried out on the coordinator: either no
call touches the maps, or the only one that does is the final `ConnectionFailed crcid`. -/
theorem onMsg_callbacks (r : receiverT) (id : Byte) (crcid : Nat) (msg : List Byte)
    (addr : Addr) (p : SwUDP) (hs : id ≠ syn) :
    (p.callbacks (r.onMsg id crcid msg addr).2 = (p, (r.onMsg id crcid msg addr).2) ∧
        Event.ConnectionFailed crcid ∉ (r.onMsg id crcid msg addr).2) ∨
      (p.callbacks (r.onMsg id crcid msg addr).2 =
          (p.ConnectionFailed crcid, (r.onMsg id crcid msg addr).2) ∧
        Event.ConnectionFailed crcid ∈ (r.onMsg id crcid msg addr).2) := by
  by_cases hc : r.connected = true
  · by_cases he : id = r.expected
    · left
      rw [onMsg_expected r id crcid msg addr hs hc he]
      simp only
      rw [callbacks_write, callbacks_onReceived, receiver_accept_events]
      refine ⟨rfl, ?_⟩
      rw [mem_failures]
      have hf := (receiver_accept_fields { r with expected := next id, pending := 0 } crcid).2.2.2
      simp only [failures, List.filterMap_cons] at hf ⊢
      rw [hf]
      simp
    · by_cases ha : after id r.expected = true
      · by_cases hp : (r.pending.val + 1) % 256 < maxPending
        · left
          rw [onMsg_store r id crcid msg addr hc hs ha hp]
          exact ⟨rfl, by simp⟩
        · right
          rw [onMsg_overflow r id crcid msg addr hc hs ha (by omega)]
          exact ⟨rfl, by simp⟩
      · left
        have hres : r.onMsg id crcid msg addr = (r, [Event.write (header id crcid) addr]) := by
          unfold receiverT.onMsg
          simp only
          rw [if_neg hs, if_pos hc, if_neg he, if_neg ha]
        rw [hres]
        exact ⟨rfl, by simp⟩
  · left
    rw [onMsg_not_connected r id crcid msg addr hs (by simpa using hc)]
    exact ⟨rfl, by simp⟩

theorem lookup_erase_some {β : Type} (m : AList (fun _ : Nat => β)) (c k : Nat) (x : β)
    (h : (m.erase c).lookup k = some x) : m.lookup k = some x := by
  by_cases hk : k = c
  · rw [hk, AList.lookup_erase] at h
    cases h
  · rw [AList.lookup_erase_ne hk] at h
    exact h

/-- C16: routing by length. Let `c` be the connection id held big-endian in bytes 1..4, `s`
the sender of `c` (the registered one, or the one `getSender` creates) and `r` the receiver
of `c` (likewise).

For a datagram of exactly 5 bytes `OnReceived` returns no error and the calls made are exactly
those of `s.onAck data[0]`; the changed sender is registered under `c`, and the receiver map
is untouched unless `data[0]` is the error ack, where `ConnectionFailed` deletes the entries
of the id stored in the sender; in no case is a receiver created or changed.

For a datagram of more than 5 bytes `OnReceived` returns no error and the calls made are
those of `r.onMsg data[0] c data[5:] addr`, followed for a SYN by those of the `connect` that
`OnReceiverConnected` runs on `s`. For a SYN the changed receiver and the connected sender are
registered under `c`; otherwise no sender is created or changed (`onAck` is run on none), and
the changed receiver is registered under `c` unless `onMsg` signalled `ConnectionFailed c`,
which deletes the sender and the receiver of `c`. -/
theorem OnReceived_routing (p : SwUDP) (d0 d1 d2 d3 d4 : Byte) (addr : Addr) (c : Nat)
    (s : senderT) (r : receiverT)
    (hc : c = (d1.val <<< 24) ||| (d2.val <<< 16) ||| (d3.val <<< 8) ||| d4.val)
    (hs : s = (p.senders.lookup c).getD newSender)
    (hr : r = (p.receivers.lookup c).getD newReceiver) :
    ((p.OnReceived [d0, d1, d2, d3, d4] addr).2.2 = none ∧
        (p.OnReceived [d0, d1, d2, d3, d4] addr).2.1 = (s.onAck d0).2 ∧
        (d0 ≠ errAck →
          (p.OnReceived [d0, d1, d2, d3, d4] addr).1.senders
              = p.senders.insert c (s.onAck d0).1 ∧
            (p.OnReceived [d0, d1, d2, d3, d4] addr).1.receivers = p.receivers) ∧
        (d0 = errAck →
          (p.OnReceived [d0, d1, d2, d3, d4] addr).1.senders
              = (p.senders.insert c (s.onAck d0).1).erase s.crcid ∧
            (p.OnReceived [d0, d1, d2, d3, d4] addr).1.receivers
              = p.receivers.erase s.crcid) ∧
        (∀ k x, (p.OnReceived [d0, d1, d2, d3, d4] addr).1.receivers.lookup k = some x →
          p.receivers.lookup k = some x)) ∧
      ∀ (x : Byte) (rest : List Byte),
        (p.OnReceived (d0 :: d1 :: d2 :: d3 :: d4 :: x :: rest) addr).2.2 = none ∧
          (p.OnReceived (d0 :: d1 :: d2 :: d3 :: d4 :: x :: rest) addr).2.1 =
            (r.onMsg d0 c (x :: rest) addr).2 ++
              (if d0 = syn then (s.connect c addr).2 else []) ∧
          (d0 = syn →
            (p.OnReceived (d0 :: d1 :: d2 :: d3 :: d4 :: x :: rest) addr).1.receivers
                = p.receivers.insert c (r.onMsg d0 c (x :: rest) addr).1 ∧
              (p.OnReceived (d0 :: d1 :: d2 :: d3 :: d4 :: x :: rest) addr).1.senders
                = p.senders.insert c (s.connect c addr).1) ∧
          (d0 ≠ syn →
            (∀ k s1, (p.OnReceived (d0 :: d1 :: d2 :: d3 :: d4 :: x :: rest)
                addr).1.senders.lookup k = some s1 → p.senders.lookup k = some s1) ∧
              (((p.OnReceived (d0 :: d1 :: d2 :: d3 :: d4 :: x :: rest) addr).1.senders
                    = p.senders ∧
                  (p.OnReceived (d0 :: d1 :: d2 :: d3 :: d4 :: x :: rest) addr).1.receivers
                    = p.receivers.insert c (r.onMsg d0 c (x :: rest) addr).1) ∨
                (Event.ConnectionFailed c ∈ (r.onMsg d0 c (x :: rest) addr).2 ∧
                  (p.OnReceived (d0 :: d1 :: d2 :: d3 :: d4 :: x :: rest) addr).1.senders
                    = p.senders.erase c ∧
                  (p.OnReceived (d0 :: d1 :: d2 :: d3 :: d4 :: x :: rest) addr).1.receivers
                    = (p.receivers.insert c (r.onMsg d0 c (x :: rest) addr).1).erase c))) := by
  constructor
  · -- exactly 5 bytes
    obtain ⟨g2, g3, g4, g5⟩ := getSender_eq { p with addresses := p.addresses.insert c addr } c
    have g2s : (SwUDP.getSender { p with addresses := p.addresses.insert c addr } c).2 = s := by
      rw [g2, hs]
    have hres : p.OnReceived [d0, d1, d2, d3, d4] addr =
        ((SwUDP.callbacks ⟨p.senders.insert c (s.onAck d0).1, p.receivers,
            p.addresses.insert c addr⟩ (s.onAck d0).2).1,
          (SwUDP.callbacks ⟨p.senders.insert c (s.onAck d0).1, p.receivers,
            p.addresses.insert c addr⟩ (s.onAck d0).2).2, none) := by
      unfold SwUDP.OnReceived
      rw [parseHeader_five, ← hc]
      simp only [List.length_cons, List.length_nil, if_true]
      rw [g2s, g3, g4, g5]
    rw [hres]
    have hev := onAck_events s d0
    by_cases h0 : d0 = syn
    · have h1 : d0 ≠ errAck := by rw [h0]; decide
      rw [if_pos h0] at hev
      rw [hev, callbacks_senderConnected]
      refine ⟨rfl, rfl, fun _ => ⟨rfl, rfl⟩, fun h => absurd h h1, fun k x h => h⟩
    · by_cases h1 : d0 = errAck
      · rw [if_neg h0, if_pos h1] at hev
        rw [hev, callbacks_failed]
        refine ⟨rfl, rfl, fun h => absurd h1 h, fun _ => ⟨rfl, rfl⟩, ?_⟩
        intro k x h
        exact lookup_erase_some _ _ _ _ h
      · rw [if_neg h0, if_neg h1] at hev
        rw [hev, callbacks_nil]
        refine ⟨rfl, rfl, fun _ => ⟨rfl, rfl⟩, fun h => absurd h h1, fun k x h => h⟩
  · -- more than 5 bytes
    intro x rest
    obtain ⟨g2, g3, g4, g5⟩ := getReceiver_eq { p with addresses := p.addresses.insert c addr } c
    have g2r : (SwUDP.getReceiver { p with addresses := p.addresses.insert c addr } c).2 = r := by
      rw [g2, hr]
    have hres : p.OnReceived (d0 :: d1 :: d2 :: d3 :: d4 :: x :: rest) addr =
        ((SwUDP.callbacks ⟨p.senders, p.receivers.insert c (r.onMsg d0 c (x :: rest) addr).1,
            p.addresses.insert c addr⟩ (r.onMsg d0 c (x :: rest) addr).2).1,
          (SwUDP.callbacks ⟨p.senders, p.receivers.insert c (r.onMsg d0 c (x :: rest) addr).1,
            p.addresses.insert c addr⟩ (r.onMsg d0 c (x :: rest) addr).2).2, none) := by
      unfold SwUDP.OnReceived
      rw [parseHeader_five, ← hc]
      simp only
      rw [if_neg (by simp)]
      rw [g2r, g3, g4, g5]
    rw [hres]
    by_cases h0 : d0 = syn
    · subst h0
      rw [if_pos rfl, onMsg_syn]
      simp only
      rw [callbacks_write]
      obtain ⟨k2, k3, k4, k5⟩ := getSender_eq
        (⟨p.senders, p.receivers.insert c
          ({ expected := 2, connected := true, pending := 0, buffer := fun _ => none } : receiverT),
          p.addresses.insert c addr⟩ : SwUDP) c
      have k2s : (SwUDP.getSender (⟨p.senders, p.receivers.insert c
          ({ expected := 2, connected := true, pending := 0, buffer := fun _ => none } : receiverT),
          p.addresses.insert c addr⟩ : SwUDP) c).2 = s := by
        rw [k2, hs]
      have hcb : SwUDP.callbacks (⟨p.senders, p.receivers.insert c
          ({ expected := 2, connected := true, pending := 0, buffer := fun _ => none } : receiverT),
          p.addresses.insert c addr⟩ : SwUDP) [Event.OnReceiverConnected c addr] =
          (⟨p.senders.insert c (s.connect c addr).1, p.receivers.insert c
            ({ expected := 2, connected := true, pending := 0, buffer := fun _ => none } :
              receiverT), p.addresses.insert c addr⟩,
            Event.OnReceiverConnected c addr :: (s.connect c addr).2) := by
        simp only [SwUDP.callbacks, SwUDP.callback, SwUDP.OnReceiverConnected, List.append_nil]
        rw [k2s, k3, k4, k5]
      rw [hcb]
      refine ⟨trivial, rfl, fun _ => ⟨rfl, rfl⟩, fun h => absurd rfl h⟩
    · rw [if_neg h0, List.append_nil]
      refine ⟨rfl, ?_⟩
      rcases onMsg_callbacks r d0 c (x :: rest) addr
        ⟨p.senders, p.receivers.insert c (r.onMsg d0 c (x :: rest) addr).1,
          p.addresses.insert c addr⟩ h0 with ⟨hcb, _⟩ | ⟨hcb, hmem⟩
      · rw [hcb]
        exact ⟨rfl, fun h => absurd h h0, fun _ => ⟨fun k s1 h => h, Or.inl ⟨rfl, rfl⟩⟩⟩
      · rw [hcb]
        refine ⟨rfl, fun h => absurd h h0, fun _ => ⟨?_, Or.inr ⟨hmem, rfl, rfl⟩⟩⟩
        intro k s1 h
        exact lookup_erase_some _ _ _ _ h


/-- C16, witness: on the empty coordinator, the 5-byte datagram `[2, 0, 0, 0, 7]` and the
7-byte datagram `[2, 0, 0, 0, 7, 0x41, 0x42]` of connection 7. -/
theorem OnReceived_routing_witness :
    (7 = ((0 : Byte).val <<< 24) ||| ((0 : Byte).val <<< 16) ||| ((0 : Byte).val <<< 8) |||
        (7 : Byte).val) ∧
      newSender = ((∅ : AList (fun _ : Nat => senderT)).lookup 7).getD newSender ∧
      newReceiver = ((∅ : AList (fun _ : Nat => receiverT)).lookup 7).getD newReceiver ∧
      ((⟨∅, ∅, ∅⟩ : SwUDP).OnReceived [2, 0, 0, 0, 7] none).2.1 = (newSender.onAck 2).2 ∧
      ((⟨∅, ∅, ∅⟩ : SwUDP).OnReceived [2, 0, 0, 0, 7, 0x41, 0x42] none).2.1 =
        (newReceiver.onMsg 2 7 [0x41, 0x42] none).2 ++
          (if (2 : Byte) = syn then (newSender.connect 7 none).2 else []) :=
  ⟨by decide, rfl, rfl,
   (OnReceived_routing ⟨∅, ∅, ∅⟩ 2 0 0 0 7 none 7 newSender newReceiver (by decide) rfl
      rfl).1.2.1,
   ((OnReceived_routing ⟨∅, ∅, ∅⟩ 2 0 0 0 7 none 7 newSender newReceiver (by decide) rfl
      rfl).2 0x41 [0x42]).2.1⟩

/-! ### Receiver: not connected, duplicates -/

/-- C21: on a receiver with `connected = false` and for every id other than 0, `onMsg` makes
exactly one call, the write to the source address of the 5-byte error ack
`[1, c>>24, c>>16, c>>8, c]`; nothing is handed to the handler, nothing is signalled to the
protocol, and the receiver state (`expected`, the out-of-order counter, the buffer,
`connected`) is unchanged. -/
theorem onMsg_disconnected (r : receiverT) (id : Byte) (c : Nat) (msg : List Byte)
    (addr : Addr) (hid : id ≠ 0) (hc : r.connected = false) :
    (r.onMsg id c msg addr).2 =
        [Event.write [1, byteOf (c >>> 24), byteOf (c >>> 16), byteOf (c >>> 8), byteOf c] addr] ∧
      written (r.onMsg id c msg addr).2 =
        [[1, byteOf (c >>> 24), byteOf (c >>> 16), byteOf (c >>> 8), byteOf c]] ∧
      delivered (r.onMsg id c msg addr).2 = [] ∧ failures (r.onMsg id c msg addr).2 = [] ∧
      (r.onMsg id c msg addr).1 = r ∧
      (r.onMsg id c msg addr).1.expected = r.expected ∧
      (r.onMsg id c msg addr).1.pending = r.pending ∧
      (r.onMsg id c msg addr).1.buffer = r.buffer ∧
      (r.onMsg id c msg addr).1.connected = false := by
  rw [onMsg_not_connected r id c msg addr hid hc]
  exact ⟨rfl, rfl, rfl, rfl, rfl, rfl, rfl, rfl, hc⟩

/-- C21, witness: the receiver made by `newReceiver` receives id 2. -/
theorem onMsg_disconnected_witness :
    (2 : Byte) ≠ 0 ∧ newReceiver.connected = false ∧
      (newReceiver.onMsg 2 7 [0x41] none).2 =
        [Event.write [1, byteOf (7 >>> 24), byteOf (7 >>> 16), byteOf (7 >>> 8), byteOf 7] none] :=
  ⟨by decide, rfl, (onMsg_disconnected newReceiver 2 7 [0x41] none (by decide) rfl).1⟩

theorem onMsg_behind (r : receiverT) (id : Byte) (crcid : Nat) (msg : List Byte) (addr : Addr)
    (hs : id ≠ syn) (hc : r.connected = true) (he : id ≠ r.expected)
    (ha : after id r.expected = false) :
    r.onMsg id crcid msg addr = (r, [Event.write (header id crcid) addr]) := by
  unfold receiverT.onMsg
  simp only
  rw [if_neg hs, if_pos hc, if_neg he, if_neg (by rw [ha]; exact Bool.false_ne_true)]

/-- C22: duplicates are acknowledged but not delivered again. On a connected receiver, for
an id that is not SYN, not equal to `expected` and not after it, `onMsg` makes exactly one
call, the write of the normal ack `[id, c>>24, c>>16, c>>8, c]` to the source address;
nothing is handed to the handler, nothing is signalled, and the receiver state (`expected`,
the out-of-order counter, every buffer slot, `connected`) is unchanged. -/
theorem onMsg_duplicate (r : receiverT) (id : Byte) (c : Nat) (msg : List Byte) (addr : Addr)
    (hid : id ≠ 0) (hc : r.connected = true) (he : id ≠ r.expected)
    (ha : after id r.expected = false) :
    (r.onMsg id c msg addr).2 =
        [Event.write [id, byteOf (c >>> 24), byteOf (c >>> 16), byteOf (c >>> 8), byteOf c] addr] ∧
      delivered (r.onMsg id c msg addr).2 = [] ∧ failures (r.onMsg id c msg addr).2 = [] ∧
      (r.onMsg id c msg addr).1 = r ∧
      (r.onMsg id c msg addr).1.expected = r.expected ∧
      (r.onMsg id c msg addr).1.pending = r.pending ∧
      (∀ j, (r.onMsg id c msg addr).1.buffer j = r.buffer j) ∧
      (r.onMsg id c msg addr).1.connected = true := by
  rw [onMsg_behind r id c msg addr hid hc he ha]
  exact ⟨rfl, rfl, rfl, rfl, rfl, rfl, fun _ => rfl, hc⟩

/-- C22, witness: a connected receiver that expects id 5 receives id 3 again. -/
theorem onMsg_duplicate_witness :
    (3 : Byte) ≠ 0 ∧ after 3 5 = false ∧
      (receiverT.mk 5 true 0 (fun _ => none)).onMsg 3 7 [0x41] none =
        (receiverT.mk 5 true 0 (fun _ => none),
          [Event.write [3, byteOf (7 >>> 24), byteOf (7 >>> 16), byteOf (7 >>> 8), byteOf 7]
            none]) :=
  ⟨by decide, by decide,
   Prod.ext
    (onMsg_duplicate (receiverT.mk 5 true 0 (fun _ => none)) 3 7 [0x41] none (by decide) rfl
      (by decide) (by decide)).2.2.2.1
    (onMsg_duplicate (receiverT.mk 5 true 0 (fun _ => none)) 3 7 [0x41] none (by decide) rfl
      (by decide) (by decide)).1⟩

/-! ### Coordinator: `ConnectionFailed` -/

theorem alist_length_erase {β : Type} (m : AList (fun _ : Nat => β)) (c : Nat) :
    (m.erase c).entries.length = if c ∈ m then m.entries.length - 1 else m.entries.length := by
  have h1 : ∀ m' : AList (fun _ : Nat => β), m'.entries.length = m'.keys.length := by
    intro m'
    simp [AList.keys, List.keys]
  rw [h1, h1, AList.keys_erase, List.length_erase]
  by_cases h : c ∈ m.keys
  · have h2 : c ∈ m := AList.mem_keys.mpr h
    simp [h, h2]
  · have h2 : c ∉ m := fun hc => h (AList.mem_keys.mp hc)
    simp [h, h2]

/-- C25: for every coordinator state and connection id `c`, after `ConnectionFailed c`
neither the sender map nor the receiver map has an entry for `c`, the entries of every other
connection id and the address map are unchanged, and `GetSendersCount` and
`GetReceiversCount` are each one less than before when `c` had an entry in that map and the
same as before when it had none. -/
theorem ConnectionFailed_removes (p : SwUDP) (c : Nat) :
    (p.ConnectionFailed c).senders.lookup c = none ∧
      (p.ConnectionFailed c).receivers.lookup c = none ∧
      (∀ k, k ≠ c → (p.ConnectionFailed c).senders.lookup k = p.senders.lookup k) ∧
      (∀ k, k ≠ c → (p.ConnectionFailed c).receivers.lookup k = p.receivers.lookup k) ∧
      (p.ConnectionFailed c).addresses = p.addresses ∧
      (p.ConnectionFailed c).GetSendersCount =
        (if (p.senders.lookup c).isSome then p.GetSendersCount - 1 else p.GetSendersCount) ∧
      (p.ConnectionFailed c).GetReceiversCount =
        (if (p.receivers.lookup c).isSome then p.GetReceiversCount - 1
          else p.GetReceiversCount) ∧
      ((p.senders.lookup c).isSome → 1 ≤ p.GetSendersCount) ∧
      ((p.receivers.lookup c).isSome → 1 ≤ p.GetReceiversCount) := by
  have hpos : ∀ {β : Type} (m : AList (fun _ : Nat => β)), (m.lookup c).isSome →
      1 ≤ m.entries.length := by
    intro β m h
    rw [AList.lookup_isSome, AList.mem_keys] at h
    have h2 : 0 < m.keys.length := List.length_pos_of_mem h
    have h3 : m.entries.length = m.keys.length := by simp [AList.keys, List.keys]
    omega
  refine ⟨AList.lookup_erase _ _, AList.lookup_erase _ _,
    fun k hk => AList.lookup_erase_ne hk, fun k hk => AList.lookup_erase_ne hk, rfl,
    ?_, ?_, hpos _, hpos _⟩
  · unfold SwUDP.GetSendersCount SwUDP.ConnectionFailed
    simp only
    rw [alist_length_erase]
    simp only [AList.lookup_isSome]
  · unfold SwUDP.GetReceiversCount SwUDP.ConnectionFailed
    simp only
    rw [alist_length_erase]
    simp only [AList.lookup_isSome]

/-! ### Sender: the RTT update and the retransmission step -/

theorem MinF_eq_min (a b : ℚ) : MinF a b = min a b := by
  unfold MinF
  by_cases h : a ≤ b
  · rw [if_pos h, min_eq_left h]
  · rw [if_neg h, min_eq_right (le_of_lt (not_le.mp h))]

theorem MaxF_eq_max (a b : ℚ) : MaxF a b = max a b := by
  unfold MaxF
  by_cases h : a ≥ b
  · rw [if_pos h, max_eq_left h]
  · rw [if_neg h, max_eq_right (le_of_lt (not_le.mp h))]

theorem onAck_srtt_unchanged (s : senderT) (ack : Byte)
    (h : s.buffer ack = none ∨ ack ≠ s.expectedAck) : (s.onAck ack).1.srtt = s.srtt := by
  unfold senderT.onAck
  cases hb : s.buffer ack with
  | none =>
    simp only
    split_ifs <;> rfl
  | some it =>
    have hne : ack ≠ s.expectedAck := by
      rcases h with h | h
      · rw [hb] at h
        cases h
      · exact h
    simp only [hne, if_false]
    split_ifs <;> rfl

theorem onAck_srtt_updated (s : senderT) (ack : Byte) (it : itemT)
    (hb : s.buffer ack = some it) (he : ack = s.expectedAck) :
    (s.onAck ack).1.srtt =
      MinF (MaxF (addF32 (mulF32 (f32 rc) s.srtt) (mulF32 (f32 (1 - rc))
        (f32 (((s.totalTicks + uintSize - it.startRtt % uintSize + 1) % uintSize : Nat) : ℚ))))
        minSRTT) maxSRTT := by
  subst he
  obtain ⟨s2, -, -, -, -, -, -, h7, -, -, h10, -⟩ := onAck_expected s it hb
  rw [h10, h7]

theorem roundEven_error (y : ℚ) : |(roundEven y : ℚ) - y| ≤ 1 / 2 := by
  have h0 : (⌊y⌋ : ℚ) ≤ y := Int.floor_le y
  have h1 : y < (⌊y⌋ : ℚ) + 1 := Int.lt_floor_add_one y
  unfold roundEven
  rw [abs_le]
  split_ifs with ha hb hc
  · constructor <;> linarith
  · push_cast
    constructor <;> linarith
  · have hle : y - (⌊y⌋ : ℚ) ≤ 1 / 2 := not_lt.mp hb
    constructor <;> linarith
  · have hge : (1 : ℚ) / 2 ≤ y - (⌊y⌋ : ℚ) := not_lt.mp ha
    push_cast
    constructor <;> linarith

theorem f32_error (x : ℚ) (hx : (2 : ℚ) ^ (-126 : ℤ) ≤ |x|) : |f32 x - x| ≤ |x| / 2 ^ 24 := by
  have h2 : (2 : ℚ) ≠ 0 := by norm_num
  have hpos : (0 : ℚ) < |x| := lt_of_lt_of_le (zpow_pos (by norm_num) _) hx
  have hx0 : x ≠ 0 := abs_pos.mp hpos
  have hq : (0 : ℚ) < 2 ^ (f32Exp x - 23) := zpow_pos (by norm_num) _
  have hE : (2 : ℚ) ^ f32Exp x ≤ |x| := by
    rcases lt_or_eq_of_le (f32Exp_ge x) with hgt | heq
    · exact (f32Exp_spec x hx0).2 hgt
    · rw [← heq]
      exact hx
  rw [f32_pos_form x hx0]
  have hr := roundEven_error (x / 2 ^ (f32Exp x - 23))
  have e : (roundEven (x / 2 ^ (f32Exp x - 23)) : ℚ) * 2 ^ (f32Exp x - 23) - x =
      ((roundEven (x / 2 ^ (f32Exp x - 23)) : ℚ) - x / 2 ^ (f32Exp x - 23)) *
        2 ^ (f32Exp x - 23) := by
    field_simp
  rw [e, abs_mul, abs_of_pos hq]
  have e2 : (2 : ℚ) ^ (f32Exp x - 23) = 2 ^ f32Exp x / 2 ^ 23 := by
    rw [zpow_sub₀ h2]
    norm_num
  calc |(roundEven (x / 2 ^ (f32Exp x - 23)) : ℚ) - x / 2 ^ (f32Exp x - 23)| *
        2 ^ (f32Exp x - 23)
      ≤ 1 / 2 * 2 ^ (f32Exp x - 23) := mul_le_mul_of_nonneg_right hr (le_of_lt hq)
    _ = 2 ^ f32Exp x / 2 ^ 24 := by
      rw [e2]
      ring
    _ ≤ |x| / 2 ^ 24 := div_le_div_of_nonneg_right hE (by positivity)

theorem f32_one : f32 ((1 : Nat) : ℚ) = 1 := by
  have h := f32_ofNat_small 1 (by norm_num)
  simpa using h

theorem srtt_update_first :
    addF32 (mulF32 (f32 rc) 5) (mulF32 (f32 (1 - rc)) (f32 ((1 : Nat) : ℚ))) =
      4404019 / 1048576 := by
  have h1 : mulF32 (f32 rc) 5 = 4 := by
    unfold mulF32
    rw [f32_rc]
    have h := f32_of_pos (13421773 / 16777216 * 5) 2 8388608 (by norm_num) (by norm_num)
      (by norm_num) (by norm_num) (by norm_num)
    rw [h]
    norm_num
  have h2 : mulF32 (f32 (1 - rc)) (f32 ((1 : Nat) : ℚ)) = 13421773 / 67108864 := by
    unfold mulF32
    rw [f32_one_sub_rc, f32_one]
    have h := f32_exact 13421773 (-26) (by norm_num) (by norm_num)
    norm_num at h ⊢
    exact h
  unfold addF32
  rw [h1, h2]
  have h := f32_of_pos (4 + 13421773 / 67108864) 2 8808038 (by norm_num) (by norm_num)
    (by norm_num) (by norm_num) (by norm_num)
  rw [h]
  norm_num

theorem srtt_update_second :
    addF32 (mulF32 (f32 rc) (4404019 / 1048576)) (mulF32 (f32 (1 - rc)) (f32 ((1 : Nat) : ℚ))) =
      7465861 / 2097152 := by
  have h1 : mulF32 (f32 rc) (4404019 / 1048576) = 14092861 / 4194304 := by
    unfold mulF32
    rw [f32_rc]
    have h := f32_of_pos (13421773 / 16777216 * (4404019 / 1048576)) 1 14092861 (by norm_num)
      (by norm_num) (by norm_num) (by norm_num) (by norm_num)
    rw [h]
    norm_num
  have h2 : mulF32 (f32 (1 - rc)) (f32 ((1 : Nat) : ℚ)) = 13421773 / 67108864 := by
    unfold mulF32
    rw [f32_one_sub_rc, f32_one]
    have h := f32_exact 13421773 (-26) (by norm_num) (by norm_num)
    norm_num at h ⊢
    exact h
  unfold addF32
  rw [h1, h2]
  have h := f32_of_pos (14092861 / 4194304 + 13421773 / 67108864) 1 14931722 (by norm_num)
    (by norm_num) (by norm_num) (by norm_num) (by norm_num)
  rw [h]
  norm_num

theorem f32_literals :
    f32 (21 / 5) = 4404019 / 1048576 ∧ f32 (89 / 25) = 7465861 / 2097152 := by
  constructor
  · have h := f32_of_pos (21 / 5) 2 8808038 (by norm_num) (by norm_num)
      (by norm_num) (by norm_num) (by norm_num)
    rw [h]
    norm_num
  · have h := f32_of_pos (89 / 25) 1 14931722 (by norm_num) (by norm_num)
      (by norm_num) (by norm_num) (by norm_num)
    rw [h]
    norm_num

theorem connect_onAck_srtt (s0 : senderT) (c : Nat) (addr : Addr) :
    ((s0.connect c addr).1.onAck syn).1.srtt = 4404019 / 1048576 := by
  have hb1 : (s0.connect c addr).1.buffer syn =
      some { msg := header syn c ++ [byteOf 0xFD], addr := addr } := by
    simp [senderT.connect]
  rw [onAck_srtt_updated (s0.connect c addr).1 syn _ hb1 rfl]
  have hm : ((s0.connect c addr).1.totalTicks + uintSize -
      ({ msg := header syn c ++ [byteOf 0xFD], addr := addr } : itemT).startRtt % uintSize + 1)
        % uintSize = 1 := by
    show (0 + uintSize - 0 % uintSize + 1) % uintSize = 1
    unfold uintSize
    norm_num
  have hs : (s0.connect c addr).1.srtt = 5 := rfl
  rw [hm, hs, srtt_update_first]
  unfold MinF MaxF minSRTT maxSRTT
  rw [if_pos (by norm_num), if_pos (by norm_num)]

/-- C29, counterexample: after `connect`, slot 0 is occupied with start tick 0, `expectedAck`
is 0, `srtt` is 5 and `totalTicks` is 0, so the sample is 1 and the formula of the claim gives
`min (max (0.8 * 5 + 0.2 * 1) 2) 12.5 = 21/5`; `onAck 0` leaves `srtt = 4404019 / 1048576`,
the `float32` value next to it. -/
theorem onAck_rtt_not_exact :
    (newSender.connect 7 none).1.buffer 0 =
        some { msg := header syn 7 ++ [byteOf 0xFD], addr := none } ∧
      (newSender.connect 7 none).1.expectedAck = 0 ∧
      (newSender.connect 7 none).1.srtt = 5 ∧ (newSender.connect 7 none).1.totalTicks = 0 ∧
      ((newSender.connect 7 none).1.onAck 0).1.srtt = 4404019 / 1048576 ∧
      min (max ((4 / 5 : ℚ) * 5 + (1 / 5 : ℚ) * (0 - 0 + 1)) 2) (25 / 2) = 21 / 5 ∧
      (4404019 / 1048576 : ℚ) ≠ 21 / 5 := by
  refine ⟨?_, rfl, rfl, rfl, connect_onAck_srtt newSender 7 none, ?_, by norm_num⟩
  · simp [senderT.connect, syn]
  · norm_num

/-- C29, amended: the RTT update in `float32` arithmetic. When `onAck id` finds slot `id`
occupied and `id = expectedAck`, the new `srtt` is `min (max (a + b) 2) 12.5`, where
`a = float32(0.8) * srtt` and `b = float32(0.2) * float32(rtt)` and the two products and the
sum are `float32` operations, each rounded to the nearest `float32` value; `rtt` is
`totalTicks - startRtt + 1` computed on unsigned integers with the start tick stored in that
slot, which is the plain number `totalTicks - startRtt + 1` whenever `startRtt ≤ totalTicks`
and `totalTicks + 1` does not overflow. When slot `id` is empty or `id` differs from
`expectedAck`, `srtt` is unchanged. The rounded constants are `13421773 / 2 ^ 24` and
`13421773 / 2 ^ 26`, and a rounding changes a value of magnitude at least `2 ^ (-126)` by at
most `2 ^ (-24)` of itself. -/
theorem onAck_rtt_update (s : senderT) (id : Byte) :
    (∀ it, s.buffer id = some it → id = s.expectedAck →
        (s.onAck id).1.srtt =
            min (max (f32 (f32 (f32 (4 / 5) * s.srtt) + f32 (f32 (1 / 5) *
              f32 (((s.totalTicks + uintSize - it.startRtt % uintSize + 1) % uintSize : Nat) : ℚ))))
              2) (25 / 2) ∧
          (it.startRtt ≤ s.totalTicks → s.totalTicks + 1 < uintSize →
            (s.onAck id).1.srtt =
              min (max (f32 (f32 (f32 (4 / 5) * s.srtt) + f32 (f32 (1 / 5) *
                f32 ((s.totalTicks - it.startRtt + 1 : Nat) : ℚ)))) 2) (25 / 2))) ∧
      ((s.buffer id = none ∨ id ≠ s.expectedAck) → (s.onAck id).1.srtt = s.srtt) ∧
      (f32 (4 / 5) = 13421773 / 2 ^ 24 ∧ f32 (1 / 5) = 13421773 / 2 ^ 26) ∧
      (∀ x : ℚ, (2 : ℚ) ^ (-126 : ℤ) ≤ |x| → |f32 x - x| ≤ |x| / 2 ^ 24) := by
  have hrc : (1 : ℚ) - rc = 1 / 5 := by
    unfold rc
    norm_num
  have hrc2 : rc = (4 / 5 : ℚ) := rfl
  have hc1 : f32 (4 / 5) = 13421773 / 2 ^ 24 := by
    rw [← hrc2, f32_rc]
    norm_num
  have hc2 : f32 (1 / 5) = 13421773 / 2 ^ 26 := by
    rw [← hrc, f32_one_sub_rc]
    norm_num
  refine ⟨?_, onAck_srtt_unchanged s id, ⟨hc1, hc2⟩, f32_error⟩
  intro it hb he
  have h := onAck_srtt_updated s id it hb he
  rw [MinF_eq_min, MaxF_eq_max] at h
  have h2 : minSRTT = (2 : ℚ) := rfl
  have h3 : maxSRTT = (25 / 2 : ℚ) := rfl
  unfold addF32 mulF32 at h
  rw [hrc, hrc2, h2, h3] at h
  refine ⟨h, ?_⟩
  intro hle hlt
  rw [h]
  have hmod : (s.totalTicks + uintSize - it.startRtt % uintSize + 1) % uintSize
      = s.totalTicks - it.startRtt + 1 := by
    have hs : it.startRtt < uintSize := by omega
    rw [Nat.mod_eq_of_lt hs]
    have e : s.totalTicks + uintSize - it.startRtt + 1
        = (s.totalTicks - it.startRtt + 1) + uintSize := by omega
    rw [e, Nat.add_mod_right]
    apply Nat.mod_eq_of_lt
    omega
  rw [hmod]

theorem toUint_floor (x : ℚ) (h0 : 0 ≤ x) (h1 : x < 2 ^ 64) : toUint x = ⌊x⌋₊ := by
  unfold toUint
  apply Nat.mod_eq_of_lt
  have h2 : ((⌊x⌋₊ : Nat) : ℚ) < ((2 ^ 64 : Nat) : ℚ) := by
    push_cast
    exact lt_of_le_of_lt (Nat.floor_le h0) h1
  have h3 : ⌊x⌋₊ < 2 ^ 64 := by exact_mod_cast h2
  exact h3

theorem mulF32_ac_le (q : ℚ) (hlo : 0 ≤ q) (hhi : q ≤ 25 / 2) :
    0 ≤ mulF32 (f32 ac) q ∧ mulF32 (f32 ac) q ≤ 55 / 2 := by
  unfold mulF32
  rw [f32_ac]
  constructor
  · exact f32_nonneg _ (by positivity)
  · have h := f32_mono (9227469 / 4194304 * q) (9227469 / 4194304 * (25 / 2))
      (by positivity) (by linarith)
    have e : f32 (9227469 / 4194304 * (25 / 2)) = 55 / 2 := by
      have h := f32_of_pos (9227469 / 4194304 * (25 / 2)) 4 14417920 (by norm_num)
        (by norm_num) (by norm_num) (by norm_num) (by norm_num)
      rw [h]
      norm_num
    rw [e] at h
    exact h

/-- C30, counterexample: a sender with `srtt = 14894545 / 2097152` (a `float32` value within
`[2, 12.5]`) whose slot at `expectedAck = 2` holds an unacknowledged item with attempt 7 and
tick count 434 equal to its `nextRepeat` (the sum of the first seven gaps 15, 31, 46, 62, 78,
93, 109 at this `srtt`). `trigger` makes the attempt 8 and sets `nextRepeat` to
`434 + 125 = 559`, while `434 + ⌊2.2 * srtt * 8⌋ = 434 + 124 = 558`. -/
theorem trigger_gap_not_exact :
    ∃ it1, (senderT.mk 2 2 true (14894545 / 2097152) 434 7
        (Function.update (fun _ => none) 2
          (some { attempt := 7, ticks := 434, nextRepeat := 434, startRtt := 326,
                  msg := [2, 0, 0, 0, 7, 0x41] }))).trigger.1.buffer 2 = some it1 ∧
      it1.attempt = 8 ∧ it1.nextRepeat = 559 ∧
      434 + ⌊(11 / 5 : ℚ) * (14894545 / 2097152) * 8⌋₊ = 558 := by
  have hg := retryGap_rounding.1
  unfold retryGap at hg
  have h78 : (7 + 1) % uintSize = 8 := by
    unfold uintSize
    norm_num
  have hmax : ¬ (7 > maxAttempts) := by
    unfold maxAttempts
    omega
  unfold senderT.trigger
  simp only [Function.update_same, if_true]
  rw [if_neg hmax]
  simp only [h78]
  rw [if_pos (by norm_num), hg]
  refine ⟨{ ack := false, startRtt := (434 + 1) % uintSize, ticks := (434 + 1) % uintSize,
            attempt := 8, nextRepeat := (434 + 125) % uintSize, msg := [2, 0, 0, 0, 7, 0x41],
            addr := none }, ?_, rfl, ?_, ?_⟩
  · simp only
    rw [Function.update_same]
  · show (434 + 125) % uintSize = 559
    unfold uintSize
    norm_num
  · rw [retryGap_rounding.2]

/-- C30, amended: the retransmission step with the retry gap in `float32` arithmetic. The
slot at `expectedAck` holds an unacknowledged item `it` with `attempt ≤ 9`; all counters are
unsigned integers, `now` is `totalTicks` after the tick.

If `it.ticks = it.nextRepeat`, `trigger` sets `attempt` to `attempt + 1`, adds
`uint(float32(2.2) * srtt * float32(attempt + 1))` to `nextRepeat`, where both products are
`float32` multiplications, each rounded to the nearest `float32` value (the conversion is the
floor of that `float32` product for `0 ≤ srtt ≤ 12.5`, and `float32(2.2)` is
`9227469 / 2 ^ 22`), and, if and only if the new attempt is greater than 1, writes the stored
bytes to the stored address and sets `startRtt` to `now`; otherwise it writes nothing and
keeps `startRtt`. If `it.ticks ≠ it.nextRepeat`, nothing is written and `attempt`,
`nextRepeat` and `startRtt` are unchanged. In both cases the tick count increases by 1, the
item stays unacknowledged with the same bytes and address, and no failure is signalled. -/
theorem trigger_retransmission_step (s : senderT) (it : itemT)
    (hb : s.buffer s.expectedAck = some it) (hack : it.ack = false)
    (hatt : it.attempt ≤ maxAttempts) :
    (it.ticks = it.nextRepeat →
        ∃ it1, s.trigger.1.buffer s.expectedAck = some it1 ∧
          it1.attempt = it.attempt + 1 ∧
          it1.nextRepeat =
            (it.nextRepeat +
              toUint (mulF32 (mulF32 (f32 (11 / 5)) s.srtt) (f32 ((it.attempt + 1 : Nat) : ℚ))))
              % uintSize ∧
          (0 ≤ s.srtt → s.srtt ≤ maxSRTT →
            toUint (mulF32 (mulF32 (f32 (11 / 5)) s.srtt) (f32 ((it.attempt + 1 : Nat) : ℚ))) =
              ⌊mulF32 (mulF32 (f32 (11 / 5)) s.srtt) (f32 ((it.attempt + 1 : Nat) : ℚ))⌋₊) ∧
          it1.ticks = (it.ticks + 1) % uintSize ∧
          it1.ack = false ∧ it1.msg = it.msg ∧ it1.addr = it.addr ∧
          (1 < it.attempt + 1 →
            s.trigger.2 = [Event.write it.msg it.addr] ∧
              it1.startRtt = (s.totalTicks + 1) % uintSize) ∧
          (¬ (1 < it.attempt + 1) → s.trigger.2 = [] ∧ it1.startRtt = it.startRtt)) ∧
      (it.ticks ≠ it.nextRepeat →
        ∃ it1, s.trigger.1.buffer s.expectedAck = some it1 ∧
          s.trigger.2 = [] ∧ it1.attempt = it.attempt ∧ it1.nextRepeat = it.nextRepeat ∧
          it1.startRtt = it.startRtt ∧ it1.ticks = (it.ticks + 1) % uintSize ∧
          it1.ack = false ∧ it1.msg = it.msg ∧ it1.addr = it.addr) ∧
      (it.ticks + 1 < uintSize → (it.ticks + 1) % uintSize = it.ticks + 1) ∧
      s.trigger.1.totalTicks = (s.totalTicks + 1) % uintSize ∧
      f32 (11 / 5) = 9227469 / 2 ^ 22 := by
  have hat1 : (it.attempt + 1) % uintSize = it.attempt + 1 := by
    apply Nat.mod_eq_of_lt
    unfold maxAttempts at hatt
    unfold uintSize
    omega
  have hng : ¬ (it.attempt > maxAttempts) := by omega
  have hac : ac = (11 / 5 : ℚ) := rfl
  have hc : f32 (11 / 5) = 9227469 / 2 ^ 22 := by
    rw [← hac, f32_ac]
    norm_num
  refine ⟨?_, ?_, fun h => Nat.mod_eq_of_lt h, ?_, hc⟩
  · intro ht
    have hfl : 0 ≤ s.srtt → s.srtt ≤ maxSRTT →
        toUint (mulF32 (mulF32 (f32 (11 / 5)) s.srtt) (f32 ((it.attempt + 1 : Nat) : ℚ))) =
          ⌊mulF32 (mulF32 (f32 (11 / 5)) s.srtt) (f32 ((it.attempt + 1 : Nat) : ℚ))⌋₊ := by
      intro h0 h1
      unfold maxSRTT at h1
      unfold maxAttempts at hatt
      have hk : ((it.attempt + 1 : Nat) : ℚ) ≤ 10 := by
        exact_mod_cast (by omega : it.attempt + 1 ≤ 10)
      have hk0 : (0 : ℚ) ≤ ((it.attempt + 1 : Nat) : ℚ) := Nat.cast_nonneg _
      have hfk : f32 ((it.attempt + 1 : Nat) : ℚ) = ((it.attempt + 1 : Nat) : ℚ) :=
        f32_ofNat_small _ (by omega)
      obtain ⟨hb1, hb2⟩ := mulF32_ac_le s.srtt h0 h1
      rw [hac] at hb1 hb2
      apply toUint_floor
      · unfold mulF32 at hb1 ⊢
        apply f32_nonneg
        rw [hfk]
        exact mul_nonneg hb1 hk0
      · have h := f32_mono (mulF32 (f32 (11 / 5)) s.srtt * f32 ((it.attempt + 1 : Nat) : ℚ)) 275
          (by rw [hfk]; exact mul_nonneg hb1 hk0) (by rw [hfk]; nlinarith)
        rw [f32_275] at h
        have h2 : (275 : ℚ) < 2 ^ 64 := by norm_num
        exact lt_of_le_of_lt h h2
    unfold senderT.trigger
    simp only [hb]
    rw [if_pos hack, if_neg hng, if_pos ht]
    simp only [hat1, hac]
    by_cases h1 : 1 < it.attempt + 1
    · rw [if_pos h1]
      exact ⟨_, Function.update_same _ _ _, rfl, rfl, hfl, rfl, hack, rfl, rfl,
        fun _ => ⟨rfl, rfl⟩, fun h => absurd h1 h⟩
    · rw [if_neg h1]
      exact ⟨_, Function.update_same _ _ _, rfl, rfl, hfl, rfl, hack, rfl, rfl,
        fun h => absurd h h1, fun _ => ⟨rfl, rfl⟩⟩
  · intro ht
    unfold senderT.trigger
    simp only [hb]
    rw [if_pos hack, if_neg hng, if_neg ht]
    exact ⟨_, Function.update_same _ _ _, rfl, rfl, rfl, rfl, rfl, hack, rfl, rfl⟩
  · unfold senderT.trigger
    simp only [hb]
    rw [if_pos hack, if_neg hng]
    by_cases ht : it.ticks = it.nextRepeat
    · rw [if_pos ht]
      by_cases h1 : (it.attempt + 1) % uintSize > 1
      · rw [if_pos h1]
      · rw [if_neg h1]
    · rw [if_neg ht]

/-- C30, amended, witness: a sender with `srtt = 5` whose slot 0 holds an unacknowledged item
with attempt 1 and tick count 11 equal to its `nextRepeat`: `trigger` retransmits the
bytes. -/
theorem trigger_retransmission_step_witness :
    ∃ it1, (senderT.mk 0 0 false 5 11 7
        (fun _ => some { attempt := 1, ticks := 11, nextRepeat := 11, msg := [0, 0, 0, 0, 7, 0xFD] })
          ).trigger.1.buffer 0 = some it1 ∧ it1.attempt = 1 + 1 :=
  (fun h => ⟨h.choose, h.choose_spec.1, h.choose_spec.2.1⟩)
    ((trigger_retransmission_step
      (senderT.mk 0 0 false 5 11 7
        (fun _ => some { attempt := 1, ticks := 11, nextRepeat := 11, msg := [0, 0, 0, 0, 7, 0xFD] }))
      { attempt := 1, ticks := 11, nextRepeat := 11, msg := [0, 0, 0, 0, 7, 0xFD] }
      rfl rfl (by decide)).1 rfl)

/-! ### Sender: the round-trip scenario -/

theorem onAck_totalTicks (s : senderT) (ack : Byte) :
    (s.onAck ack).1.totalTicks = s.totalTicks := by
  have ht : ∀ s1 : senderT, s1.accept.totalTicks = s1.totalTicks :=
    fun s1 => (accept_fields s1).2.2.1
  unfold senderT.onAck
  cases hb : s.buffer ack with
  | none =>
    simp only
    split_ifs <;> rfl
  | some it =>
    by_cases he : ack = s.expectedAck
    · simp only [if_pos he]
      split_ifs <;> simp only [ht]
    · simp only [if_neg he]
      split_ifs <;> rfl

theorem clamp_one (x v : ℚ)
    (hv : addF32 (mulF32 (f32 rc) x) (mulF32 (f32 (1 - rc)) (f32 ((1 : Nat) : ℚ))) = v)
    (h2 : 2 ≤ v) (h3 : v ≤ 25 / 2) :
    MinF (MaxF (addF32 (mulF32 (f32 rc) x) (mulF32 (f32 (1 - rc))
      (f32 (((0 + uintSize - 0 % uintSize + 1) % uintSize : Nat) : ℚ)))) minSRTT) maxSRTT = v := by
  have hm : (0 + uintSize - 0 % uintSize + 1) % uintSize = 1 := by
    unfold uintSize
    norm_num
  rw [hm, hv]
  unfold MinF MaxF minSRTT maxSRTT
  rw [if_pos h2, if_pos h3]

/-- C23, counterexample: after `connect` and the SYN acknowledgement `onAck 0` the sender
holds `srtt = 4404019 / 1048576`, the `float32` value next to 4.2, not 4.2 itself. -/
theorem round_trip_not_exact :
    ((newSender.connect 7 none).1.onAck 0).1.srtt = 4404019 / 1048576 ∧
      (4404019 / 1048576 : ℚ) ≠ 21 / 5 :=
  ⟨connect_onAck_srtt newSender 7 none, by norm_num⟩

/-- C23, amended: the round-trip scenario in `float32` arithmetic. From any prior sender
state: `connect` (srtt is the default 5), the SYN acknowledgement `onAck 0`, `send [0x41]`,
which succeeds and is assigned id 2, and `onAck 2`, with no `trigger` call in between. Each
acknowledgement sees a round trip of 1 tick and moves `srtt` strictly towards it: from 5 to
`4404019 / 1048576`, the `float32` value nearest to 4.2, and then to `7465861 / 2097152`, the
`float32` value nearest to 3.56; at the end no ring slot is occupied and `expectedAck = 3`. -/
theorem round_trip_scenario (s0 : senderT) (c : Nat) (addr a2 : Addr) :
    (s0.connect c addr).1.srtt = 5 ∧
      ((s0.connect c addr).1.onAck 0).1.srtt = 4404019 / 1048576 ∧
      ((((s0.connect c addr).1.onAck 0).1.send [0x41] a2).2.2 = none ∧
        (((s0.connect c addr).1.onAck 0).1.send [0x41] a2).2.1 =
          [Event.write [2, byteOf (c >>> 24), byteOf (c >>> 16), byteOf (c >>> 8), byteOf c, 0x41]
            a2] ∧
        (((s0.connect c addr).1.onAck 0).1.send [0x41] a2).1.id = 2) ∧
      (((((s0.connect c addr).1.onAck 0).1.send [0x41] a2).1.onAck 2).1.srtt =
        7465861 / 2097152) ∧
      (((((s0.connect c addr).1.onAck 0).1.send [0x41] a2).1.onAck 2).1.expectedAck = 3) ∧
      (∀ j, ((((s0.connect c addr).1.onAck 0).1.send [0x41] a2).1.onAck 2).1.buffer j = none) ∧
      ((1 : ℚ) < 7465861 / 2097152 ∧ (7465861 / 2097152 : ℚ) < 4404019 / 1048576 ∧
        (4404019 / 1048576 : ℚ) < 5) ∧
      (f32 (21 / 5) = 4404019 / 1048576 ∧ f32 (89 / 25) = 7465861 / 2097152) := by
  have h0 : (0 : Byte) = syn := rfl
  rw [h0]
  obtain ⟨k1, k2, k3, k4, k5⟩ := connect_onAck_syn s0 c addr
  -- first acknowledgement
  have hb1 : (s0.connect c addr).1.buffer syn =
      some { msg := header syn c ++ [byteOf 0xFD], addr := addr } := by
    simp [senderT.connect]
  have hs1 : ((s0.connect c addr).1.onAck syn).1.srtt = 4404019 / 1048576 :=
    connect_onAck_srtt s0 c addr
  have ht1 : ((s0.connect c addr).1.onAck syn).1.totalTicks = 0 := by
    rw [onAck_totalTicks]
    rfl
  -- the send
  have hn2 : next syn = 2 := next_syn
  have hsend := send_connected ((s0.connect c addr).1.onAck syn).1 [0x41] a2 k1
  rw [k2, hn2, k5, ht1, k4] at hsend
  have hn3 : next 2 = 3 := by
    apply Fin.ext
    rw [next_val]
    decide
  obtain ⟨s3, hs3⟩ : ∃ s3 : senderT, s3 =
      senderT.mk 2 ((s0.connect c addr).1.onAck syn).1.expectedAck
        ((s0.connect c addr).1.onAck syn).1.connected ((s0.connect c addr).1.onAck syn).1.srtt
        0 c (Function.update (fun _ => none) 2
          (some { startRtt := 0, msg := header 2 c ++ [0x41], addr := a2 })) := ⟨_, rfl⟩
  have hsend2 : ((s0.connect c addr).1.onAck syn).1.send [0x41] a2 =
      (s3, [Event.write (header 2 c ++ [0x41]) a2], none) := by
    rw [hsend, hs3]
  -- second acknowledgement
  have hb3 : s3.buffer 2 = some { startRtt := 0, msg := header 2 c ++ [0x41], addr := a2 } := by
    rw [hs3]
    simp
  have he3 : (2 : Byte) = s3.expectedAck := by
    rw [hs3]
    exact k3.symm
  have hc3 : s3.connected = true := by
    rw [hs3]
    exact k1
  have hsr : s3.srtt = 4404019 / 1048576 := by
    rw [hs3]
    exact hs1
  have htt : s3.totalTicks = 0 := by
    rw [hs3]
  have hid3 : s3.id = 2 := by
    rw [hs3]
  obtain ⟨m1, m2, m3, m4⟩ := send_then_ack ((s0.connect c addr).1.onAck syn).1 s3
    { startRtt := 0, msg := header 2 c ++ [0x41], addr := a2 } hc3
    (by rw [k2, hn2]; exact hid3) (by rw [k2, hn2]; exact he3.symm)
    (by rw [k2, hn2, hs3])
  rw [k2, hn2] at m1 m2 m3 m4
  have hs4 : (s3.onAck 2).1.srtt = 7465861 / 2097152 := by
    rw [onAck_srtt_updated s3 2 _ hb3 he3, hsr, htt]
    exact clamp_one (4404019 / 1048576) (7465861 / 2097152) srtt_update_second
      (by norm_num) (by norm_num)
  rw [hsend2]
  refine ⟨rfl, hs1, ⟨rfl, rfl, hid3⟩, hs4, ?_, ?_, ?_, f32_literals⟩
  · show (s3.onAck 2).1.expectedAck = 3
    rw [m3, hn3]
  · intro j
    show (s3.onAck 2).1.buffer j = none
    rw [m4]
  · norm_num

/-! ### Sender: the exact retry schedule after `connect` -/

set_option maxRecDepth 100000 in
theorem schedule_default (w cf : Event) :
    ([] :: retrySchedule w (fun k => 11 * k) 9) ++ [[cf]] =
      (List.range 497).map (fun i =>
        if (i + 1) ∈ [12, 34, 67, 111, 166, 232, 309, 397, 496] then [w]
        else if i + 1 = 497 then [cf] else []) := by
  rfl

theorem retry_congr (w : Event) (g g2 : Nat → Nat) (j : Nat)
    (h : ∀ k, 1 ≤ k → k ≤ j → g k = g2 k) :
    retrySchedule w g j = retrySchedule w g2 j ∧ retryTicks g j = retryTicks g2 j := by
  induction j with
  | zero => exact ⟨rfl, rfl⟩
  | succ j ih =>
    obtain ⟨h1, h2⟩ := ih (fun k hk1 hk2 => h k hk1 (by omega))
    have h3 := h (j + 1) (by omega) (by omega)
    simp only [retrySchedule, retryTicks]
    rw [h1, h2, h3]
    exact ⟨rfl, rfl⟩

theorem retryGap_default (k : Nat) (hk : k ≤ 10) : retryGap defaultSRTT k = 11 * k := by
  have hd : minSRTT ≤ defaultSRTT ∧ defaultSRTT ≤ maxSRTT := by
    unfold minSRTT defaultSRTT maxSRTT
    constructor <;> norm_num
  rw [(retryGap_eq defaultSRTT k hd.1 hd.2 hk).1]
  have h1 : mulF32 (f32 ac) defaultSRTT = 11 := by
    unfold mulF32 defaultSRTT
    rw [f32_ac]
    have h := f32_of_pos (9227469 / 4194304 * 5) 3 11534336 (by norm_num) (by norm_num)
      (by norm_num) (by norm_num) (by norm_num)
    rw [h]
    norm_num
  have h2 : f32 (k : ℚ) = k := f32_ofNat_small k (by omega)
  have e : mulF32 (mulF32 (f32 ac) defaultSRTT) (f32 (k : ℚ)) = ((11 * k : Nat) : ℚ) := by
    rw [h1, h2]
    unfold mulF32
    have h3 := f32_ofNat_small (11 * k) (by omega)
    push_cast at h3 ⊢
    exact h3
  rw [e, Nat.floor_natCast]

/-- The whole `trigger` trace of a sender whose slot at `expectedAck` holds a fresh
unacknowledged item and that gets no ack. -/
theorem trigger_trace_closed (s : senderT) (it : itemT) (hb : s.buffer s.expectedAck = some it)
    (hack : it.ack = false) (hticks : it.ticks = 0) (hatt : it.attempt = 0)
    (hnr : it.nextRepeat = 0) (hlo : minSRTT ≤ s.srtt) (hhi : s.srtt ≤ maxSRTT) (extra : Nat) :
    s.triggerTrace (1 + retryTicks (retryGap s.srtt) 9 + 1 + extra) =
      ([] :: retrySchedule (Event.write it.msg it.addr) (retryGap s.srtt) 9) ++
        [[Event.ConnectionFailed s.crcid]] ++ List.replicate extra [] := by
  have hret : s.Retrying s.crcid s.srtt it.msg it.addr 0 0 0 :=
    ⟨rfl, rfl, it, hb, hack, rfl, rfl, hticks, hatt, hnr⟩
  obtain ⟨ht, hs⟩ := trigger_rounds s s.crcid s.srtt it.msg it.addr hret hlo hhi 9 (by omega)
  obtain ⟨hf1, hf2, -⟩ := trigger_fail _ _ _ _ _ _ _ _ hs (by unfold maxAttempts; omega)
  have hrest := triggerTrace_empty extra _ hf2
  have e : 1 + retryTicks (retryGap s.srtt) 9 + 1 + extra =
      (1 + retryTicks (retryGap s.srtt) 9) + (extra + 1) := by omega
  rw [e, triggerTrace_add (1 + retryTicks (retryGap s.srtt) 9) s, ht]
  simp only [senderT.triggerTrace]
  rw [hf1, hrest]
  simp

theorem triggerTrace_getElem (k : Nat) : ∀ (s : senderT) (i : Nat), i < k →
    (s.triggerTrace k)[i]? = some (s.triggerN i).trigger.2 := by
  induction k with
  | zero =>
    intro s i hi
    omega
  | succ k ih =>
    intro s i hi
    cases i with
    | zero => simp [senderT.triggerTrace, senderT.triggerN]
    | succ i =>
      simp only [senderT.triggerTrace, senderT.triggerN, List.getElem?_cons_succ]
      exact ih _ i (by omega)

/-- C28: the exact retry schedule. After `connect` (so `srtt = 5`) and with no ack, count the
`trigger` calls from 1. The SYN packet is written again exactly on the calls 12, 34, 67, 111,
166, 232, 309, 397 and 496, which are the calls `11 * k * (k + 1) / 2 + 1` for `k = 1..9`;
`ConnectionFailed` is signalled on call 497, one tick after the ninth retransmission; every
other call makes no call at all. -/
theorem retry_schedule_default (s0 : senderT) (c : Nat) (addr : Addr) :
    (∀ n, 1 ≤ n →
        ((s0.connect c addr).1.triggerN (n - 1)).trigger.2 =
          if n ∈ [12, 34, 67, 111, 166, 232, 309, 397, 496] then
            [Event.write [0, byteOf (c >>> 24), byteOf (c >>> 16), byteOf (c >>> 8), byteOf c,
              0xFD] addr]
          else if n = 497 then [Event.ConnectionFailed c] else []) ∧
      [12, 34, 67, 111, 166, 232, 309, 397, 496] =
        (List.range 9).map (fun k => 11 * (k + 1) * (k + 2) / 2 + 1) := by
  refine ⟨?_, by decide⟩
  intro n hn
  have hb : (s0.connect c addr).1.buffer (s0.connect c addr).1.expectedAck =
      some { msg := header syn c ++ [byteOf 0xFD], addr := addr } := by
    simp [senderT.connect]
  have hd : minSRTT ≤ defaultSRTT ∧ defaultSRTT ≤ maxSRTT := by
    unfold minSRTT defaultSRTT maxSRTT
    constructor <;> norm_num
  have htr := trigger_trace_closed (s0.connect c addr).1 _ hb rfl rfl rfl rfl hd.1 hd.2 n
  have hsr : (s0.connect c addr).1.srtt = defaultSRTT := rfl
  have hcr : (s0.connect c addr).1.crcid = c := rfl
  obtain ⟨hc1, hc2⟩ := retry_congr
    (Event.write (header syn c ++ [byteOf 0xFD]) addr) (retryGap defaultSRTT)
    (fun k => 11 * k) 9 (fun k _ hk => retryGap_default k (by omega))
  rw [hsr, hcr, hc1, hc2] at htr
  have h495 : retryTicks (fun k => 11 * k) 9 = 495 := by decide
  rw [h495, schedule_default] at htr
  have hget := triggerTrace_getElem (1 + 495 + 1 + n) (s0.connect c addr).1 (n - 1) (by omega)
  rw [htr] at hget
  by_cases hle : n ≤ 497
  · rw [List.getElem?_append_left (by simp; omega)] at hget
    rw [List.getElem?_map, List.getElem?_range (by omega)] at hget
    simp only [Option.map_some', Option.some.injEq] at hget
    have e : n - 1 + 1 = n := by omega
    rw [e] at hget
    rw [← hget]
    rfl
  · rw [List.getElem?_append_right (by simp; omega)] at hget
    rw [List.getElem?_replicate] at hget
    have hlt : n - 1 - (List.map (fun i =>
        if (i + 1) ∈ [12, 34, 67, 111, 166, 232, 309, 397, 496] then
          [Event.write (header syn c ++ [byteOf 0xFD]) addr]
        else if i + 1 = 497 then [Event.ConnectionFailed c] else []) (List.range 497)).length
          < n := by
      simp
      omega
    rw [if_pos hlt] at hget
    simp only [Option.some.injEq] at hget
    rw [← hget]
    have hnm : n ∉ [12, 34, 67, 111, 166, 232, 309, 397, 496] := by
      simp
      omega
    rw [if_neg hnm, if_neg (by omega)]

/-! ### Sender: no cap on unacknowledged messages -/

theorem iterate_next_zero (k : Nat) (h1 : 1 ≤ k) (h2 : k ≤ 254) :
    (next^[k] (0 : Byte)).val = k + 1 := by
  induction k with
  | zero => omega
  | succ k ih =>
    rw [Function.iterate_succ_apply', next_val]
    by_cases hk : k = 0
    · subst hk
      simp
    · have h := ih (by omega) (by omega)
      rw [h]
      rw [if_pos (by omega)]

theorem sendAll_cons (s : senderT) (addr : Addr) (m : List Byte) (ms : List (List Byte)) :
    s.sendAll addr (m :: ms) =
      (((s.send m addr).1.sendAll addr ms).1,
        (s.send m addr).2.1 ++ ((s.send m addr).1.sendAll addr ms).2.1,
        (s.send m addr).2.2 :: ((s.send m addr).1.sendAll addr ms).2.2) := rfl

theorem sendAll_append (addr : Addr) (ms : List (List Byte)) : ∀ (s : senderT) (m : List Byte),
    s.sendAll addr (ms ++ [m]) =
      (((s.sendAll addr ms).1.send m addr).1,
        (s.sendAll addr ms).2.1 ++ ((s.sendAll addr ms).1.send m addr).2.1,
        (s.sendAll addr ms).2.2 ++ [((s.sendAll addr ms).1.send m addr).2.2]) := by
  induction ms with
  | nil =>
    intro s m
    simp [senderT.sendAll]
  | cons m0 ms ih =>
    intro s m
    have e : (m0 :: ms) ++ [m] = m0 :: (ms ++ [m]) := rfl
    rw [e, sendAll_cons, sendAll_cons, ih]
    simp

/-- A run of `send` calls on a connected sender: every call succeeds, the id advances by
`next` once per call, and a slot whose id is not assigned during the run keeps its content. -/
theorem sendAll_connected (addr : Addr) (ms : List (List Byte)) : ∀ (s : senderT),
    s.connected = true →
    (s.sendAll addr ms).2.2 = List.replicate ms.length none ∧
      (s.sendAll addr ms).1.connected = true ∧
      (s.sendAll addr ms).1.id = next^[ms.length] s.id ∧
      (s.sendAll addr ms).1.crcid = s.crcid ∧
      (s.sendAll addr ms).1.expectedAck = s.expectedAck ∧
      (s.sendAll addr ms).1.totalTicks = s.totalTicks ∧
      (∀ j, (∀ k, 1 ≤ k → k ≤ ms.length → next^[k] s.id ≠ j) →
        (s.sendAll addr ms).1.buffer j = s.buffer j) ∧
      ((∀ j it, s.buffer j = some it → it.msg.head? = some j) →
        ∀ j it, (s.sendAll addr ms).1.buffer j = some it → it.msg.head? = some j) := by
  induction ms with
  | nil =>
    intro s hc
    exact ⟨rfl, hc, rfl, rfl, rfl, rfl, fun _ _ => rfl, fun h => h⟩
  | cons m ms ih =>
    intro s hc
    rw [sendAll_cons]
    rw [send_connected s m addr hc]
    simp only
    obtain ⟨h1, h2, h3, h4, h5, h6, h7, h8⟩ := ih
      { s with id := next s.id,
               buffer := Function.update s.buffer (next s.id)
                 (some { startRtt := s.totalTicks, msg := header (next s.id) s.crcid ++ m,
                         addr := addr }) } hc
    refine ⟨?_, h2, ?_, h4, h5, h6, ?_, ?_⟩
    · rw [h1]
      rfl
    · rw [h3]
      rfl
    · intro j hj
      rw [h7 j (fun k hk1 hk2 => by
        have := hj (k + 1) (by omega) (by simp; omega)
        rw [Function.iterate_succ_apply] at this
        exact this)]
      have hne : j ≠ next s.id := by
        have := hj 1 (by omega) (by simp)
        exact fun h => this (by rw [h]; rfl)
      simp only [Function.update_noteq hne]
    · intro hinv
      apply h8
      intro j it hj
      by_cases hje : j = next s.id
      · rw [hje] at hj
        simp only [Function.update_same, Option.some.injEq] at hj
        rw [← hj, hje]
        rfl
      · simp only [Function.update_noteq hje] at hj
        exact hinv j it hj

/-- C27: the sender has no cap on unacknowledged messages. A connected sender just after the
handshake (`id = 0`, `expectedAck = 2`, empty ring) makes 255 `send` calls with no ack in
between, with payloads `p1`, then the 253 payloads of `mid`, then `plast`. Every call returns
without error. The first message is assigned id 2 and is still stored, unacknowledged, in
slot 2 after the first 254 calls, when the id has reached 255. The 255th call is assigned id
2 again and stores its own packet in slot 2, while `expectedAck` is still 2; if the two
payloads differ, no slot holds the bytes of the first message any more, so they cannot be
retransmitted. -/
theorem send_no_cap (s : senderT) (addr : Addr) (p1 : List Byte) (mid : List (List Byte))
    (plast : List Byte) (hc : s.connected = true) (hid : s.id = 0) (hexp : s.expectedAck = 2)
    (hempty : ∀ j, s.buffer j = none) (hmid : mid.length = 253) :
    (s.sendAll addr (p1 :: mid ++ [plast])).2.2 = List.replicate 255 none ∧
      (s.send p1 addr).2.1 = [Event.write (header 2 s.crcid ++ p1) addr] ∧
      (s.sendAll addr (p1 :: mid)).1.buffer 2 =
        some { startRtt := s.totalTicks, msg := header 2 s.crcid ++ p1, addr := addr } ∧
      (s.sendAll addr (p1 :: mid)).1.id = 255 ∧
      ((s.sendAll addr (p1 :: mid)).1.send plast addr).2.1 =
        [Event.write (header 2 s.crcid ++ plast) addr] ∧
      (s.sendAll addr (p1 :: mid ++ [plast])).1.id = 2 ∧
      (s.sendAll addr (p1 :: mid ++ [plast])).1.expectedAck = 2 ∧
      (s.sendAll addr (p1 :: mid ++ [plast])).1.buffer 2 =
        some { startRtt := s.totalTicks, msg := header 2 s.crcid ++ plast, addr := addr } ∧
      (p1 ≠ plast → ∀ j it, (s.sendAll addr (p1 :: mid ++ [plast])).1.buffer j = some it →
        it.msg ≠ header 2 s.crcid ++ p1) := by
  have hn0 : next s.id = 2 := by rw [hid]; exact next_zero
  have h255 : next^[(p1 :: mid).length] s.id = 255 := by
    apply Fin.ext
    rw [hid]
    have e : (p1 :: mid).length = 254 := by simp [hmid]
    rw [e, iterate_next_zero 254 (by omega) (by omega)]
    rfl
  have hn255 : next 255 = 2 := by
    apply Fin.ext
    rw [next_val]
    decide
  -- the first 254 calls
  obtain ⟨a1, a2, a3, a4, a5, a6, -, a8⟩ := sendAll_connected addr (p1 :: mid) s hc
  rw [h255] at a3
  have hfirst : s.send p1 addr =
      ({ s with id := 2,
                buffer := Function.update s.buffer 2
                  (some { startRtt := s.totalTicks, msg := header 2 s.crcid ++ p1,
                          addr := addr }) },
        [Event.write (header 2 s.crcid ++ p1) addr], none) := by
    rw [send_connected s p1 addr hc, hn0]
  obtain ⟨-, -, -, -, -, -, b7, -⟩ := sendAll_connected addr mid (s.send p1 addr).1
    (by rw [hfirst]; exact hc)
  have hslot : (s.sendAll addr (p1 :: mid)).1.buffer 2 =
      some { startRtt := s.totalTicks, msg := header 2 s.crcid ++ p1, addr := addr } := by
    rw [sendAll_cons]
    simp only
    rw [b7 2 ?_]
    · rw [hfirst]
      simp
    · intro k hk1 hk2 hcon
      have h1 : (s.send p1 addr).1.id = next 0 := by
        rw [hfirst]
        exact next_zero.symm
      rw [h1, ← Function.iterate_succ_apply] at hcon
      have h2 := iterate_next_zero (k + 1) (by omega) (by omega)
      rw [hcon] at h2
      simp at h2
      omega
  -- the 255th call
  have hlast : (s.sendAll addr (p1 :: mid)).1.send plast addr =
      (senderT.mk 2 (s.sendAll addr (p1 :: mid)).1.expectedAck
          (s.sendAll addr (p1 :: mid)).1.connected (s.sendAll addr (p1 :: mid)).1.srtt
          s.totalTicks s.crcid
          (Function.update (s.sendAll addr (p1 :: mid)).1.buffer 2
            (some { startRtt := s.totalTicks, msg := header 2 s.crcid ++ plast, addr := addr })),
        [Event.write (header 2 s.crcid ++ plast) addr], none) := by
    rw [send_connected _ plast addr a2, a3, hn255, a4, a6]
  have happ : s.sendAll addr (p1 :: mid ++ [plast]) =
      (((s.sendAll addr (p1 :: mid)).1.send plast addr).1,
        (s.sendAll addr (p1 :: mid)).2.1 ++ ((s.sendAll addr (p1 :: mid)).1.send plast addr).2.1,
        (s.sendAll addr (p1 :: mid)).2.2 ++
          [((s.sendAll addr (p1 :: mid)).1.send plast addr).2.2]) :=
    sendAll_append addr (p1 :: mid) s plast
  rw [happ, hlast]
  refine ⟨?_, ?_, hslot, a3, rfl, rfl, ?_, ?_, ?_⟩
  · simp only
    rw [a1]
    have e : (p1 :: mid).length = 254 := by simp [hmid]
    rw [e]
    exact (List.replicate_succ' 254 none).symm
  · rw [hfirst]
  · exact a5.trans hexp
  · simp
  · intro hne j it hj hmsg
    have hinv := a8 (fun j it h => by rw [hempty j] at h; cases h)
    by_cases hj2 : j = 2
    · rw [hj2] at hj
      simp only [Function.update_same, Option.some.injEq] at hj
      rw [← hj] at hmsg
      exact hne (List.append_cancel_left hmsg).symm
    · simp only [Function.update_noteq hj2] at hj
      have hh := hinv j it hj
      rw [hmsg] at hh
      simp only [header, List.cons_append, List.head?_cons, Option.some.injEq] at hh
      exact hj2 hh.symm

/-- C27, witness: the sender after `connect` and the SYN ack, then 255 one-byte payloads. -/
theorem send_no_cap_witness :
    ((newSender.connect 7 none).1.onAck syn).1.connected = true ∧
      ((newSender.connect 7 none).1.onAck syn).1.id = 0 ∧
      ((newSender.connect 7 none).1.onAck syn).1.expectedAck = 2 ∧
      (List.replicate 253 [(0x42 : Byte)]).length = 253 ∧
      (((newSender.connect 7 none).1.onAck syn).1.sendAll none
        ([0x41] :: List.replicate 253 [0x42] ++ [[0x43]])).2.2 = List.replicate 255 none :=
  ⟨(connect_onAck_syn newSender 7 none).1, (connect_onAck_syn newSender 7 none).2.1,
   (connect_onAck_syn newSender 7 none).2.2.1, List.length_replicate _ _,
   (send_no_cap ((newSender.connect 7 none).1.onAck syn).1 none [0x41]
      (List.replicate 253 [0x42]) [0x43] (connect_onAck_syn newSender 7 none).1
      (connect_onAck_syn newSender 7 none).2.1 (connect_onAck_syn newSender 7 none).2.2.1
      (fun j => by rw [(connect_onAck_syn newSender 7 none).2.2.2.1])
      (List.length_replicate _ _)).1⟩

/-! ### The connection id stored in a sender -/

theorem onAck_crcid (s : senderT) (ack : Byte) : (s.onAck ack).1.crcid = s.crcid := by
  have ht : ∀ s1 : senderT, s1.accept.crcid = s1.crcid := fun s1 => (accept_fields s1).2.2.2
  unfold senderT.onAck
  cases hb : s.buffer ack with
  | none =>
    simp only
    split_ifs <;> rfl
  | some it =>
    by_cases he : ack = s.expectedAck
    · simp only [if_pos he]
      split_ifs <;> simp only [ht]
    · simp only [if_neg he]
      split_ifs <;> rfl

theorem send_crcid (s : senderT) (msg : List Byte) (addr : Addr) :
    (s.send msg addr).1.crcid = s.crcid := by
  unfold senderT.send
  split_ifs <;> rfl

theorem trigger_crcid_failures (s : senderT) :
    s.trigger.1.crcid = s.crcid ∧
      (failures s.trigger.2 = [] ∨ failures s.trigger.2 = [s.crcid]) := by
  unfold senderT.trigger
  simp only
  split
  · split_ifs
    · exact ⟨rfl, Or.inr rfl⟩
    · exact ⟨rfl, Or.inl rfl⟩
    · exact ⟨rfl, Or.inl rfl⟩
    · exact ⟨rfl, Or.inl rfl⟩
    · exact ⟨rfl, Or.inl rfl⟩
  · exact ⟨rfl, Or.inl rfl⟩

theorem reachId_crcid (s : senderT) (k : Nat) (h : senderT.ReachId s k) : s.crcid = k := by
  induction h with
  | init => rfl
  | connect s k c a _ _ => rfl
  | send s k m a _ ih => rw [send_crcid]; exact ih
  | onAck s k ack _ ih => rw [onAck_crcid]; exact ih
  | trigger s k _ ih => rw [(trigger_crcid_failures s).1]; exact ih

theorem onAck_syn_connected (s : senderT) : (s.onAck syn).1.connected = true := by
  unfold senderT.onAck
  simp only [if_true]

theorem onAck_syn_newSender :
    newSender.onAck syn = ({ newSender with connected := true }, [Event.OnSenderConnected]) := by
  unfold senderT.onAck
  have hb : newSender.buffer syn = none := rfl
  simp only [hb, if_true]

theorem OnReceived_five (p : SwUDP) (d0 d1 d2 d3 d4 : Byte) (addr : Addr) (c : Nat)
    (s : senderT)
    (hc : c = (d1.val <<< 24) ||| (d2.val <<< 16) ||| (d3.val <<< 8) ||| d4.val)
    (hs : s = (p.senders.lookup c).getD newSender) :
    p.OnReceived [d0, d1, d2, d3, d4] addr =
      ((SwUDP.callbacks ⟨p.senders.insert c (s.onAck d0).1, p.receivers,
          p.addresses.insert c addr⟩ (s.onAck d0).2).1,
        (SwUDP.callbacks ⟨p.senders.insert c (s.onAck d0).1, p.receivers,
          p.addresses.insert c addr⟩ (s.onAck d0).2).2, none) := by
  obtain ⟨g2, g3, g4, g5⟩ := getSender_eq { p with addresses := p.addresses.insert c addr } c
  have g2s : (SwUDP.getSender { p with addresses := p.addresses.insert c addr } c).2 = s := by
    rw [g2, hs]
  unfold SwUDP.OnReceived
  rw [parseHeader_five, ← hc]
  simp only [List.length_cons, List.length_nil, if_true]
  rw [g2s, g3, g4, g5]

theorem header_be32 (c : Nat) (hc : c < 2 ^ 32) :
    c = ((byteOf (c >>> 24)).val <<< 24) ||| ((byteOf (c >>> 16)).val <<< 16) |||
      ((byteOf (c >>> 8)).val <<< 8) ||| (byteOf c).val := by
  simp only [byteOf_val]
  exact (be32_round_trip c hc).symm

/-- C26: the connection id a sender frames into its packets and reports in
`ConnectionFailed` is its stored `crcid`, which is the id passed to its latest `connect`, or
0 if `connect` was never called, whatever the key under which the coordinator registered it
(`getSender` registers the sender made by `newSender` under any key); and `onAck 0` marks
every sender connected, whether or not a SYN is pending. In particular, for `c < 2 ^ 32`, on
the empty coordinator `OnReceived` of the 5-byte datagram `[0, c big-endian]` followed by
`Send p c` returns no error and writes `[2, 0, 0, 0, 0] ++ p`. -/
theorem sender_reports_connect_id (c : Nat) (p : List Byte) (addr : Addr) (hc : c < 2 ^ 32) :
    (∀ s k, senderT.ReachId s k → s.crcid = k) ∧
      (∀ (s : senderT) (msg : List Byte) (a : Addr), s.connected = true →
        (s.send msg a).2.1 =
          [Event.write ([next s.id, byteOf (s.crcid >>> 24), byteOf (s.crcid >>> 16),
            byteOf (s.crcid >>> 8), byteOf s.crcid] ++ msg) a]) ∧
      (∀ (s : senderT) (ack : Byte),
        failures (s.onAck ack).2 = if ack = errAck then [s.crcid] else []) ∧
      (∀ s : senderT, failures s.trigger.2 = [] ∨ failures s.trigger.2 = [s.crcid]) ∧
      (∀ (q : SwUDP) (k : Nat), q.senders.lookup k = none →
        (q.getSender k).2 = newSender ∧
          (q.getSender k).1.senders.lookup k = some newSender ∧ newSender.crcid = 0) ∧
      (∀ s : senderT, (s.onAck syn).1.connected = true) ∧
      (((⟨∅, ∅, ∅⟩ : SwUDP).OnReceived
          [0, byteOf (c >>> 24), byteOf (c >>> 16), byteOf (c >>> 8), byteOf c] addr).2.2 = none ∧
        ((((⟨∅, ∅, ∅⟩ : SwUDP).OnReceived
          [0, byteOf (c >>> 24), byteOf (c >>> 16), byteOf (c >>> 8), byteOf c] addr).1.Send
            p c).2.2 = none) ∧
        ((((⟨∅, ∅, ∅⟩ : SwUDP).OnReceived
          [0, byteOf (c >>> 24), byteOf (c >>> 16), byteOf (c >>> 8), byteOf c] addr).1.Send
            p c).2.1 = [Event.write ([2, 0, 0, 0, 0] ++ p) addr])) := by
  refine ⟨reachId_crcid, ?_, ?_, fun s => (trigger_crcid_failures s).2, ?_,
    onAck_syn_connected, ?_⟩
  · intro s msg a hcon
    rw [send_connected s msg a hcon]
    rfl
  · intro s ack
    rw [onAck_events]
    by_cases h0 : ack = syn
    · have h1 : ack ≠ errAck := by rw [h0]; decide
      rw [if_pos h0, if_neg h1]
      rfl
    · by_cases h1 : ack = errAck
      · rw [if_neg h0, if_pos h1, if_pos h1]
        rfl
      · rw [if_neg h0, if_neg h1, if_neg h1]
        rfl
  · intro q k hk
    unfold SwUDP.getSender
    rw [hk]
    exact ⟨rfl, AList.lookup_insert _, rfl⟩
  · have hres := OnReceived_five ⟨∅, ∅, ∅⟩ 0 (byteOf (c >>> 24)) (byteOf (c >>> 16))
      (byteOf (c >>> 8)) (byteOf c) addr c newSender (header_be32 c hc) rfl
    have h0 : (0 : Byte) = syn := rfl
    rw [h0, onAck_syn_newSender, callbacks_senderConnected] at hres
    rw [h0, hres]
    have hsend : (SwUDP.mk ((∅ : AList (fun _ : Nat => senderT)).insert c
          { newSender with connected := true }) ∅
          ((∅ : AList (fun _ : Nat => Addr)).insert c addr)).Send p c =
        (SwUDP.mk ((∅ : AList (fun _ : Nat => senderT)).insert c
          { newSender with connected := true }) ∅
          ((∅ : AList (fun _ : Nat => Addr)).insert c addr) |>.senders.insert c
            (({ newSender with connected := true } : senderT).send p addr).1
          |> fun m => SwUDP.mk m ∅ ((∅ : AList (fun _ : Nat => Addr)).insert c addr),
          [Event.write (header (next 0) 0 ++ p) addr], none) := by
      unfold SwUDP.Send SwUDP.getSender
      simp only [AList.lookup_insert]
      rw [send_connected _ p addr rfl]
      rfl
    refine ⟨rfl, ?_, ?_⟩
    · show (SwUDP.Send _ p c).2.2 = none
      rw [hsend]
    · show (SwUDP.Send _ p c).2.1 = _
      rw [hsend, next_zero]
      rfl

/-- C26, witness: connection id 7 and the payload `[0x41]`. -/
theorem sender_reports_connect_id_witness :
    (7 : Nat) < 2 ^ 32 ∧
      ((((⟨∅, ∅, ∅⟩ : SwUDP).OnReceived
        [0, byteOf (7 >>> 24), byteOf (7 >>> 16), byteOf (7 >>> 8), byteOf 7] none).1.Send
          [0x41] 7).2.1 = [Event.write ([2, 0, 0, 0, 0] ++ [0x41]) none]) :=
  ⟨by norm_num, (sender_reports_connect_id 7 [0x41] none (by norm_num)).2.2.2.2.2.2.2.2⟩

/-! ### Coordinator: a SYN re-triggers the reverse connect -/

theorem OnReceived_data (p : SwUDP) (d0 d1 d2 d3 d4 x : Byte) (rest : List Byte) (addr : Addr)
    (c : Nat) (r : receiverT)
    (hc : c = (d1.val <<< 24) ||| (d2.val <<< 16) ||| (d3.val <<< 8) ||| d4.val)
    (hr : r = (p.receivers.lookup c).getD newReceiver) :
    p.OnReceived (d0 :: d1 :: d2 :: d3 :: d4 :: x :: rest) addr =
      ((SwUDP.callbacks ⟨p.senders, p.receivers.insert c (r.onMsg d0 c (x :: rest) addr).1,
          p.addresses.insert c addr⟩ (r.onMsg d0 c (x :: rest) addr).2).1,
        (SwUDP.callbacks ⟨p.senders, p.receivers.insert c (r.onMsg d0 c (x :: rest) addr).1,
          p.addresses.insert c addr⟩ (r.onMsg d0 c (x :: rest) addr).2).2, none) := by
  obtain ⟨g2, g3, g4, g5⟩ := getReceiver_eq { p with addresses := p.addresses.insert c addr } c
  have g2r : (SwUDP.getReceiver { p with addresses := p.addresses.insert c addr } c).2 = r := by
    rw [g2, hr]
  unfold SwUDP.OnReceived
  rw [parseHeader_five, ← hc]
  simp only
  rw [if_neg (by simp)]
  rw [g2r, g3, g4, g5]

theorem callbacks_receiverConnected (p : SwUDP) (c : Nat) (addr : Addr) (s : senderT)
    (hs : s = (p.senders.lookup c).getD newSender) :
    p.callbacks [Event.OnReceiverConnected c addr] =
      (⟨p.senders.insert c (s.connect c addr).1, p.receivers, p.addresses⟩,
        Event.OnReceiverConnected c addr :: (s.connect c addr).2) := by
  obtain ⟨k2, k3, k4, k5⟩ := getSender_eq p c
  have k2s : (p.getSender c).2 = s := by rw [k2, hs]
  simp only [SwUDP.callbacks, SwUDP.callback, SwUDP.OnReceiverConnected, List.append_nil]
  rw [k2s, k3, k4, k5]

/-- C24: a received SYN always re-triggers the reverse connect; there is no guard. For every
coordinator state, whatever the sender registered for `c` holds (it may be connected with
unacknowledged messages), `OnReceived` of the SYN data packet `[0, c big-endian] ++ payload`
(`c < 2 ^ 32`, payload not empty) from `addr` writes the ack `[0, c]` and then a fresh SYN
`[0, c, 0xFD]`, both to `addr`; afterwards the receiver registered for `c` is connected,
expects 2 and has counter 0 and an empty buffer, and the sender registered for `c` is
re-initialised: `connected = false`, `id = expectedAck = 0`, `srtt = 5`, `totalTicks = 0`,
and every slot empty except slot 0, which holds the unacknowledged SYN packet. -/
theorem syn_retriggers_connect (p : SwUDP) (c : Nat) (x : Byte) (rest : List Byte)
    (addr : Addr) (hc : c < 2 ^ 32) :
    (p.OnReceived
        (0 :: byteOf (c >>> 24) :: byteOf (c >>> 16) :: byteOf (c >>> 8) :: byteOf c :: x :: rest)
        addr).2.2 = none ∧
      (p.OnReceived
        (0 :: byteOf (c >>> 24) :: byteOf (c >>> 16) :: byteOf (c >>> 8) :: byteOf c :: x :: rest)
        addr).2.1 =
        [Event.write [0, byteOf (c >>> 24), byteOf (c >>> 16), byteOf (c >>> 8), byteOf c] addr,
          Event.OnReceiverConnected c addr,
          Event.write [0, byteOf (c >>> 24), byteOf (c >>> 16), byteOf (c >>> 8), byteOf c, 0xFD]
            addr] ∧
      (p.OnReceived
        (0 :: byteOf (c >>> 24) :: byteOf (c >>> 16) :: byteOf (c >>> 8) :: byteOf c :: x :: rest)
        addr).1.receivers.lookup c =
        some { expected := 2, connected := true, pending := 0, buffer := fun _ => none } ∧
      ∃ s1, (p.OnReceived
          (0 :: byteOf (c >>> 24) :: byteOf (c >>> 16) :: byteOf (c >>> 8) :: byteOf c :: x ::
            rest) addr).1.senders.lookup c = some s1 ∧
        s1.connected = false ∧ s1.id = 0 ∧ s1.expectedAck = 0 ∧ s1.srtt = 5 ∧
        s1.totalTicks = 0 ∧ s1.crcid = c ∧
        (∀ j, j ≠ 0 → s1.buffer j = none) ∧
        s1.buffer 0 = some
          { msg := [0, byteOf (c >>> 24), byteOf (c >>> 16), byteOf (c >>> 8), byteOf c, 0xFD],
            addr := addr } := by
  have hres := OnReceived_data p 0 (byteOf (c >>> 24)) (byteOf (c >>> 16)) (byteOf (c >>> 8))
    (byteOf c) x rest addr c _ (header_be32 c hc) rfl
  have h0 : (0 : Byte) = syn := rfl
  rw [h0, onMsg_syn] at hres
  simp only at hres
  rw [callbacks_write, callbacks_receiverConnected _ c addr _ rfl] at hres
  rw [h0, hres]
  refine ⟨rfl, rfl, AList.lookup_insert _, _, AList.lookup_insert _, rfl, rfl, rfl, rfl, rfl, rfl,
    ?_, ?_⟩
  · intro j hj
    have hj0 : j ≠ (0 : Byte) := hj
    simp [senderT.connect, syn, Function.update_noteq hj0]
  · simp [senderT.connect, syn, header]
    rfl

/-- C24, witness: connection id 7, payload `[0x41]`, on the empty coordinator. -/
theorem syn_retriggers_connect_witness :
    (7 : Nat) < 2 ^ 32 ∧
      ((⟨∅, ∅, ∅⟩ : SwUDP).OnReceived
        (0 :: byteOf (7 >>> 24) :: byteOf (7 >>> 16) :: byteOf (7 >>> 8) :: byteOf 7 :: 0x41 :: [])
        none).2.1 =
        [Event.write [0, byteOf (7 >>> 24), byteOf (7 >>> 16), byteOf (7 >>> 8), byteOf 7] none,
          Event.OnReceiverConnected 7 none,
          Event.write [0, byteOf (7 >>> 24), byteOf (7 >>> 16), byteOf (7 >>> 8), byteOf 7, 0xFD]
            none] :=
  ⟨by norm_num, (syn_retriggers_connect ⟨∅, ∅, ∅⟩ 7 0x41 [] none (by norm_num)).2.1⟩

/-! ### Half-ring comparison and the ring of ids -/

/-- C33: half-ring comparison. For all bytes `x` and `y`, `after x y` is true exactly when
`(x - y) mod 256` lies in `[1, 127]`; hence `after x x = false`, `after x y` and `after y x`
are never both true, neither is true when `x` and `y` are exactly 128 apart, and
`after 255 3 = false`. -/
theorem after_half_ring :
    (∀ x y : Byte, after x y = true ↔
        1 ≤ (x.val + 256 - y.val) % 256 ∧ (x.val + 256 - y.val) % 256 ≤ 127) ∧
      (∀ x : Byte, after x x = false) ∧
      (∀ x y : Byte, ¬ (after x y = true ∧ after y x = true)) ∧
      (∀ x y : Byte, (x.val + 256 - y.val) % 256 = 128 →
        after x y = false ∧ after y x = false) ∧
      after 255 3 = false := by
  have key : ∀ x y : Byte, after x y = true ↔
      1 ≤ (x.val + 256 - y.val) % 256 ∧ (x.val + 256 - y.val) % 256 ≤ 127 := by
    intro x y
    rw [after_iff]
    have hx := x.isLt
    have hy := y.isLt
    omega
  refine ⟨key, ?_, ?_, ?_, ?_⟩
  · intro x
    have h := key x x
    have hx := x.isLt
    cases hxx : after x x
    · rfl
    · rw [hxx] at h
      have h2 := h.mp rfl
      omega
  · intro x y h
    have h1 := (key x y).mp h.1
    have h2 := (key y x).mp h.2
    have hx := x.isLt
    have hy := y.isLt
    omega
  · intro x y h
    have hx := x.isLt
    have hy := y.isLt
    constructor
    · cases hxy : after x y
      · rfl
      · have h1 := (key x y).mp hxy
        omega
    · cases hyx : after y x
      · rfl
      · have h1 := (key y x).mp hyx
        omega
  · cases h : after 255 3
    · rfl
    · have h1 := (key 255 3).mp h
      have v : (255 : Byte).val = 255 := rfl
      have w : (3 : Byte).val = 3 := rfl
      rw [v, w] at h1
      omega

theorem iterate_next_val (m : Byte) (hm : 2 ≤ m.val) (k : Nat) :
    (next^[k] m).val = 2 + (m.val - 2 + k) % 254 := by
  have hlt := m.isLt
  induction k with
  | zero =>
    simp only [Function.iterate_zero, id_eq]
    omega
  | succ k ih =>
    rw [Function.iterate_succ_apply', next_val, ih]
    split_ifs with h <;> omega

/-- C34: `next` restricted to the values 2..255 is a cyclic permutation of those 254 values:
it maps 2..255 into 2..255, is injective there and reaches every value of 2..255, applying it
254 times to any `m` in 2..255 returns `m`, and no smaller positive number of applications
does. -/
theorem next_cyclic_permutation :
    Set.BijOn next {m : Byte | 2 ≤ m.val} {m : Byte | 2 ≤ m.val} ∧
      (∀ m : Byte, 2 ≤ m.val → next^[254] m = m) ∧
      (∀ m : Byte, 2 ≤ m.val → ∀ k : Nat, 0 < k → k < 254 → next^[k] m ≠ m) := by
  refine ⟨⟨?_, ?_, ?_⟩, ?_, ?_⟩
  · intro m hm
    exact next_ge_two m
  · intro a ha b hb hab
    have ha2 : 2 ≤ a.val := ha
    have hb2 : 2 ≤ b.val := hb
    have h := congrArg Fin.val hab
    rw [next_val, next_val] at h
    have hal := a.isLt
    have hbl := b.isLt
    apply Fin.ext
    split_ifs at h <;> omega
  · intro b hb
    have hb2 : 2 ≤ b.val := hb
    have hbl := b.isLt
    by_cases h2 : b.val = 2
    · refine ⟨255, by decide, ?_⟩
      have v : (255 : Byte).val = 255 := rfl
      apply Fin.ext
      rw [next_val, h2, v]
      norm_num
    · refine ⟨⟨b.val - 1, by omega⟩, ?_, ?_⟩
      · show 2 ≤ b.val - 1
        omega
      · apply Fin.ext
        rw [next_val]
        simp only
        split_ifs with h <;> omega
  · intro m hm
    apply Fin.ext
    rw [iterate_next_val m hm]
    have hlt := m.isLt
    omega
  · intro m hm k hk0 hk h
    have h1 := congrArg Fin.val h
    rw [iterate_next_val m hm] at h1
    have hlt := m.isLt
    omega

/-! ### Receiver: the in-order step with flush -/

theorem receiver_accept_stop (r : receiverT) (c : Nat) :
    (r.accept c).1.buffer (r.accept c).1.expected = none := by
  induction r, c using receiverT.accept.induct with
  | case1 r c it h ih =>
    rw [receiver_accept_some r c it h]
    exact ih
  | case2 r c h =>
    rw [receiver_accept_none r c h]
    exact h

theorem chain_distinct (b : Byte → Option itemT) (e : Byte) (k : Nat)
    (hocc : ∀ i, i < k → (b (next^[i] e)).isSome = true) (hemp : b (next^[k] e) = none)
    (i i2 : Nat) (hlt : i < i2) (hle : i2 ≤ k) : next^[i] e ≠ next^[i2] e := by
  intro h
  have h1 : next^[k] e = next^[k - i2 + i] e := by
    have h2 : k = k - i2 + i2 := by omega
    conv_lhs => rw [h2]
    rw [Function.iterate_add_apply, ← h, ← Function.iterate_add_apply]
  have h3 := hocc (k - i2 + i) (by omega)
  rw [← h1, hemp] at h3
  simp at h3

theorem receiver_accept_flush (k : Nat) :
    ∀ (r : receiverT) (c : Nat),
      (∀ i, i < k → (r.buffer (next^[i] r.expected)).isSome = true) →
      r.buffer (next^[k] r.expected) = none →
      (r.accept c).1.expected = next^[k] r.expected ∧
        (r.accept c).2.length = k ∧
        (∀ i, i < k → ∃ it, r.buffer (next^[i] r.expected) = some it ∧
          (r.accept c).2[i]? = some (Event.onReceived c it.msg)) ∧
        (∀ i, i < k → (r.accept c).1.buffer (next^[i] r.expected) = none) ∧
        (∀ j, (∀ i, i < k → j ≠ next^[i] r.expected) →
          (r.accept c).1.buffer j = r.buffer j) := by
  induction k with
  | zero =>
    intro r c _ hemp
    have hb : r.buffer r.expected = none := hemp
    rw [receiver_accept_none r c hb]
    refine ⟨rfl, rfl, ?_, ?_, ?_⟩
    · intro i hi
      omega
    · intro i hi
      omega
    · intro j _
      rfl
  | succ k ih =>
    intro r c hocc hemp
    have hd := chain_distinct r.buffer r.expected (k + 1) hocc hemp
    obtain ⟨it, hb⟩ : ∃ it, r.buffer r.expected = some it := by
      have h0 := hocc 0 (by omega)
      simp only [Function.iterate_zero, id_eq] at h0
      exact Option.isSome_iff_exists.mp h0
    rw [receiver_accept_some r c it hb]
    have hbuf : ∀ i, i < k + 1 →
        Function.update r.buffer r.expected none (next^[i] (next r.expected)) =
          r.buffer (next^[i + 1] r.expected) := by
      intro i hi
      rw [← Function.iterate_succ_apply]
      have hne : next^[i + 1] r.expected ≠ r.expected := by
        have := hd 0 (i + 1) (by omega) (by omega)
        simp only [Function.iterate_zero, id_eq] at this
        exact fun h => this h.symm
      rw [Function.update_noteq hne]
    obtain ⟨e1, e2, e3, e4, e5⟩ := ih
      { r with buffer := Function.update r.buffer r.expected none,
               expected := next r.expected } c
      (by
        intro i hi
        show (Function.update r.buffer r.expected none (next^[i] (next r.expected))).isSome = true
        rw [hbuf i (by omega)]
        exact hocc (i + 1) (by omega))
      (by
        show Function.update r.buffer r.expected none (next^[k] (next r.expected)) = none
        rw [hbuf k (by omega)]
        exact hemp)
    simp only at e1 e2 e3 e4 e5
    refine ⟨?_, ?_, ?_, ?_, ?_⟩
    · rw [e1, Function.iterate_succ_apply]
    · simp only [List.length_cons, e2]
    · intro i hi
      cases i with
      | zero =>
        refine ⟨it, hb, ?_⟩
        simp
      | succ i =>
        obtain ⟨it2, h1, h2⟩ := e3 i (by omega)
        rw [hbuf i (by omega)] at h1
        refine ⟨it2, h1, ?_⟩
        simp only [List.getElem?_cons_succ]
        exact h2
    · intro i hi
      cases i with
      | zero =>
        simp only [Function.iterate_zero, id_eq]
        rw [e5 r.expected]
        · simp
        · intro i hi2
          have := hd 0 (i + 1) (by omega) (by omega)
          simp only [Function.iterate_zero, id_eq] at this
          rw [← Function.iterate_succ_apply]
          exact this
      | succ i =>
        rw [Function.iterate_succ_apply]
        exact e4 i (by omega)
    · intro j hj
      rw [e5 j]
      · have hje : j ≠ r.expected := by
          have := hj 0 (by omega)
          simpa using this
        rw [Function.update_noteq hje]
      · intro i hi
        rw [← Function.iterate_succ_apply]
        exact hj (i + 1) (by omega)

theorem receiver_reach_vacant (r : receiverT) (hr : receiverT.Reach r) :
    r.buffer r.expected = none := by
  induction hr with
  | init => rfl
  | onMsg r id crcid msg addr _ ih =>
    by_cases hs : id = syn
    · rw [hs, onMsg_syn]
    · by_cases hc : r.connected = true
      · by_cases he : id = r.expected
        · rw [onMsg_expected r id crcid msg addr hs hc he]
          exact receiver_accept_stop _ _
        · by_cases ha : after id r.expected = true
          · by_cases hpp : (r.pending.val + 1) % 256 < maxPending
            · rw [onMsg_store r id crcid msg addr hc hs ha hpp]
              show Function.update r.buffer id (some { msg := msg }) r.expected = none
              rw [Function.update_noteq (fun h => he h.symm)]
              exact ih
            · rw [onMsg_overflow r id crcid msg addr hc hs ha (by omega)]
          · rw [onMsg_behind r id crcid msg addr hs hc he (by simpa using ha)]
            exact ih
      · rw [onMsg_not_connected r id crcid msg addr hs (by simpa using hc)]
        exact ih

/-- C31: the in-order step with flush. The receiver is connected and `id = expected`; `k` is
the number of buffered messages that follow `id` without a gap: the slots `next id`,
`next (next id)`, ... are occupied for `k` steps and the slot after them is empty.

For `id` other than SYN, `onMsg` writes the ack `[id, c big-endian]`, hands the arriving
payload to the handler and then the payloads of those `k` slots, in that order (the `k` slots
are different slots, so each is delivered once), and makes no other call; it empties the `k`
slots and leaves every other slot unchanged, sets `expected` to the id of the first empty
slot, sets the out-of-order counter to 0 and stays connected. In every state reachable from a
new receiver `id` is not SYN and such a `k` exists, with `k ≤ 253`. -/
theorem onMsg_in_order_flush (r : receiverT) (id : Byte) (c : Nat) (msg : List Byte)
    (addr : Addr) (hc : r.connected = true) (he : id = r.expected) :
    (id ≠ syn → ∀ k : Nat,
      (∀ i, i < k → (r.buffer (next^[i + 1] id)).isSome = true) →
      r.buffer (next^[k + 1] id) = none →
      ∃ flush : List Event,
        (r.onMsg id c msg addr).2 =
          Event.write [id, byteOf (c >>> 24), byteOf (c >>> 16), byteOf (c >>> 8), byteOf c] addr ::
            Event.onReceived c msg :: flush ∧
        flush.length = k ∧
        (∀ i, i < k → ∃ it, r.buffer (next^[i + 1] id) = some it ∧
          flush[i]? = some (Event.onReceived c it.msg)) ∧
        (∀ i i2, i < k → i2 < k → next^[i + 1] id = next^[i2 + 1] id → i = i2) ∧
        (∀ i, i < k → (r.onMsg id c msg addr).1.buffer (next^[i + 1] id) = none) ∧
        (∀ j, (∀ i, i < k → j ≠ next^[i + 1] id) →
          (r.onMsg id c msg addr).1.buffer j = r.buffer j) ∧
        (r.onMsg id c msg addr).1.expected = next^[k + 1] id ∧
        (r.onMsg id c msg addr).1.pending = 0 ∧
        (r.onMsg id c msg addr).1.connected = true) ∧
      (receiverT.Reach r →
        id ≠ syn ∧
          ∃ k : Nat, k ≤ 253 ∧
            (∀ i, i < k → (r.buffer (next^[i + 1] id)).isSome = true) ∧
            r.buffer (next^[k + 1] id) = none) := by
  constructor
  · intro hid k hocc hemp
    rw [onMsg_expected r id c msg addr hid hc he]
    have hocc2 : ∀ i, i < k → (r.buffer (next^[i] (next id))).isSome = true := by
      intro i hi
      rw [← Function.iterate_succ_apply]
      exact hocc i hi
    have hemp2 : r.buffer (next^[k] (next id)) = none := by
      rw [← Function.iterate_succ_apply]
      exact hemp
    obtain ⟨e1, e2, e3, e4, e5⟩ :=
      receiver_accept_flush k { r with expected := next id, pending := 0 } c hocc2 hemp2
    have hf := receiver_accept_fields { r with expected := next id, pending := 0 } c
    have hd := chain_distinct r.buffer (next id) k hocc2 hemp2
    simp only at e1 e2 e3 e4 e5
    refine ⟨(receiverT.accept { r with expected := next id, pending := 0 } c).2, rfl, e2, ?_, ?_,
      ?_, ?_, ?_, ?_, ?_⟩
    · intro i hi
      rw [Function.iterate_succ_apply]
      exact e3 i hi
    · intro i i2 hi hi2 h
      rw [Function.iterate_succ_apply, Function.iterate_succ_apply] at h
      rcases Nat.lt_trichotomy i i2 with hlt | heq | hgt
      · exact absurd h (hd i i2 hlt (by omega))
      · exact heq
      · exact absurd h.symm (hd i2 i hgt (by omega))
    · intro i hi
      rw [Function.iterate_succ_apply]
      exact e4 i hi
    · intro j hj
      apply e5 j
      intro i hi
      rw [← Function.iterate_succ_apply]
      exact hj i hi
    · rw [e1, Function.iterate_succ_apply]
    · exact hf.2.1
    · rw [hf.1]
      exact hc
  · intro hr
    have h2 : 2 ≤ id.val := by
      rw [he]
      exact (receiver_reach_inv r hr hc).1
    have hvac : r.buffer id = none := by
      rw [he]
      exact receiver_reach_vacant r hr
    have h254 : next^[253 + 1] id = id := by
      apply Fin.ext
      rw [iterate_next_val id h2]
      have hl := id.isLt
      omega
    refine ⟨ne_syn_of_two_le id h2, ?_⟩
    classical
    have hex : ∃ k, r.buffer (next^[k + 1] id) = none := ⟨253, by rw [h254]; exact hvac⟩
    refine ⟨Nat.find hex, Nat.find_min' hex (by rw [h254]; exact hvac), ?_, Nat.find_spec hex⟩
    intro i hi
    have hmin := Nat.find_min hex hi
    cases hb : r.buffer (next^[i + 1] id) with
    | none => exact absurd hb hmin
    | some _ => rfl

/-- C31, witness: a connected receiver that expects 2 and holds `[0x42]` in slot 3 receives
`[0x41]` under id 2: the ack and the arriving payload are followed by one flushed call. -/
theorem onMsg_in_order_flush_witness :
    (receiverT.mk 2 true 1 (Function.update (fun _ => none) 3 (some { msg := [0x42] }))).connected
        = true ∧
      ∃ flush : List Event,
        ((receiverT.mk 2 true 1 (Function.update (fun _ => none) 3 (some { msg := [0x42] }))).onMsg
            2 7 [0x41] none).2 =
          Event.write [2, byteOf (7 >>> 24), byteOf (7 >>> 16), byteOf (7 >>> 8), byteOf 7] none ::
            Event.onReceived 7 [0x41] :: flush ∧
        flush.length = 1 ∧ flush[0]? = some (Event.onReceived 7 [0x42]) := by
  refine ⟨rfl, ?_⟩
  have n2 : next 2 = 3 := Fin.ext (by rw [next_val]; rfl)
  have n3 : next 3 = 4 := Fin.ext (by rw [next_val]; rfl)
  have c1 : next^[0 + 1] (2 : Byte) = 3 := n2
  have c2 : next^[1 + 1] (2 : Byte) = 4 := by
    show next (next 2) = 4
    rw [n2, n3]
  obtain ⟨flush, h1, h2, h3, -⟩ :=
    (onMsg_in_order_flush
      (receiverT.mk 2 true 1 (Function.update (fun _ => none) 3 (some { msg := [0x42] })))
      2 7 [0x41] none rfl rfl).1 (by decide) 1
      (by
        intro i hi
        have hi0 : i = 0 := by omega
        subst hi0
        rw [c1]
        show (Function.update (fun _ => none) (3 : Byte) (some ({ msg := [0x42] } : itemT))
          3).isSome = true
        rw [Function.update_same]
        rfl)
      (by
        rw [c2]
        show Function.update (fun _ => none) (3 : Byte) (some ({ msg := [0x42] } : itemT)) 4 = none
        rw [Function.update_noteq (by decide)])
  refine ⟨flush, h1, h2, ?_⟩
  obtain ⟨it, hb, hf⟩ := h3 0 (by omega)
  rw [c1] at hb
  change Function.update (fun _ => none) (3 : Byte) (some ({ msg := [0x42] } : itemT)) 3 =
    some it at hb
  rw [Function.update_same] at hb
  rw [hf, ← Option.some.inj hb]

/-! ### Frame conditions of `send` and `trigger` -/

/-- C32: for every connected sender, `send p addr` sets `id` to `next` of the old `id`, stores
in ring slot `id` an unacknowledged item that holds the framed bytes
`[id, crcid big-endian] ++ p` and `addr`, with attempt 0, tick count 0, `nextRepeat` 0 and
start tick equal to the current `totalTicks`, leaves every other ring slot, `expectedAck`,
`srtt`, `totalTicks`, `connected` and `crcid` unchanged, returns no error, and makes exactly
one call: the socket write of the framed bytes to `addr`. -/
theorem send_frame (s : senderT) (p : List Byte) (addr : Addr) (hc : s.connected = true) :
    (s.send p addr).1.id = next s.id ∧
      (s.send p addr).1.buffer (next s.id) =
        some { ack := false, startRtt := s.totalTicks, ticks := 0, attempt := 0, nextRepeat := 0,
               msg := [next s.id, byteOf (s.crcid >>> 24), byteOf (s.crcid >>> 16),
                 byteOf (s.crcid >>> 8), byteOf s.crcid] ++ p,
               addr := addr } ∧
      (∀ j, j ≠ next s.id → (s.send p addr).1.buffer j = s.buffer j) ∧
      (s.send p addr).1.expectedAck = s.expectedAck ∧
      (s.send p addr).1.srtt = s.srtt ∧
      (s.send p addr).1.totalTicks = s.totalTicks ∧
      (s.send p addr).1.connected = s.connected ∧
      (s.send p addr).1.crcid = s.crcid ∧
      (s.send p addr).2.1 =
        [Event.write ([next s.id, byteOf (s.crcid >>> 24), byteOf (s.crcid >>> 16),
          byteOf (s.crcid >>> 8), byteOf s.crcid] ++ p) addr] ∧
      (s.send p addr).2.2 = none := by
  unfold senderT.send
  rw [if_pos hc]
  refine ⟨rfl, ?_, ?_, rfl, rfl, rfl, rfl, rfl, rfl, rfl⟩
  · simp [header]
  · intro j hj
    simp [Function.update_noteq hj]

/-- C32, witness: a connected sender just after the handshake. -/
theorem send_frame_witness :
    (senderT.mk 0 2 true 5 3 7 (fun _ => none)).connected = true ∧
      ((senderT.mk 0 2 true 5 3 7 (fun _ => none)).send [0x41] none).1.totalTicks = 3 ∧
      ((senderT.mk 0 2 true 5 3 7 (fun _ => none)).send [0x41] none).2.2 = none :=
  ⟨rfl, (send_frame (senderT.mk 0 2 true 5 3 7 (fun _ => none)) [0x41] none rfl).2.2.2.2.2.1,
    (send_frame (senderT.mk 0 2 true 5 3 7 (fun _ => none)) [0x41] none rfl).2.2.2.2.2.2.2.2.2⟩

/-- C35: the frame of `trigger`. It always increments `totalTicks` (an unsigned increment:
exactly `totalTicks + 1` unless the counter overflows) and never changes `id`, `expectedAck`,
`srtt` or `crcid`. If the slot at `expectedAck` is empty, or holds an acknowledged item, it
does nothing else: no call is made and no slot and no other field changes. Unless it signals
`ConnectionFailed`, it leaves `connected` and every ring slot other than the one at
`expectedAck` unchanged, and every datagram it writes is the stored message of the slot at
`expectedAck`, written to the stored address. -/
theorem trigger_frame (s : senderT) :
    s.trigger.1.totalTicks = (s.totalTicks + 1) % uintSize ∧
      (s.totalTicks + 1 < uintSize → s.trigger.1.totalTicks = s.totalTicks + 1) ∧
      s.trigger.1.id = s.id ∧ s.trigger.1.expectedAck = s.expectedAck ∧
      s.trigger.1.srtt = s.srtt ∧ s.trigger.1.crcid = s.crcid ∧
      ((s.buffer s.expectedAck = none ∨ ∃ it, s.buffer s.expectedAck = some it ∧ it.ack = true) →
        s.trigger.2 = [] ∧ s.trigger.1.buffer = s.buffer ∧
          s.trigger.1.connected = s.connected) ∧
      (failures s.trigger.2 = [] →
        s.trigger.1.connected = s.connected ∧
          ∀ j, j ≠ s.expectedAck → s.trigger.1.buffer j = s.buffer j) ∧
      (∀ d a, Event.write d a ∈ s.trigger.2 →
        ∃ it, s.buffer s.expectedAck = some it ∧ it.msg = d ∧ it.addr = a) := by
  have h1 : s.trigger.1.totalTicks = (s.totalTicks + 1) % uintSize := by
    unfold senderT.trigger
    simp only
    split
    · split_ifs <;> rfl
    · rfl
  refine ⟨h1, ?_, ?_, ?_, ?_, ?_, ?_, ?_, ?_⟩
  · intro h
    rw [h1, Nat.mod_eq_of_lt h]
  · unfold senderT.trigger
    simp only
    split
    · split_ifs <;> rfl
    · rfl
  · unfold senderT.trigger
    simp only
    split
    · split_ifs <;> rfl
    · rfl
  · unfold senderT.trigger
    simp only
    split
    · split_ifs <;> rfl
    · rfl
  · unfold senderT.trigger
    simp only
    split
    · split_ifs <;> rfl
    · rfl
  · rintro (h | ⟨it, h, hack⟩)
    · unfold senderT.trigger
      simp only [h]
      refine ⟨?_, ?_, ?_⟩ <;> first | rfl | trivial
    · unfold senderT.trigger
      simp only [h, hack]
      refine ⟨?_, ?_, ?_⟩ <;> rfl
  · unfold senderT.trigger
    simp only
    split
    · rename_i it hb
      split_ifs
      · intro h
        simp [failures] at h
      · intro _
        refine ⟨rfl, fun j hj => ?_⟩
        simp [Function.update_noteq hj]
      · intro _
        refine ⟨rfl, fun j hj => ?_⟩
        simp [Function.update_noteq hj]
      · intro _
        refine ⟨rfl, fun j hj => ?_⟩
        simp [Function.update_noteq hj]
      · intro _
        exact ⟨rfl, fun j hj => rfl⟩
    · intro _
      exact ⟨rfl, fun j hj => rfl⟩
  · unfold senderT.trigger
    simp only
    split
    · rename_i it hb
      split_ifs
      · intro d a h
        simp at h
      · intro d a h
        simp only [List.mem_singleton, Event.write.injEq] at h
        exact ⟨it, hb, h.1.symm, h.2.symm⟩
      · intro d a h
        simp at h
      · intro d a h
        simp at h
      · intro d a h
        simp at h
    · intro d a h
      simp at h

/-! ### Coordinator: address bindings and `Send` without a binding -/

theorem callback_addresses (p : SwUDP) (e : Event) : (p.callback e).1.addresses = p.addresses := by
  cases e with
  | write d a => rfl
  | onReceived c m => rfl
  | OnSenderConnected => rfl
  | OnReceiverConnected c a =>
    simp only [SwUDP.callback, SwUDP.OnReceiverConnected]
    exact (getSender_eq p c).2.2.1
  | ConnectionFailed c => rfl

theorem callbacks_addresses (evs : List Event) :
    ∀ p : SwUDP, (p.callbacks evs).1.addresses = p.addresses := by
  induction evs with
  | nil => intro p; rfl
  | cons e es ih =>
    intro p
    simp only [SwUDP.callbacks]
    rw [ih, callback_addresses]

/-- C36: for every datagram of at least 5 bytes received from address `a`, with `c` the
connection id read big-endian from bytes 1..4, after `OnReceived` the address bound to `c` is
`a`, whether the datagram is an ack (exactly 5 bytes) or a data packet and whatever the
sender or receiver does with it, and the binding of every other connection id is unchanged
(the call returns no error). -/
theorem OnReceived_binds_address (p : SwUDP) (d0 d1 d2 d3 d4 : Byte) (rest : List Byte)
    (a : Addr) :
    (p.OnReceived (d0 :: d1 :: d2 :: d3 :: d4 :: rest) a).1.addresses.lookup
        ((d1.val <<< 24) ||| (d2.val <<< 16) ||| (d3.val <<< 8) ||| d4.val) = some a ∧
      (∀ k, k ≠ ((d1.val <<< 24) ||| (d2.val <<< 16) ||| (d3.val <<< 8) ||| d4.val) →
        (p.OnReceived (d0 :: d1 :: d2 :: d3 :: d4 :: rest) a).1.addresses.lookup k =
          p.addresses.lookup k) ∧
      (p.OnReceived (d0 :: d1 :: d2 :: d3 :: d4 :: rest) a).2.2 = none := by
  have hkey : (p.OnReceived (d0 :: d1 :: d2 :: d3 :: d4 :: rest) a).1.addresses =
      p.addresses.insert ((d1.val <<< 24) ||| (d2.val <<< 16) ||| (d3.val <<< 8) ||| d4.val) a ∧
      (p.OnReceived (d0 :: d1 :: d2 :: d3 :: d4 :: rest) a).2.2 = none := by
    unfold SwUDP.OnReceived
    rw [parseHeader_five]
    simp only
    split_ifs with h
    · refine ⟨?_, rfl⟩
      rw [callbacks_addresses]
      exact (getSender_eq _ _).2.2.1
    · refine ⟨?_, rfl⟩
      rw [callbacks_addresses]
      exact (getReceiver_eq _ _).2.2.1
  refine ⟨?_, ?_, hkey.2⟩
  · rw [hkey.1]
    exact AList.lookup_insert _
  · intro k hk
    rw [hkey.1]
    exact AList.lookup_insert_ne hk

/-- C39: for every coordinator state and every connection id `c` without an address binding,
`Send data c` returns the error with code 10 and makes no call (no socket write), yet when no
sender was registered for `c` it registers a fresh sender (`newSender`, not connected) for
`c`, so `GetSendersCount` grows by one; when a sender for `c` existed the coordinator is
unchanged. Receivers, address bindings and the senders of other ids are unchanged. -/
theorem Send_without_address (p : SwUDP) (data : List Byte) (c : Nat)
    (ha : p.addresses.lookup c = none) :
    (p.Send data c).2.2 = some 10 ∧ (p.Send data c).2.1 = [] ∧
      (p.senders.lookup c = none →
        (p.Send data c).1.senders.lookup c = some newSender ∧ newSender.connected = false ∧
          (p.Send data c).1.GetSendersCount = p.GetSendersCount + 1) ∧
      (p.senders.lookup c ≠ none → (p.Send data c).1 = p) ∧
      (∀ k, k ≠ c → (p.Send data c).1.senders.lookup k = p.senders.lookup k) ∧
      (p.Send data c).1.receivers = p.receivers ∧
      (p.Send data c).1.addresses = p.addresses := by
  have hg3 : (p.getSender c).1.addresses = p.addresses := (getSender_eq p c).2.2.1
  have hres : p.Send data c = ((p.getSender c).1, [], some 10) := by
    unfold SwUDP.Send
    simp only
    rw [hg3, ha]
  rw [hres]
  refine ⟨rfl, rfl, ?_, ?_, ?_, (getSender_eq p c).2.1, hg3⟩
  · intro hn
    have hmem : c ∉ p.senders := AList.lookup_eq_none.mp hn
    simp only [SwUDP.getSender, hn, SwUDP.GetSendersCount]
    refine ⟨AList.lookup_insert _, rfl, ?_⟩
    rw [AList.insert_entries_of_neg hmem]
    rfl
  · intro hs
    cases hl : p.senders.lookup c with
    | none => exact absurd hl hs
    | some s => simp only [SwUDP.getSender, hl]
  · intro k hk
    cases hl : p.senders.lookup c with
    | none =>
      simp only [SwUDP.getSender, hl]
      exact AList.lookup_insert_ne hk
    | some s => simp only [SwUDP.getSender, hl]

/-- C39, witness: the empty coordinator and connection id 7. -/
theorem Send_without_address_witness :
    (⟨∅, ∅, ∅⟩ : SwUDP).addresses.lookup 7 = none ∧
      ((⟨∅, ∅, ∅⟩ : SwUDP).Send [0x41] 7).2.2 = some 10 ∧
      ((⟨∅, ∅, ∅⟩ : SwUDP).Send [0x41] 7).2.1 = [] :=
  ⟨rfl, (Send_without_address ⟨∅, ∅, ∅⟩ [0x41] 7 rfl).1,
    (Send_without_address ⟨∅, ∅, ∅⟩ [0x41] 7 rfl).2.1⟩

/-! ### Start ticks and the tick counter -/

theorem reach_triggerN (s0 : senderT) (k : Nat) :
    ∀ s : senderT, senderT.Reach s0 s → senderT.Reach s0 (s.triggerN k) := by
  induction k with
  | zero => intro s h; exact h
  | succ k ih =>
    intro s h
    exact ih _ (senderT.Reach.trigger s h)

theorem triggerN_vacant (k : Nat) :
    ∀ s : senderT, s.buffer s.expectedAck = none →
      (s.triggerN (k + 1)).buffer = s.buffer ∧
        (s.triggerN (k + 1)).totalTicks = (s.totalTicks + (k + 1)) % uintSize := by
  have hstep : ∀ s : senderT, s.buffer s.expectedAck = none →
      s.trigger.1 = { s with totalTicks := (s.totalTicks + 1) % uintSize } := by
    intro s hb
    unfold senderT.trigger
    simp only [hb]
  induction k with
  | zero =>
    intro s hb
    simp only [senderT.triggerN]
    rw [hstep s hb]
    exact ⟨rfl, rfl⟩
  | succ k ih =>
    intro s hb
    have h1 : s.triggerN (k + 1 + 1) = s.trigger.1.triggerN (k + 1) := rfl
    rw [h1, hstep s hb]
    obtain ⟨h2, h3⟩ := ih { s with totalTicks := (s.totalTicks + 1) % uintSize } hb
    refine ⟨h2, ?_⟩
    rw [h3]
    show ((s.totalTicks + 1) % uintSize + (k + 1)) % uintSize =
      (s.totalTicks + (k + 1 + 1)) % uintSize
    rw [Nat.add_mod, Nat.mod_mod, ← Nat.add_mod]
    congr 1
    omega

/-- C37, counterexample: a state reachable from `newSender` (`onAck 0`, one `trigger`, one
`send`, then `2 ^ 64 - 1` further `trigger` calls, which only tick because the slot at
`expectedAck = 0` is empty) in which slot 2 is occupied with `startRtt = 1` while
`totalTicks` has wrapped around to 0. -/
theorem startRtt_after_wrap :
    ∃ s : senderT, senderT.Reach newSender s ∧
      ∃ (j : Byte) (it : itemT), s.buffer j = some it ∧ s.totalTicks < it.startRtt := by
  obtain ⟨s3, hs3⟩ : ∃ s3, s3 = senderT.mk 2 0 true 0 1 0
      (Function.update (fun _ => none) 2
        (some { startRtt := 1, msg := header 2 0 ++ [], addr := none })) := ⟨_, rfl⟩
  have hreach : senderT.Reach newSender s3 := by
    have h1 : senderT.Reach newSender (newSender.onAck syn).1 :=
      senderT.Reach.onAck _ syn senderT.Reach.init
    rw [onAck_syn_newSender] at h1
    have h2 := senderT.Reach.trigger _ h1
    have ht : (senderT.trigger { newSender with connected := true }).1 =
        senderT.mk 0 0 true 0 1 0 (fun _ => none) := by
      unfold senderT.trigger
      rfl
    rw [ht] at h2
    have h3 := senderT.Reach.send _ [] none h2
    have hsend : ((senderT.mk 0 0 true 0 1 0 (fun _ => none)).send [] none).1 = s3 := by
      rw [send_connected _ _ _ rfl, hs3]
      simp only [next_zero]
    rw [hsend] at h3
    exact h3
  have hb : s3.buffer s3.expectedAck = none := by
    rw [hs3]
    rfl
  obtain ⟨h4, h5⟩ := triggerN_vacant (2 ^ 64 - 2) s3 hb
  refine ⟨s3.triggerN (2 ^ 64 - 2 + 1), reach_triggerN _ _ _ hreach, 2,
    { startRtt := 1, msg := header 2 0 ++ [], addr := none }, ?_, ?_⟩
  · rw [h4, hs3]
    rfl
  · rw [h5, hs3]
    show (1 + (2 ^ 64 - 2 + 1)) % uintSize < 1
    unfold uintSize
    norm_num

theorem onAck_startRtt (s : senderT) (ack j : Byte) (it1 : itemT)
    (h : (s.onAck ack).1.buffer j = some it1) :
    ∃ it, s.buffer j = some it ∧ it1.startRtt = it.startRtt := by
  have key : ∀ s1 : senderT,
      (∀ x it1, s1.buffer x = some it1 → ∃ it, s.buffer x = some it ∧ it1.startRtt = it.startRtt) →
      ∀ it1, ((if ack = syn then
          (({ s1 with connected := true } : senderT), [Event.OnSenderConnected])
        else if ack = errAck then
          ({ s1 with connected := false, buffer := fun _ => none },
            [Event.ConnectionFailed s1.crcid])
        else (s1, [])).1.buffer j = some it1) →
        ∃ it, s.buffer j = some it ∧ it1.startRtt = it.startRtt := by
    intro s1 hs1 it1 h1
    split_ifs at h1 <;> exact hs1 j it1 h1
  unfold senderT.onAck at h
  cases hb : s.buffer ack with
  | none =>
    simp only [hb] at h
    exact key s (fun x it1 hx => ⟨it1, hx, rfl⟩) it1 h
  | some it0 =>
    simp only [hb] at h
    have hupd : ∀ x it1, Function.update s.buffer ack (some { it0 with ack := true }) x = some it1 →
        ∃ it, s.buffer x = some it ∧ it1.startRtt = it.startRtt := by
      intro x it1 hx
      by_cases hxa : x = ack
      · subst hxa
        rw [Function.update_same] at hx
        refine ⟨it0, hb, ?_⟩
        cases hx
        rfl
      · rw [Function.update_noteq hxa] at hx
        exact ⟨it1, hx, rfl⟩
    by_cases he : ack = s.expectedAck
    · simp only [he, if_true] at h
      refine key _ ?_ it1 (by simpa only [he] using h)
      intro x it1 hx
      obtain ⟨-, -, -, -, hmono⟩ := accept_spec
        { s with
          buffer := Function.update s.buffer s.expectedAck (some { it0 with ack := true }),
          srtt := MinF (MaxF (addF32 (mulF32 (f32 rc) s.srtt) (mulF32 (f32 (1 - rc))
            (f32 (((s.totalTicks + uintSize - it0.startRtt % uintSize + 1) % uintSize : Nat) : ℚ))))
            minSRTT) maxSRTT }
      rcases hmono x with hm | hm
      · rw [hm] at hx
        exact hupd x it1 (by rw [he]; exact hx)
      · rw [hm] at hx
        cases hx
    · simp only [he, if_false] at h
      exact key _ hupd it1 h

theorem trigger_startRtt (s : senderT) (j : Byte) (it1 : itemT)
    (h : s.trigger.1.buffer j = some it1) :
    ∃ it, s.buffer j = some it ∧
      (it1.startRtt = it.startRtt ∨ it1.startRtt = (s.totalTicks + 1) % uintSize) := by
  unfold senderT.trigger at h
  simp only at h
  split at h
  · rename_i it hb
    by_cases hj : j = s.expectedAck
    · subst hj
      split_ifs at h <;>
        first
        | exact ⟨it1, h, Or.inl rfl⟩
        | (simp only [Function.update_same, Option.some.injEq] at h
           subst h
           first
           | exact ⟨it, hb, Or.inl rfl⟩
           | exact ⟨it, hb, Or.inr rfl⟩)
    · split_ifs at h <;>
        first
        | exact ⟨it1, h, Or.inl rfl⟩
        | (simp only [Function.update_noteq hj] at h
           exact ⟨it1, h, Or.inl rfl⟩)
  · exact ⟨it1, h, Or.inl rfl⟩

theorem reachNoWrap_inv (s : senderT) (hr : senderT.ReachNoWrap s) :
    s.totalTicks < uintSize ∧ ∀ j it, s.buffer j = some it → it.startRtt ≤ s.totalTicks := by
  induction hr with
  | init =>
    refine ⟨by unfold uintSize newSender; norm_num, ?_⟩
    intro j it h
    simp [newSender] at h
  | connect s c addr _ ih =>
    refine ⟨by unfold uintSize senderT.connect; norm_num, ?_⟩
    intro j it h
    simp only [senderT.connect] at h ⊢
    by_cases hj : j = syn
    · subst hj
      simp only [Function.update_same, Option.some.injEq] at h
      subst h
      exact le_refl _
    · simp [Function.update_noteq hj] at h
  | send s msg addr _ ih =>
    unfold senderT.send
    split_ifs with hc
    · refine ⟨ih.1, ?_⟩
      intro j it h
      simp only at h ⊢
      by_cases hj : j = next s.id
      · subst hj
        simp only [Function.update_same, Option.some.injEq] at h
        subst h
        exact le_refl _
      · rw [Function.update_noteq hj] at h
        exact ih.2 j it h
    · exact ih
  | onAck s ack _ ih =>
    rw [onAck_totalTicks]
    refine ⟨ih.1, ?_⟩
    intro j it1 h
    obtain ⟨it, hb, he⟩ := onAck_startRtt s ack j it1 h
    rw [he]
    exact ih.2 j it hb
  | trigger s _ hlt ih =>
    have ht : s.trigger.1.totalTicks = s.totalTicks + 1 := by
      have h1 : s.trigger.1.totalTicks = (s.totalTicks + 1) % uintSize := by
        unfold senderT.trigger
        simp only
        split
        · split_ifs <;> rfl
        · rfl
      rw [h1, Nat.mod_eq_of_lt hlt]
    rw [ht]
    refine ⟨hlt, ?_⟩
    intro j it1 h
    obtain ⟨it, hb, he | he⟩ := trigger_startRtt s j it1 h
    · rw [he]
      exact Nat.le_succ_of_le (ih.2 j it hb)
    · rw [he, Nat.mod_eq_of_lt hlt]

/-- C37, amended: in every sender state reachable from a newly created sender by `connect`,
`send`, `onAck` and `trigger` calls none of which overflowed the tick counter, every occupied
ring slot has `startRtt ≤ totalTicks`, so the unsigned subtraction `totalTicks - startRtt` of
`onAck` does not wrap around, and the round-trip sample `totalTicks - startRtt + 1` is that
plain number, at least 1, as long as `totalTicks + 1` is still a value of `uint`. -/
theorem startRtt_le_totalTicks (s : senderT) (hr : senderT.ReachNoWrap s) :
    s.totalTicks < uintSize ∧
      ∀ j it, s.buffer j = some it →
        it.startRtt ≤ s.totalTicks ∧
          (s.totalTicks + uintSize - it.startRtt % uintSize) % uintSize =
            s.totalTicks - it.startRtt ∧
          (s.totalTicks + 1 < uintSize →
            (s.totalTicks + uintSize - it.startRtt % uintSize + 1) % uintSize =
                s.totalTicks - it.startRtt + 1 ∧
              1 ≤ (s.totalTicks + uintSize - it.startRtt % uintSize + 1) % uintSize) := by
  obtain ⟨h1, h2⟩ := reachNoWrap_inv s hr
  refine ⟨h1, ?_⟩
  intro j it hb
  have h3 := h2 j it hb
  unfold uintSize at h1 ⊢
  have h4 : it.startRtt % 2 ^ 64 = it.startRtt := Nat.mod_eq_of_lt (by omega)
  rw [h4]
  refine ⟨h3, ?_, ?_⟩
  · omega
  · intro h5
    omega

/-- C37, amended, witness: the state after `connect`, whose SYN slot has `startRtt = 0`. -/
theorem startRtt_le_totalTicks_witness :
    senderT.ReachNoWrap (newSender.connect 7 none).1 ∧
      (newSender.connect 7 none).1.totalTicks < uintSize :=
  ⟨senderT.ReachNoWrap.connect _ 7 none senderT.ReachNoWrap.init,
    (startRtt_le_totalTicks _ (senderT.ReachNoWrap.connect _ 7 none senderT.ReachNoWrap.init)).1⟩

/-! ### Termination of the recursive cascades -/

theorem occupied_update_none (b : Byte → Option itemT) (j : Byte) (it : itemT)
    (h : b j = some it) : occupied (Function.update b j none) + 1 = occupied b := by
  unfold occupied
  have hmem : j ∈ Finset.univ.filter (fun x => (b x).isSome = true) := by simp [h]
  have heq : Finset.univ.filter (fun x => ((Function.update b j none) x).isSome = true) =
      (Finset.univ.filter (fun x => (b x).isSome = true)).erase j := by
    ext x
    by_cases hx : x = j
    · subst hx
      simp
    · simp [Function.update_noteq hx, hx]
  rw [heq, Finset.card_erase_of_mem hmem]
  have hpos : 0 < (Finset.univ.filter (fun x => (b x).isSome = true)).card :=
    Finset.card_pos.mpr ⟨j, hmem⟩
  omega

theorem occupied_le (b : Byte → Option itemT) : occupied b ≤ 256 := by
  unfold occupied
  calc (Finset.univ.filter (fun x => (b x).isSome = true)).card
      ≤ (Finset.univ : Finset Byte).card := Finset.card_filter_le _ _
    _ = 256 := by rw [Finset.card_univ, Fintype.card_fin]

theorem occupied_zero (b : Byte → Option itemT) (h : occupied b = 0) (j : Byte) : b j = none := by
  unfold occupied at h
  rw [Finset.card_eq_zero] at h
  cases hb : b j with
  | none => rfl
  | some it =>
    have hmem : j ∈ Finset.univ.filter (fun x => (b x).isSome = true) := by simp [hb]
    rw [h] at hmem
    simp at hmem

theorem nextFuel_two (m : Byte) : nextFuel 2 m = some (next m) := by
  have key : ∀ m : Byte, nextFuel 2 m = some (next m) := by
    intro m
    have hl := m.isLt
    by_cases h255 : m.val = 255
    · have hm : m = 255 := Fin.ext h255
      subst hm
      have hn : next 255 = 2 := by
        apply Fin.ext
        rw [next_val]
        rfl
      rw [hn]
      decide
    · by_cases h0 : m.val = 0
      · have hm : m = 0 := Fin.ext h0
        subst hm
        rw [next_zero]
        decide
      · have hok : byteOf (m.val + 1) ≠ syn ∧ byteOf (m.val + 1) ≠ errAck := by
          constructor
          · intro h
            have h1 := congrArg Fin.val h
            simp only [byteOf, syn] at h1
            have h2 : ((0 : Byte).val) = 0 := rfl
            omega
          · intro h
            have h1 := congrArg Fin.val h
            simp only [byteOf, errAck] at h1
            have h2 : ((1 : Byte).val) = 1 := rfl
            omega
        rw [next_unfold, if_pos hok]
        simp only [nextFuel]
        rw [if_pos hok]
  exact key m

theorem sender_acceptFuel_eq (fuel : Nat) :
    ∀ s : senderT, occupied s.buffer ≤ fuel → senderT.acceptFuel fuel s = some s.accept := by
  induction fuel with
  | zero =>
    intro s h
    have hb := occupied_zero s.buffer (Nat.le_zero.mp h) s.expectedAck
    rw [sender_accept_none s hb]
    simp only [senderT.acceptFuel, hb]
  | succ f ih =>
    intro s h
    cases hb : s.buffer s.expectedAck with
    | none =>
      rw [sender_accept_none s hb]
      simp only [senderT.acceptFuel, hb]
    | some it =>
      cases hack : it.ack with
      | false =>
        rw [sender_accept_some_noack s it hb hack]
        simp only [senderT.acceptFuel, hb, hack]
        rfl
      | true =>
        rw [sender_accept_some_ack s it hb hack]
        simp only [senderT.acceptFuel, hb, hack]
        have h1 := occupied_update_none s.buffer s.expectedAck it hb
        exact ih _ (by show occupied (Function.update s.buffer s.expectedAck none) ≤ f; omega)

theorem receiver_acceptFuel_eq (fuel : Nat) :
    ∀ (r : receiverT) (c : Nat), occupied r.buffer ≤ fuel →
      receiverT.acceptFuel fuel r c = some (r.accept c) := by
  induction fuel with
  | zero =>
    intro r c h
    have hb := occupied_zero r.buffer (Nat.le_zero.mp h) r.expected
    rw [receiver_accept_none r c hb]
    simp only [receiverT.acceptFuel, hb]
  | succ f ih =>
    intro r c h
    cases hb : r.buffer r.expected with
    | none =>
      rw [receiver_accept_none r c hb]
      simp only [receiverT.acceptFuel, hb]
    | some it =>
      rw [receiver_accept_some r c it hb]
      have h1 := occupied_update_none r.buffer r.expected it hb
      have h2 := ih { r with buffer := Function.update r.buffer r.expected none,
                             expected := next r.expected } c
        (by show occupied (Function.update r.buffer r.expected none) ≤ f; omega)
      simp only [receiverT.acceptFuel, hb, h2]

/-- C38: the recursive cascades terminate on every input. `next m` makes at most 2 recursive
calls for every byte `m` (and `next 255` needs both). From every sender state `accept`, and
from every receiver state `accept crcid`, returns within as many recursive calls as there are
occupied ring slots, hence within 256, because every recursive call is made on a ring in which
one more occupied slot has been emptied. -/
theorem cascades_terminate :
    (∀ m : Byte, nextFuel 2 m = some (next m)) ∧ nextFuel 1 255 = none ∧
      (∀ s : senderT, senderT.acceptFuel 256 s = some s.accept) ∧
      (∀ (r : receiverT) (c : Nat), receiverT.acceptFuel 256 r c = some (r.accept c)) ∧
      (∀ (s : senderT) (fuel : Nat), occupied s.buffer ≤ fuel →
        senderT.acceptFuel fuel s = some s.accept) ∧
      (∀ (r : receiverT) (c fuel : Nat), occupied r.buffer ≤ fuel →
        receiverT.acceptFuel fuel r c = some (r.accept c)) ∧
      (∀ (b : Byte → Option itemT) (j : Byte) (it : itemT), b j = some it →
        occupied (Function.update b j none) + 1 = occupied b) ∧
      (∀ b : Byte → Option itemT, occupied b ≤ 256) := by
  refine ⟨nextFuel_two, by decide, ?_, ?_, ?_, ?_, occupied_update_none, occupied_le⟩
  · intro s
    exact sender_acceptFuel_eq 256 s (occupied_le _)
  · intro r c
    exact receiver_acceptFuel_eq 256 r c (occupied_le _)
  · intro s fuel h
    exact sender_acceptFuel_eq fuel s h
  · intro r c fuel h
    exact receiver_acceptFuel_eq fuel r c h

end Swudp
